import Mathlib

/-!
# Reliable transfer over UDP: the receiver and sender state machines

A shallow embedding of `reliable_receiver.c`, `reliable_sender.c` and the
part of `udp.c` they use.

Conventions of the embedding.

* C `short`, `int` and `long` values are `Int`; `unsigned long long` values
  are `Nat` below `2 ^ 64`; file positions and sizes are `Nat`.
* C `%` on signed operands truncates toward zero: it is `Int.tmod`.
* The target is x86-64 Linux with gcc or clang. `int` has 32 bits and shifts
  are the machine's: the count of a 32-bit shift is taken modulo 32 and the
  count of a 64-bit shift modulo 64. C leaves those shifts undefined when the
  count reaches the width of the operand (and `1 << 31` on `int`); the
  source performs them in `mark_written` and `move_window`, and `shl_int`
  and `shr_ull64` are what the machine then computes.
* `sizeof(sender_packet_header_t)` depends on the layout of `struct timeval`
  and on padding. It is the parameter `hdr` (24 on x86-64 Linux).
* A file is its contents and its position indicator. The socket is the
  receive buffer, the result of the last receive and the list of the
  datagrams handed to `sendto`, oldest first.
* A `float` value is the rational it stands for and `to_float` is the
  rounding to IEEE 754 binary32. `update_rtt` uses the estimator on
  integers, `update_rtt_estimate`; `update_rtt_estimate_float` is the same
  expression with every rounding of the source, and the two agree while the
  sums stay below `2 ^ 24`.
-/

set_option maxRecDepth 100000

namespace ReliableTransfer

/-! ## Constants and machine arithmetic -/

abbrev byte := UInt8

def MAX_PACKET_SIZE : Nat := 1472

def MAX_WINDOW_SIZE : Int := 64

def MAX_SEQ : Int := 256

def EOF_SEQ_NUM : Int := -5

def TIMED_OUT : Int := 1

def TRANSFER_COMPLETE : Int := 2

def TRANSFER_IN_PROGRESS : Int := 3

/-- The constant `max_file_chunk_size`: `MAX_PACKET_SIZE - sizeof(sender_packet_header_t)`. -/
def max_file_chunk_size (hdr : Nat) : Nat := MAX_PACKET_SIZE - hdr

/-- The value an `int` object holds after `v` is stored in it: `v` reduced
modulo `2 ^ 32` into the two's complement range. -/
def to_int32 (v : Int) : Int := (v + 2 ^ 31) % 2 ^ 32 - 2 ^ 31

/-- Conversion of a signed value to `unsigned long long`: reduction modulo `2 ^ 64`. -/
def to_ull64 (v : Int) : Nat := (v % 2 ^ 64).toNat

/-- The expression `a << count` on `int` operands: the machine shifts by
`count` modulo 32 and keeps the low 32 bits. -/
def shl_int (a count : Int) : Int := to_int32 (a * 2 ^ (count % 32).toNat)

/-- The expression `x >> count` on an `unsigned long long` `x`: the machine
shifts by `count` modulo 64. -/
def shr_ull64 (x : Nat) (count : Int) : Nat := x >>> (count % 64).toNat

/-! ## Sequence utility functions -/

def safe_increment (current : Int) : Int := (current + 1).tmod MAX_SEQ

def safe_subtract (a b : Int) : Int :=
  let diff := (a - b).tmod MAX_SEQ
  if diff < 0 then diff + MAX_SEQ else diff

def safe_add (current amount : Int) : Int := (current + amount).tmod MAX_SEQ

def has_wrapped (next curr : Int) : Bool := decide (next - curr < 0)

/-! ## Packet headers -/

structure timeval where
  tv_sec : Int
  tv_usec : Int
deriving DecidableEq, Repr

structure sender_packet_header where
  seq_num : Int
  timestamp : timeval
deriving DecidableEq, Repr

structure recvr_packet_header where
  next_seq_num : Int
  timestamp : timeval
  window : Nat
deriving DecidableEq, Repr

/-- A datagram from the sender: a whole `sender_packet_header_t` and the
bytes that follow it. -/
structure datagram where
  header : sender_packet_header
  data : List byte
deriving DecidableEq, Repr

/-! ## The output file -/

/-- The stream behind `fwriter_t`: the contents of the file and the position
that `ftell` reports. -/
structure fwriter where
  content : List byte
  pos : Nat
deriving DecidableEq, Repr

/-- The result of `fopen(filename, "w+")`: an empty file. -/
def fwriter_create : fwriter := { content := [], pos := 0 }

/-- The call `fwrite(data, 1, data_size, file)`: nothing happens for no
bytes; otherwise the bytes replace or extend the contents at the position,
a gap between the old end and the position reads as zeros, and the position
moves past the bytes. -/
def fwrite (file : fwriter) (data : List byte) : fwriter :=
  if data = [] then file
  else
    { content :=
        file.content.take file.pos ++ List.replicate (file.pos - file.content.length) 0
          ++ data ++ file.content.drop (file.pos + data.length)
      pos := file.pos + data.length }

/-- The call `fseek(file, offset, SEEK_CUR)` with `offset >= 0`. -/
def fseek_cur (file : fwriter) (offset : Nat) : fwriter :=
  { file with pos := file.pos + offset }

/-- The call `fseek(file, position, SEEK_SET)`. -/
def fseek_set (file : fwriter) (position : Nat) : fwriter :=
  { file with pos := position }

def fwriter_offset_write (hdr : Nat) (fw : fwriter) (data : List byte) (data_size : Nat)
    (offset : Nat) : fwriter :=
  let current_file_position := fw.pos
  let offset_file_position := offset * max_file_chunk_size hdr
  let file := fseek_cur fw offset_file_position
  let file := fwrite file (data.take data_size)
  fseek_set file current_file_position

def fwriter_set_position (hdr : Nat) (fw : fwriter) (offset : Int) : fwriter :=
  let offset_bytes := offset.toNat * max_file_chunk_size hdr
  fseek_cur fw offset_bytes

/-! ## The receiver -/

/-- The struct `recvr_t` with the parts of its `udp_t` that the receiver
uses: `msg_recv` and `bytes_recv` are the receive buffer and the result of
the last `recvfrom`, `sent` the replies handed to `sendto`. -/
structure recvr where
  fwriter : fwriter
  next_seq_num : Int
  sender_header : sender_packet_header
  window : Nat
  cycle_count : Int
  client_connected : Int
  msg_recv : datagram
  bytes_recv : Int
  sent : List recvr_packet_header
deriving DecidableEq, Repr

/-- The receiver after `udp_create`, `fwriter_create` and `recvr_create`.
The receive buffer and `sender_header` are not initialised by the source;
`buf` and `h0` are what they hold. -/
def recvr_create (buf : datagram) (h0 : sender_packet_header) : recvr :=
  { fwriter := fwriter_create
    next_seq_num := 0
    sender_header := h0
    window := 0
    cycle_count := 0
    client_connected := 0
    msg_recv := buf
    bytes_recv := -1
    sent := [] }

/-- The call `udp_recv`: `none` is a receive that timed out, `some p` a
datagram `p` of `hdr` header bytes and its data. The source receives into a
buffer of `MAX_PACKET_SIZE` bytes, which cuts a longer datagram; the sender
sends none, and a longer one is kept whole here. -/
def udp_recv (hdr : Nat) (r : recvr) (ev : Option datagram) : recvr :=
  match ev with
  | none => { r with bytes_recv := -1 }
  | some p => { r with msg_recv := p, bytes_recv := (hdr : Int) + p.data.length }

def is_eof (r : recvr) : Bool := decide (r.sender_header.seq_num = EOF_SEQ_NUM)

def is_timed_out (r : recvr) : Bool := decide (r.bytes_recv = -1)

def parse_header (r : recvr) : recvr := { r with sender_header := r.msg_recv.header }

def recvr_listen (hdr : Nat) (r : recvr) (ev : Option datagram) : recvr × Int :=
  let r := udp_recv hdr r ev
  if is_timed_out r then (r, TIMED_OUT)
  else
    let r := parse_header r
    if is_eof r then (r, TRANSFER_COMPLETE) else (r, TRANSFER_IN_PROGRESS)

def is_window_complete (r : recvr) : Bool := decide (r.window = 0xFFFFFFFFFFFFFFFF)

def mark_written (r : recvr) (offset : Int) : recvr :=
  let bit_mask := to_ull64 (shl_int 1 offset)
  let current_window := r.window
  let next_window := current_window ||| bit_mask
  { r with window := next_window }

def is_written (r : recvr) (offset : Int) : Nat := shr_ull64 r.window offset &&& 1

/-- The loop of `move_window`: `n` iterations are left, `i` is the loop
variable. -/
def move_window_loop (r : recvr) : Nat → Int → Int → Int
  | 0, _, move_amount => move_amount
  | n + 1, i, move_amount =>
    if is_written r i = 0 then move_amount
    else move_window_loop r n (i + 1) (move_amount + 1)

def move_window (r : recvr) : recvr × Int :=
  let move_amount := move_window_loop r MAX_WINDOW_SIZE.toNat 0 0
  let current_window := r.window
  let next_window := shr_ull64 current_window move_amount
  ({ r with window := next_window }, move_amount)

def recvr_save_data (hdr : Nat) (r : recvr) : recvr :=
  let recv_seq_num := r.sender_header.seq_num
  let next_seq_num := r.next_seq_num
  let data_start := r.msg_recv.data
  let data_size := (r.bytes_recv - hdr).toNat
  let offset := safe_subtract recv_seq_num next_seq_num
  if offset ≥ MAX_WINDOW_SIZE then r
  else if is_written r offset ≠ 0 then r
  else if recv_seq_num = next_seq_num then
    let r := { r with window := r.window ||| 1 }
    let r := { r with fwriter := fwriter_offset_write hdr r.fwriter data_start data_size 0 }
    let (r, move_amount) := move_window r
    let r := { r with fwriter := fwriter_set_position hdr r.fwriter move_amount }
    let next_seq_num := safe_add next_seq_num move_amount
    { r with next_seq_num := next_seq_num }
  else
    let r := { r with
      fwriter := fwriter_offset_write hdr r.fwriter data_start data_size offset.toNat }
    mark_written r offset

def recvr_respond (r : recvr) : recvr :=
  let r := if r.client_connected = 0 then { r with client_connected := 1 } else r
  let sender_header := r.msg_recv.header
  let recvr_header : recvr_packet_header :=
    { next_seq_num := r.next_seq_num
      timestamp := sender_header.timestamp
      window := r.window }
  { r with sent := r.sent ++ [recvr_header] }

/-- The loop of `receive` over the receives that follow, each a datagram or
a timeout. The result is the receiver and whether the loop has been left;
with no receive remaining the receiver is waiting in `recvfrom`. -/
def receive (hdr : Nat) (r : recvr) : List (Option datagram) → recvr × Bool
  | [] => (r, false)
  | ev :: rest =>
    let (r, listen_result) := recvr_listen hdr r ev
    if listen_result = TIMED_OUT then (r, true)
    else if listen_result = TRANSFER_COMPLETE then (r, true)
    else receive hdr (recvr_respond (recvr_save_data hdr r)) rest

/-- One data packet through the receiver up to the end of `recvr_save_data`:
`udp_recv` stores it, `parse_header` reads its header, `recvr_save_data`
handles it. -/
def recvr_accept (hdr : Nat) (r : recvr) (p : datagram) : recvr :=
  recvr_save_data hdr (parse_header (udp_recv hdr r (some p)))

/-! ## The input file -/

/-- The stream behind `file_t`: the contents of the file and the position
that `ftell` reports. -/
structure file where
  content : List byte
  pos : Nat
deriving DecidableEq, Repr

/-- The result of `fopen(filename, "r")` on a file holding `content`. -/
def file_create (content : List byte) : file := { content := content, pos := 0 }

def file_get_position (f : file) : Nat := f.pos

/-- The call `fread` into a buffer: the bytes read replace the start of the
buffer. The result is the file, the buffer and the number of bytes read. -/
def file_read (f : file) (buffer : List byte) (buffer_size : Nat) :
    file × List byte × Nat :=
  let bytes := (f.content.drop f.pos).take buffer_size
  ({ f with pos := f.pos + bytes.length }, bytes ++ buffer.drop bytes.length, bytes.length)

def file_moveto (f : file) (pos : Nat) : file := { f with pos := pos }

def file_moveby (f : file) (offset : Nat) : file := { f with pos := f.pos + offset }

/-! ## The sender -/

/-- The struct `sender_t` with the parts of its `udp_t` and of its
environment that the sender uses: `msg_send` is the send buffer after the
header, `msg_recv` and `bytes_recv` the last received reply and the result
of `recvfrom`, `sent` the datagrams handed to `sendto`, `timeout` the value
of `SO_RCVTIMEO`, and `ticks` counts the calls of `gettimeofday`. -/
structure sender where
  file : file
  transfer_size : Nat
  start_seq_num : Int
  end_seq_num : Int
  start_file_pos : Nat
  last_ack : Int
  recvr_window : Nat
  window_size : Int
  optimal_window_size : Int
  packets_sent : Int
  packets_recv : Int
  rtt_est : Int
  rtt_dev : Int
  cycle_count : Int
  msg_send : List byte
  msg_recv : recvr_packet_header
  bytes_recv : Int
  sent : List datagram
  timeout : timeval
  ticks : Nat
deriving DecidableEq, Repr

/-- The field `expected_seq_num`, the sender's name for the first field of
`recvr_packet_header_t`. -/
abbrev recvr_packet_header.expected_seq_num (h : recvr_packet_header) : Int := h.next_seq_num

/-- The sender after `udp_create`, `file_create` and `sender_create`. The
buffers and the socket timeout are not initialised by the source; `buf`,
`ack0` and `tv0` are what they hold. -/
def sender_create (f : file) (transfer_size : Nat) (buf : List byte)
    (ack0 : recvr_packet_header) (tv0 : timeval) : sender :=
  { file := f
    transfer_size := transfer_size
    start_seq_num := 0
    end_seq_num := 0
    start_file_pos := file_get_position f
    last_ack := -1
    recvr_window := 0
    optimal_window_size := MAX_WINDOW_SIZE
    window_size := 1
    packets_sent := 0
    packets_recv := 0
    cycle_count := 0
    rtt_est := 1000 * 1000
    rtt_dev := 200
    msg_send := buf
    msg_recv := ack0
    bytes_recv := -1
    sent := []
    timeout := tv0
    ticks := 0 }

/-- The call `gettimeofday`: the clock gives the time of each call in turn. -/
def gettimeofday (clock : Nat → timeval) (s : sender) : timeval × sender :=
  (clock s.ticks, { s with ticks := s.ticks + 1 })

def sender_packet_header_load (clock : Nat → timeval) (s : sender) (seq_num : Int) :
    sender_packet_header × sender :=
  let (now, s) := gettimeofday clock s
  ({ seq_num := seq_num, timestamp := now }, s)

def is_transferred (window : Nat) (offset : Int) : Nat := shr_ull64 window offset &&& 1

def get_bytes_left (s : sender) : Nat :=
  let at_byte := file_get_position s.file
  let num_bytes := s.transfer_size
  if at_byte > num_bytes then 0 else num_bytes - at_byte

def send_chunk (hdr : Nat) (clock : Nat → timeval) (s : sender) (seq_num : Int) :
    sender × Nat :=
  let (packet_header, s) := sender_packet_header_load clock s seq_num
  let bytes_left := get_bytes_left s
  let (f, msg, file_data_size) := file_read s.file s.msg_send (max_file_chunk_size hdr)
  let s := { s with file := f, msg_send := msg }
  let file_data_size :=
    if max_file_chunk_size hdr > bytes_left then bytes_left else file_data_size
  let s := { s with
    sent := s.sent ++ [{ header := packet_header, data := s.msg_send.take file_data_size }] }
  (s, file_data_size)

/-- The loop of `sender_send_data`: `n` iterations are left, `i` is the loop
variable. The result is the sender, `seq_num` and `packets_sent`. -/
def sender_send_data_loop (hdr : Nat) (clock : Nat → timeval) :
    Nat → Int → sender → Int → Int → sender × Int × Int
  | 0, _, s, seq_num, packets_sent => (s, seq_num, packets_sent)
  | n + 1, i, s, seq_num, packets_sent =>
    if get_bytes_left s = 0 then (s, seq_num, packets_sent)
    else if is_transferred s.recvr_window i ≠ 0 then
      sender_send_data_loop hdr clock n (i + 1)
        { s with file := file_moveby s.file (max_file_chunk_size hdr) }
        (safe_increment seq_num) packets_sent
    else
      sender_send_data_loop hdr clock n (i + 1) (send_chunk hdr clock s seq_num).1
        (safe_increment seq_num) (packets_sent + 1)

def sender_send_data (hdr : Nat) (clock : Nat → timeval) (s : sender) : sender :=
  let seq_num := s.start_seq_num
  let max_packets_to_send := s.window_size
  let (s, seq_num, packets_sent) :=
    sender_send_data_loop hdr clock max_packets_to_send.toNat 0 s seq_num 0
  { s with end_seq_num := seq_num, packets_sent := packets_sent }

/-- The function `timeval_subtract`: the difference and the sign flag. The
products `1000000 * nsec` are those of integers without a bound; the source
computes them in `int`, which differs once the microseconds of the two
times are more than 2147 seconds apart. -/
def timeval_subtract (x y : timeval) : timeval × Int :=
  let y :=
    if x.tv_usec < y.tv_usec then
      let nsec := to_int32 ((y.tv_usec - x.tv_usec).tdiv 1000000 + 1)
      { tv_sec := y.tv_sec + nsec, tv_usec := y.tv_usec - 1000000 * nsec }
    else y
  let y :=
    if x.tv_usec - y.tv_usec > 1000000 then
      let nsec := to_int32 ((x.tv_usec - y.tv_usec).tdiv 1000000)
      { tv_sec := y.tv_sec - nsec, tv_usec := y.tv_usec + 1000000 * nsec }
    else y
  ({ tv_sec := x.tv_sec - y.tv_sec, tv_usec := x.tv_usec - y.tv_usec },
    if x.tv_sec < y.tv_sec then 1 else 0)

/-- The estimator of `update_rtt` on a sample: with `a = 0.125` and
`b = 0.25` the sums are `(rtt_est + 7 * rtt_sample) / 8` and
`(rtt_dev + 3 * diff) / 4`, and the conversion to `long` truncates them
toward zero. The `float` operations of the source are exact on these values
while they stay below `2 ^ 21` in size. The result is `rtt_est` and `rtt_dev`. -/
def update_rtt_estimate (rtt_est rtt_dev rtt_sample : Int) : Int × Int :=
  let diff := |rtt_sample - rtt_est|
  ((rtt_est + 7 * rtt_sample).tdiv 8, (rtt_dev + 3 * diff).tdiv 4)

def update_rtt (clock : Nat → timeval) (s : sender) (header : recvr_packet_header) : sender :=
  let (now, s) := gettimeofday clock s
  let before := header.timestamp
  let (rtt, _) := timeval_subtract now before
  let rtt_sample := rtt.tv_usec
  let (rtt_est, rtt_dev) := update_rtt_estimate s.rtt_est s.rtt_dev rtt_sample
  { s with rtt_est := rtt_est, rtt_dev := rtt_dev }

def fast_retransmit (hdr : Nat) (clock : Nat → timeval) (s : sender)
    (header : recvr_packet_header) : sender :=
  let start_seq_num := s.start_seq_num
  let seq_num_to_retransmit := header.expected_seq_num
  let diff := safe_subtract seq_num_to_retransmit start_seq_num
  let offset := diff.toNat * max_file_chunk_size hdr
  let file_position := s.start_file_pos + offset
  let s := { s with file := file_moveto s.file file_position }
  (send_chunk hdr clock s seq_num_to_retransmit).1

def cc_fast_recovery (s : sender) : sender :=
  let window_size := s.window_size.tdiv 2
  let window_size := if window_size = 0 then 1 else window_size
  { s with optimal_window_size := window_size, window_size := window_size }

def cc_incr (s : sender) : sender :=
  let window_size := s.window_size
  let optimal_window_size := s.optimal_window_size
  let window_size := if window_size ≥ optimal_window_size then window_size + 1 else window_size * 2
  let window_size := if window_size > MAX_WINDOW_SIZE then MAX_WINDOW_SIZE else window_size
  { s with window_size := window_size }

def cc_slow_start (s : sender) : sender :=
  let optimal_window_size := s.optimal_window_size.tdiv 2
  let optimal_window_size := if optimal_window_size = 0 then 1 else optimal_window_size
  { s with window_size := 1, optimal_window_size := optimal_window_size }

def update_last_ack (s : sender) (header : recvr_packet_header) : sender :=
  let next_ack := header.expected_seq_num
  { s with last_ack := next_ack, recvr_window := header.window }

/-- The sender's call of `udp_recv`: `none` is a receive that timed out,
`some h` a reply holding the header `h`, of `sizeof(recvr_packet_header_t)`
bytes (32 on x86-64 Linux). -/
def sender_udp_recv (s : sender) (ev : Option recvr_packet_header) : sender :=
  match ev with
  | none => { s with bytes_recv := -1 }
  | some h => { s with msg_recv := h, bytes_recv := 32 }

/-- The local variables of `sender_recv_acks`. -/
structure recv_acks_locals where
  packets_recv : Int
  should_slow_start : Int
  should_recover_fast : Int
  dup_count : Int
deriving DecidableEq, Repr

/-- The loop of `sender_recv_acks`: `n` iterations are left, `evs` are the
receives that follow, each a reply or a timeout, and a receive after the
last one times out. The result is the sender, the local variables and the
receives not consumed. -/
def sender_recv_acks_loop (hdr : Nat) (clock : Nat → timeval) :
    Nat → sender → recv_acks_locals → List (Option recvr_packet_header) →
      sender × recv_acks_locals × List (Option recvr_packet_header)
  | 0, s, l, evs => (s, l, evs)
  | n + 1, s, l, evs =>
    let s := sender_udp_recv s evs.head?.join
    if s.bytes_recv = -1 then (s, { l with should_slow_start := 1 }, evs.tail)
    else
      let l := { l with packets_recv := l.packets_recv + 1 }
      let header := s.msg_recv
      let prev_ack := s.last_ack
      let next_ack := header.expected_seq_num
      let (s, l) :=
        if prev_ack = next_ack then
          let l := { l with dup_count := l.dup_count + 1 }
          if l.dup_count = 2 then
            (fast_retransmit hdr clock s header, { l with should_recover_fast := 1 })
          else (s, l)
        else (s, { l with dup_count := 0 })
      let s := update_last_ack s header
      let s := update_rtt clock s header
      sender_recv_acks_loop hdr clock n s l evs.tail

def sender_recv_acks (hdr : Nat) (clock : Nat → timeval) (s : sender)
    (evs : List (Option recvr_packet_header)) :
    sender × List (Option recvr_packet_header) :=
  let max_packets_to_recv := s.packets_sent
  let l : recv_acks_locals :=
    { packets_recv := 0, should_slow_start := 0, should_recover_fast := 0, dup_count := 0 }
  let (s, l, evs) := sender_recv_acks_loop hdr clock max_packets_to_recv.toNat s l evs
  let s :=
    if l.should_slow_start ≠ 0 then cc_slow_start s
    else if l.should_recover_fast ≠ 0 then cc_fast_recovery s
    else cc_incr s
  ({ s with packets_recv := l.packets_recv }, evs)

def sender_set_timeout (s : sender) : sender :=
  let microsecs := 4 * s.rtt_dev + s.rtt_est
  let microsecs_in_sec : Int := 1000 * 1000
  let secs := microsecs.tdiv microsecs_in_sec
  let adjusted_microsecs := microsecs.tmod microsecs_in_sec
  { s with timeout := { tv_sec := secs, tv_usec := adjusted_microsecs } }

def sender_is_complete (s : sender) : Bool := decide (s.start_file_pos ≥ s.transfer_size)

def sender_send_eof (clock : Nat → timeval) (s : sender) : sender :=
  let seq_num := EOF_SEQ_NUM
  let (packet_header, s) := sender_packet_header_load clock s seq_num
  let eof : datagram := { header := packet_header, data := [] }
  { s with sent := s.sent ++ [eof, eof, eof, eof] }

def sender_reset (hdr : Nat) (s : sender) : sender :=
  let start_seq_num := s.start_seq_num
  let next_seq_num := s.last_ack
  let next_seq_num := if next_seq_num = -1 then 0 else next_seq_num
  let diff := safe_subtract next_seq_num start_seq_num
  let offset := diff.toNat * max_file_chunk_size hdr
  let next_file_position := s.start_file_pos + offset
  let s := { s with file := file_moveto s.file next_file_position }
  let s := { s with start_file_pos := file_get_position s.file }
  { s with start_seq_num := next_seq_num }

/-- The body of the loop of `transfer`: one burst. -/
def transfer_body (hdr : Nat) (clock : Nat → timeval)
    (st : sender × List (Option recvr_packet_header)) :
    sender × List (Option recvr_packet_header) :=
  let s := sender_send_data hdr clock st.1
  let (s, evs) := sender_recv_acks hdr clock s st.2
  let s := sender_set_timeout s
  let s := sender_reset hdr s
  (s, evs)

/-- The loop of `transfer` for at most `fuel` bursts: `none` when the loop
has not ended within them. -/
def transfer_loop (hdr : Nat) (clock : Nat → timeval) :
    Nat → sender × List (Option recvr_packet_header) →
      Option (sender × List (Option recvr_packet_header))
  | 0, st => if sender_is_complete st.1 then some st else none
  | fuel + 1, st =>
    if sender_is_complete st.1 then some st
    else transfer_loop hdr clock fuel (transfer_body hdr clock st)

def transfer (hdr : Nat) (clock : Nat → timeval) (fuel : Nat) (s : sender)
    (evs : List (Option recvr_packet_header)) : Option sender :=
  let s := sender_set_timeout s
  match transfer_loop hdr clock fuel (s, evs) with
  | none => none
  | some st => some (sender_send_eof clock st.1)

/-! ## Inputs, runs and invariants of the statements -/

/-- A data packet with sequence number `seq_num`, a zero timestamp and the
bytes `data`. -/
def packet (seq_num : Int) (data : List byte) : datagram :=
  { header := { seq_num := seq_num, timestamp := { tv_sec := 0, tv_usec := 0 } }, data := data }

/-- The receiver as `recvr_create` leaves it, with an empty receive buffer. -/
def recvr_initial : recvr := recvr_create (packet 0 []) (packet 0 []).header

/-- The packets with sequence numbers `n - 1`, ..., `1`, `0`, in this order,
each carrying the one byte that is its sequence number. -/
def reverse_packets (n : Nat) : List datagram :=
  (List.range n).reverse.map (fun (i : Nat) => packet (Int.ofNat i) [UInt8.ofNat i])

/-- The receiver after the packets of a list have gone through
`recvr_accept` one after the other. -/
def recvr_accept_all (hdr : Nat) (r : recvr) (ps : List datagram) : recvr :=
  ps.foldl (recvr_accept hdr) r

/-- The number of slots the base packet slides over: the count of
`move_window` on the window with bit 0 set. -/
def slide_amount (w : Nat) : Int :=
  move_window_loop { recvr_initial with window := w ||| 1 } MAX_WINDOW_SIZE.toNat 0 0

/-- The three congestion transitions of the sender. -/
inductive cc_transition where
  | slow_start
  | fast_recovery
  | incr
deriving DecidableEq, Repr

def cc_apply (s : sender) : cc_transition → sender
  | .slow_start => cc_slow_start s
  | .fast_recovery => cc_fast_recovery s
  | .incr => cc_incr s

/-- The sender after a sequence of congestion transitions. -/
def cc_run (s : sender) (ts : List cc_transition) : sender := ts.foldl cc_apply s

/-- The sender and the receives not yet consumed at the head of the loop of
`transfer` after `k` bursts, or at the end of the loop when it ends earlier. -/
def transfer_quiescent (hdr : Nat) (clock : Nat → timeval) :
    Nat → sender × List (Option recvr_packet_header) →
      sender × List (Option recvr_packet_header)
  | 0, st => st
  | k + 1, st =>
    if sender_is_complete st.1 then st
    else transfer_quiescent hdr clock k (transfer_body hdr clock st)

/-- The sender as `sender_create` leaves it for an empty file and a
transfer of no bytes, with empty buffers. -/
def sender_initial : sender :=
  sender_create (file_create []) 0 []
    { next_seq_num := 0, timestamp := { tv_sec := 0, tv_usec := 0 }, window := 0 }
    { tv_sec := 0, tv_usec := 0 }

/-- The sender as `sender_create` leaves it for a file of three bytes to be
transferred whole. -/
def sender_three_bytes : sender :=
  sender_create (file_create [1, 2, 3]) 3 [] sender_initial.msg_recv sender_initial.timeout

/-- A clock that stands still. -/
def clock_zero : Nat → timeval := fun _ => { tv_sec := 0, tv_usec := 0 }

/-- The bounds of the congestion window and of the threshold. -/
def cc_bounds (s : sender) : Prop :=
  1 ≤ s.window_size ∧ s.window_size ≤ MAX_WINDOW_SIZE ∧
    1 ≤ s.optimal_window_size ∧ s.optimal_window_size ≤ MAX_WINDOW_SIZE

/-- The sender at the head of the loop of `transfer` after `k` bursts (or at
the end of the loop when it ends earlier), for the initial sender `s0` and
the receives `evs`. -/
def sender_at_burst (hdr : Nat) (clock : Nat → timeval) (s0 : sender)
    (evs : List (Option recvr_packet_header)) (k : Nat) : sender :=
  (transfer_quiescent hdr clock k (sender_set_timeout s0, evs)).1

/-! ## The two programs over a lossless channel -/

/-- The sender, the receiver and whether the receiver has left the loop of
`receive`. The field `sent` of each side holds the datagrams it has sent
that the channel has not delivered yet. -/
structure lossless where
  s : sender
  r : recvr
  r_done : Bool
deriving DecidableEq, Repr

/-- The receiver takes the datagrams that the sender has sent, in order,
unless it has left its loop. -/
def lossless_deliver (hdr : Nat) (s : sender) (r : recvr) (r_done : Bool) : recvr × Bool :=
  if r_done then (r, true) else receive hdr r (s.sent.map some)

/-- One burst of the sender over a channel that delivers every datagram
once, in order and before any timeout: the sender sends its burst, the
receiver takes the datagrams and replies, the sender takes the replies,
adapts, sets its timeout and slides. -/
def lossless_burst (hdr : Nat) (clock : Nat → timeval) (st : lossless) : lossless :=
  let s := sender_send_data hdr clock st.s
  let (r, r_done) := lossless_deliver hdr s st.r st.r_done
  let s := { s with sent := [] }
  let (s, evs) := sender_recv_acks hdr clock s (r.sent.map some)
  let r := { r with sent := evs.filterMap id }
  let s := sender_set_timeout s
  let s := sender_reset hdr s
  { s := s, r := r, r_done := r_done }

/-- The loop of `transfer` over the lossless channel for at most `fuel`
bursts: `none` when the loop has not ended within them. -/
def lossless_loop (hdr : Nat) (clock : Nat → timeval) : Nat → lossless → Option lossless
  | 0, st => if sender_is_complete st.s then some st else none
  | fuel + 1, st =>
    if sender_is_complete st.s then some st
    else lossless_loop hdr clock fuel (lossless_burst hdr clock st)

/-- The functions `transfer` and `receive` run against each other over the
lossless channel, from the sender `s0` and the receiver `r0`: the loop of
bursts, then the end-of-file packets, which the receiver takes. -/
def lossless_transfer (hdr : Nat) (clock : Nat → timeval) (fuel : Nat) (s0 : sender)
    (r0 : recvr) : Option lossless :=
  match lossless_loop hdr clock fuel
      { s := sender_set_timeout s0, r := r0, r_done := false } with
  | none => none
  | some st =>
    let s := sender_send_eof clock st.s
    let (r, r_done) := lossless_deliver hdr s st.r st.r_done
    some { s := { s with sent := [] }, r := r, r_done := r_done }

/-- The number of chunks of `P` bytes in a transfer of `N` bytes. -/
def chunk_count (P N : Nat) : Nat := (N + P - 1) / P

/-- The bytes of chunk `t` of a transfer of `N` bytes of `content`. -/
def chunk (P N : Nat) (content : List byte) (t : Nat) : List byte :=
  (content.drop (t * P)).take (min P (N - t * P))

/-- The data packets of chunks `t`, ..., `t + m - 1`, stamped by the clock
from call `tick` on. -/
def burst_packets (clock : Nat → timeval) (P N : Nat) (content : List byte) :
    Nat → Nat → Nat → List datagram
  | 0, _, _ => []
  | m + 1, t, tick =>
    { header := { seq_num := (t : Int) % 256, timestamp := clock tick }
      data := chunk P N content t } :: burst_packets clock P N content m (t + 1) (tick + 1)

/-- The replies to the data packets of chunks `t`, ..., `t + m - 1` received
in order. -/
def burst_acks (clock : Nat → timeval) : Nat → Nat → Nat → List recvr_packet_header
  | 0, _, _ => []
  | m + 1, t, tick =>
    { next_seq_num := ((t + 1 : Nat) : Int) % 256, timestamp := clock tick, window := 0 }
      :: burst_acks clock m (t + 1) (tick + 1)

/-- The fields of the sender that sending a chunk leaves alone. -/
def sender_ctl (s : sender) : Nat × Int × Nat × Int × Nat × Int × Int × List byte :=
  (s.transfer_size, s.start_seq_num, s.start_file_pos, s.last_ack, s.recvr_window,
    s.window_size, s.optimal_window_size, s.file.content)

/-- The fields of the sender that taking a reply leaves alone when nothing
is retransmitted. -/
def sender_ack_frame (s : sender) : file × Nat × Int × Nat × Int × Int × List datagram :=
  (s.file, s.transfer_size, s.start_seq_num, s.start_file_pos, s.window_size,
    s.optimal_window_size, s.sent)

/-- The state of the two programs at the head of the loop of `transfer`
over the lossless channel when `c` chunks have been delivered: both sides
are at chunk `c`, nothing is in flight, and the output file holds the
chunks before `c`. -/
structure lossless_inv (hdr N : Nat) (content : List byte) (c : Nat) (st : lossless) :
    Prop where
  s_content : st.s.file.content = content
  s_pos : st.s.file.pos = c * max_file_chunk_size hdr
  s_size : st.s.transfer_size = N
  s_start_pos : st.s.start_file_pos = c * max_file_chunk_size hdr
  s_start_seq : st.s.start_seq_num = (c : Int) % 256
  s_last_ack : st.s.last_ack = -1 ∨ st.s.last_ack = (c : Int) % 256
  s_window : st.s.recvr_window = 0
  s_cc : cc_bounds st.s
  s_sent : st.s.sent = []
  r_next : st.r.next_seq_num = (c : Int) % 256
  r_window : st.r.window = 0
  r_pos : st.r.fwriter.pos = c * max_file_chunk_size hdr
  r_content : st.r.fwriter.content = content.take (min (c * max_file_chunk_size hdr) N)
  r_sent : st.r.sent = []
  r_done : st.r_done = false

/-- The data packets of the slots `n - 1`, ..., `1`, `0` of the window that
starts at `next`, in this order, slot `i` carrying the bytes `d i`. -/
def window_packets (next : Int) (tv : timeval) (d : Nat → List byte) (n : Nat) : List datagram :=
  (List.range n).reverse.map
    (fun (i : Nat) => { header := { seq_num := safe_add next i, timestamp := tv }, data := d i })

/-- The contents of a file after the bytes `d i` have been written at
`pos + i * P` for `i = n - 1`, ..., `1`, `0`, in this order. -/
def writes_down (P pos : Nat) (d : Nat → List byte) : Nat → List byte → List byte
  | 0, c => c
  | n + 1, c => writes_down P pos d n (fwrite { content := c, pos := pos + n * P } (d n)).content

/-- The initial receiver after the packets with sequence numbers 31, 30,
..., 1, in this order. -/
def recvr_before_base : recvr :=
  recvr_accept_all 24 recvr_initial ((reverse_packets 32).take 31)

/-- Whether one of the next `n` receives times out: it is a timeout, or no
datagram is left for it. -/
def times_out : Nat → List (Option recvr_packet_header) → Bool
  | 0, _ => false
  | n + 1, evs =>
    match evs.head?.join with
    | none => true
    | some _ => times_out n evs.tail

/-- The receives not yet consumed at the head of the loop of `transfer`
after `k` bursts, for the initial sender `s0` and the receives `evs`. -/
def events_at_burst (hdr : Nat) (clock : Nat → timeval) (s0 : sender)
    (evs : List (Option recvr_packet_header)) (k : Nat) : List (Option recvr_packet_header) :=
  (transfer_quiescent hdr clock k (sender_set_timeout s0, evs)).2

def MAX_TIMEOUT : Int := 10 * 1000 * 1000

/-- The function `increase_rtt_timeout`; `none` is the call of `exit(1)`.
No function of the source calls it: the call in `sender_recv_acks` is
commented out. -/
def increase_rtt_timeout (s : sender) : Option sender :=
  let s := { s with rtt_est := s.rtt_est * 2 }
  if s.rtt_est > MAX_TIMEOUT then none else some s

/-- The sender after `n` calls of `update_rtt`, each on the reply `header`. -/
def update_rtt_times (clock : Nat → timeval) (header : recvr_packet_header) :
    Nat → sender → sender
  | 0, s => s
  | n + 1, s => update_rtt_times clock header n (update_rtt clock s header)

/-- From a bound on the distance of `rtt_est` to a constant sample and a
bound on `rtt_dev`, the bounds after one step of the estimator. -/
def rtt_bound_step (b : Nat × Nat) : Nat × Nat := (b.1 / 8, (b.2 + 3 * b.1) / 4)

/-- The bounds after `n` steps of the estimator. -/
def rtt_bounds : Nat → Nat × Nat → Nat × Nat
  | 0, b => b
  | n + 1, b => rtt_bounds n (rtt_bound_step b)

/-- The datagrams that the channel takes from the sender over the loop of
`transfer`, in order, for at most `fuel` bursts. -/
def lossless_loop_sent (hdr : Nat) (clock : Nat → timeval) : Nat → lossless → List datagram
  | 0, _ => []
  | fuel + 1, st =>
    if sender_is_complete st.s then []
    else (sender_send_data hdr clock st.s).sent
      ++ lossless_loop_sent hdr clock fuel (lossless_burst hdr clock st)

/-- Every datagram that the sender sends over the lossless channel, in
order: those of the bursts, then those of `sender_send_eof`. -/
def lossless_transfer_sent (hdr : Nat) (clock : Nat → timeval) (fuel : Nat) (s0 : sender)
    (r0 : recvr) : List datagram :=
  lossless_loop_sent hdr clock fuel { s := sender_set_timeout s0, r := r0, r_done := false }
    ++ match lossless_loop hdr clock fuel
        { s := sender_set_timeout s0, r := r0, r_done := false } with
      | none => []
      | some st => (sender_send_eof clock st.s).sent

/-- The sequence number and the bytes of a datagram. -/
def seq_and_data (p : datagram) : Int × List byte := (p.header.seq_num, p.data)

/-- The number of data packets in a list of datagrams: those whose sequence
number is not `EOF_SEQ_NUM`. -/
def data_packet_count (l : List datagram) : Nat :=
  l.countP (fun p => decide (p.header.seq_num ≠ EOF_SEQ_NUM))

/-- A source of 3000 zero bytes. -/
def three_thousand_bytes : List byte := List.replicate 3000 0

/-- A sender at the head of a burst with a window of three slots, of which
the receiver holds the second: six bytes to transfer in chunks of two (a
header of 1470 bytes). -/
def sender_three_slots : sender :=
  { sender_create (file_create [1, 2, 3, 4, 5, 6]) 6 [] sender_initial.msg_recv
      sender_initial.timeout with window_size := 3, recvr_window := 2 }

/-- The body of the loop of `sender_recv_acks` for a receive that gave the
reply `header`: the statements after the test for a timeout. The result is
the sender and the local variables. -/
def sender_recv_ack (hdr : Nat) (clock : Nat → timeval) (s : sender) (l : recv_acks_locals)
    (header : recvr_packet_header) : sender × recv_acks_locals :=
  let s := sender_udp_recv s (some header)
  let l := { l with packets_recv := l.packets_recv + 1 }
  let header := s.msg_recv
  let prev_ack := s.last_ack
  let next_ack := header.expected_seq_num
  let (s, l) :=
    if prev_ack = next_ack then
      let l := { l with dup_count := l.dup_count + 1 }
      if l.dup_count = 2 then
        (fast_retransmit hdr clock s header, { l with should_recover_fast := 1 })
      else (s, l)
    else (s, { l with dup_count := 0 })
  let s := update_last_ack s header
  let s := update_rtt clock s header
  (s, l)

/-- The replies that the loop of `sender_recv_acks` takes: of the next `n`
receives, those before the first that times out. -/
def acks_taken : Nat → List (Option recvr_packet_header) → List recvr_packet_header
  | 0, _ => []
  | n + 1, evs =>
    match evs.head?.join with
    | none => []
    | some h => h :: acks_taken n evs.tail

/-- Whether a list of acknowledgement numbers holds three equal ones in a
row: with `last_ack` at its head, two replies in a row that each repeat the
`last_ack` of their time. -/
def repeats_twice : List Int → Bool
  | a :: b :: c :: rest => (decide (a = b) && decide (b = c)) || repeats_twice (b :: c :: rest)
  | _ => false

/-- The congestion transition of the adapt phase for the receives of a
burst: slow start when one of them times out, else fast recovery when two
replies in a row repeat `last_ack`, else the increase. -/
def adapt_transition (last_ack : Int) (n : Nat) (evs : List (Option recvr_packet_header)) :
    cc_transition :=
  if times_out n evs then .slow_start
  else if repeats_twice (last_ack :: (acks_taken n evs).map (fun h => h.next_seq_num)) then
    .fast_recovery
  else .incr

/-! ## The type `float` of `update_rtt` -/

/-- The integer nearest to `q`, the even one of the two when `q` is halfway
between them. -/
def round_half_even (q : ℚ) : Int :=
  let f := ⌊q⌋
  if q - f < 1 / 2 then f
  else if q - f > 1 / 2 then f + 1
  else if f % 2 = 0 then f else f + 1

/-- The value of type `float` (IEEE 754 binary32, a significand of 24 bits,
least exponent `2 ^ (-149)`) that a real value is rounded to, to nearest and
ties to even, as the operations on x86-64 do; a `float` value is the rational
it stands for. Values of `2 ^ 128` and more, which overflow, do not occur. -/
def to_float (x : ℚ) : ℚ :=
  if x = 0 then 0
  else
    let e := max (Int.log 2 |x| - 23) (-149)
    round_half_even (x / 2 ^ e) * 2 ^ e

/-- The conversion of a `float` to `long`: the fraction is dropped. -/
def to_long (x : ℚ) : Int := if 0 ≤ x then ⌊x⌋ else ⌈x⌉

/-- The estimator of `update_rtt` with the operations of the source: `a` and
`b` are `float` constants, a `long` or `int` operand of an operation with a
`float` is converted to `float`, every operation rounds its result to
`float`, and the assignment to a `long` drops the fraction. The result is
`rtt_est` and `rtt_dev`. -/
def update_rtt_estimate_float (rtt_est rtt_dev rtt_sample : Int) : Int × Int :=
  let a : ℚ := to_float (1 / 8)
  let b : ℚ := to_float (1 / 4)
  let diff : Int := |rtt_sample - rtt_est|
  let est : Int := to_long (to_float
    (to_float (a * to_float rtt_est) + to_float (to_float (to_float 1 - a) * to_float rtt_sample)))
  let dev : Int := to_long (to_float
    (to_float (b * to_float rtt_dev) + to_float (to_float (to_float 1 - b) * to_float diff)))
  (est, dev)

/-- The sender `s` with the datagrams `p` handed to `sendto` before those
of `s`. -/
def sender_sent_after (p : List datagram) (s : sender) : sender :=
  { s with sent := p ++ s.sent }

/-- The receiver `r` with the replies `p` handed to `sendto` before those
of `r`. -/
def recvr_sent_after (p : List recvr_packet_header) (r : recvr) : recvr :=
  { r with sent := p ++ r.sent }

/-! ## Arithmetic lemmas -/

theorem tmod_emod_256 (x : Int) : (x.tmod 256) % 256 = x % 256 := by
  have := Int.tdiv_add_tmod x 256
  omega

theorem tmod_256_lt (x : Int) : x.tmod 256 < 256 := Int.tmod_lt_of_pos x (by decide)

theorem tmod_256_nonneg {x : Int} (h : 0 ≤ x) : x.tmod 256 = x % 256 :=
  Int.tmod_eq_emod h (by decide)

theorem safe_subtract_eq_emod (a b : Int) : safe_subtract a b = (a - b) % 256 := by
  have h1 := tmod_emod_256 (a - b)
  have h2 := tmod_256_lt (a - b)
  have h3 : -256 < (a - b).tmod 256 := by
    rcases le_or_lt 0 (a - b) with h | h
    · have := Int.tmod_nonneg 256 h
      omega
    · have h4 : (a - b).tmod 256 = -((-(a - b)).tmod 256) := by
        rw [Int.tmod_def, Int.tmod_def, Int.neg_tdiv]; ring
      have := tmod_256_lt (-(a - b))
      omega
  unfold safe_subtract MAX_SEQ
  simp only
  split_ifs with h <;> omega

theorem safe_subtract_self (a : Int) : safe_subtract a a = 0 := by
  rw [safe_subtract_eq_emod]; simp

theorem safe_subtract_safe_add (a k : Int) (h1 : 1 ≤ k) (h2 : k ≤ 64) :
    safe_subtract a (safe_add a k) = 256 - k := by
  rw [safe_subtract_eq_emod]
  have := tmod_emod_256 (a + k)
  unfold safe_add MAX_SEQ
  omega

theorem shr_ull64_of_lt (w : Nat) (k : Int) (h0 : 0 ≤ k) (h : k < 64) :
    shr_ull64 w k = w >>> k.toNat := by
  unfold shr_ull64
  congr 1
  omega

theorem is_written_eq (r : recvr) (k : Int) (h0 : 0 ≤ k) (h : k < 64) :
    is_written r k = (r.window >>> k.toNat) % 2 := by
  unfold is_written
  rw [shr_ull64_of_lt _ _ h0 h, Nat.and_one_is_mod]

theorem move_window_loop_bounds (r : recvr) (n : Nat) (i m : Int) :
    m ≤ move_window_loop r n i m ∧ move_window_loop r n i m ≤ m + n := by
  induction n generalizing i m with
  | zero => simp [move_window_loop]
  | succ n ih =>
    unfold move_window_loop
    split_ifs with h
    · constructor <;> omega
    · have := ih (i + 1) (m + 1)
      constructor <;> push_cast <;> omega

theorem move_window_loop_pos (r : recvr) (n : Nat) (i m : Int) (h : is_written r i ≠ 0) :
    m + 1 ≤ move_window_loop r (n + 1) i m := by
  unfold move_window_loop
  rw [if_neg h]
  exact (move_window_loop_bounds r n (i + 1) (m + 1)).1

theorem move_window_loop_congr (r r2 : recvr) (hw : r.window = r2.window) (n : Nat) (i m : Int) :
    move_window_loop r n i m = move_window_loop r2 n i m := by
  induction n generalizing i m with
  | zero => rfl
  | succ n ih =>
    unfold move_window_loop is_written
    rw [hw, ih]

/-! ## Receiver: discards -/

/-- C9. A data packet whose distance `safe_subtract seq_num next_seq_num` is
at least `MAX_WINDOW_SIZE` leaves `next_seq_num`, `window` and the output
file (contents and position) as they were. -/
theorem out_of_window_discard (hdr : Nat) (r : recvr) (p : datagram)
    (h : safe_subtract p.header.seq_num r.next_seq_num ≥ MAX_WINDOW_SIZE) :
    (recvr_accept hdr r p).next_seq_num = r.next_seq_num ∧
      (recvr_accept hdr r p).window = r.window ∧
      (recvr_accept hdr r p).fwriter = r.fwriter := by
  have h2 : safe_subtract (parse_header (udp_recv hdr r (some p))).sender_header.seq_num
      (parse_header (udp_recv hdr r (some p))).next_seq_num ≥ MAX_WINDOW_SIZE := h
  unfold recvr_accept recvr_save_data
  simp only [h2, if_true]
  exact ⟨rfl, rfl, rfl⟩

theorem out_of_window_discard_witness :
    safe_subtract (packet 64 [7]).header.seq_num recvr_initial.next_seq_num ≥ MAX_WINDOW_SIZE ∧
      (recvr_accept 24 recvr_initial (packet 64 [7])).next_seq_num = recvr_initial.next_seq_num ∧
      (recvr_accept 24 recvr_initial (packet 64 [7])).window = recvr_initial.window ∧
      (recvr_accept 24 recvr_initial (packet 64 [7])).fwriter = recvr_initial.fwriter :=
  ⟨by decide, out_of_window_discard 24 recvr_initial (packet 64 [7]) (by decide)⟩

/-! ## Receiver: the shifts of `mark_written` and `move_window` -/

/-- C5. From the initial receiver a packet at offset 31 is in the window
and not yet written, and `mark_written` sets bits 31 to 63 of `window`;
a packet at offset 32 sets bit 0 and leaves bit 32 clear. -/
theorem mark_written_high_offsets :
    safe_subtract 31 recvr_initial.next_seq_num = 31 ∧
      is_written recvr_initial 31 = 0 ∧
      (recvr_accept 24 recvr_initial (packet 31 [7])).window = 0xFFFFFFFF80000000 ∧
      safe_subtract 32 recvr_initial.next_seq_num = 32 ∧
      is_written recvr_initial 32 = 0 ∧
      (recvr_accept 24 recvr_initial (packet 32 [7])).window = 1 := by
  decide

/-- C2. After the one packet with sequence number 31 the initial receiver
has `next_seq_num = 0` and bit 63 of `window` set, and no packet received
has the sequence number `safe_add next_seq_num 63`. -/
theorem window_bit_without_packet :
    (recvr_accept_all 24 recvr_initial [packet 31 [7]]).next_seq_num = 0 ∧
      (recvr_accept_all 24 recvr_initial [packet 31 [7]]).window.testBit 63 = true ∧
      ∀ p ∈ [packet 31 [7]], p.header.seq_num ≠
        safe_add (recvr_accept_all 24 recvr_initial [packet 31 [7]]).next_seq_num 63 := by
  decide

/-- C4. The packets 31, 30, ..., 1 leave the initial receiver with bits 1
to 63 of `window` set, bit 0 clear and `next_seq_num = 0`. The packet with
sequence number 0 then slides over `k = 64` slots: `next_seq_num` is 64, the
position of the file has moved by 64 chunks, and `window` is left with all
64 bits set, where `(window | 1)` shifted right by 64 is 0. -/
theorem slide_full_window :
    recvr_before_base.window = 2 ^ 64 - 2 ∧
      recvr_before_base.next_seq_num = 0 ∧
      (recvr_accept 24 recvr_before_base (packet 0 [7])).next_seq_num = 64 ∧
      (recvr_accept 24 recvr_before_base (packet 0 [7])).fwriter.pos
        = recvr_before_base.fwriter.pos + 64 * max_file_chunk_size 24 ∧
      (recvr_accept 24 recvr_before_base (packet 0 [7])).window = 2 ^ 64 - 1 ∧
      (recvr_before_base.window ||| 1) >>> 64 = 0 := by
  decide

/-- C8. From the initial receiver the packet with sequence number 32 leaves
bit 0 of `window` set; the packets 31, 30, ..., 1, 0 fill the window and
the slide that follows leaves all 64 bits set, bit 0 among them; and the
packet with sequence number 256, at distance 0 from `next_seq_num = 0` and
not equal to it, is written at offset 0 and leaves bit 0 set. -/
theorem bit_zero_left_set :
    (recvr_accept 24 recvr_initial (packet 32 [7])).window.testBit 0 = true ∧
      (recvr_accept_all 24 recvr_initial (reverse_packets 32)).window = 2 ^ 64 - 1 ∧
      (recvr_accept_all 24 recvr_initial (reverse_packets 32)).window.testBit 0 = true ∧
      (recvr_accept 24 recvr_initial (packet 256 [7])).window.testBit 0 = true := by
  decide

/-- C10. From the initial receiver (window 0, position 0) the 32 packets
with sequence numbers 31, 30, ..., 0 in this order leave `next_seq_num` at
64, the position of the file at 64 chunks and all bits of `window` set. -/
theorem reverse_delivery_32 :
    (recvr_accept_all 24 recvr_initial (reverse_packets 32)).next_seq_num = 64 ∧
      (recvr_accept_all 24 recvr_initial (reverse_packets 32)).fwriter.pos
        = 64 * max_file_chunk_size 24 ∧
      (recvr_accept_all 24 recvr_initial (reverse_packets 32)).window = 2 ^ 64 - 1 := by
  decide

/-! ## Receiver: the branches of `recvr_save_data` -/

theorem recvr_save_data_out (hdr : Nat) (x : recvr)
    (h : safe_subtract x.sender_header.seq_num x.next_seq_num ≥ MAX_WINDOW_SIZE) :
    recvr_save_data hdr x = x := by
  unfold recvr_save_data
  simp only [h, if_true]

theorem recvr_save_data_dup (hdr : Nat) (x : recvr)
    (h : is_written x (safe_subtract x.sender_header.seq_num x.next_seq_num) ≠ 0) :
    recvr_save_data hdr x = x := by
  unfold recvr_save_data
  simp only [h]
  split_ifs <;> rfl

theorem recvr_save_data_base (hdr : Nat) (x : recvr)
    (h1 : ¬ safe_subtract x.sender_header.seq_num x.next_seq_num ≥ MAX_WINDOW_SIZE)
    (h2 : ¬ is_written x (safe_subtract x.sender_header.seq_num x.next_seq_num) ≠ 0)
    (h3 : x.sender_header.seq_num = x.next_seq_num) :
    recvr_save_data hdr x =
      { x with
        window := shr_ull64 (x.window ||| 1) (slide_amount x.window)
        fwriter := fwriter_set_position hdr
          (fwriter_offset_write hdr x.fwriter x.msg_recv.data (x.bytes_recv - hdr).toNat 0)
          (slide_amount x.window)
        next_seq_num := safe_add x.next_seq_num (slide_amount x.window) } := by
  unfold recvr_save_data
  dsimp only
  rw [if_neg h1, if_neg h2, if_pos h3]
  have e : ∀ r : recvr, r.window = x.window ||| 1 →
      move_window_loop r MAX_WINDOW_SIZE.toNat 0 0 = slide_amount x.window :=
    fun r hr => move_window_loop_congr r _ hr _ _ _
  simp only [move_window]
  rw [e _ rfl]

theorem recvr_save_data_ooo (hdr : Nat) (x : recvr)
    (h1 : ¬ safe_subtract x.sender_header.seq_num x.next_seq_num ≥ MAX_WINDOW_SIZE)
    (h2 : ¬ is_written x (safe_subtract x.sender_header.seq_num x.next_seq_num) ≠ 0)
    (h3 : ¬ x.sender_header.seq_num = x.next_seq_num) :
    recvr_save_data hdr x =
      mark_written
        { x with
          fwriter := fwriter_offset_write hdr x.fwriter x.msg_recv.data (x.bytes_recv - hdr).toNat
            (safe_subtract x.sender_header.seq_num x.next_seq_num).toNat }
        (safe_subtract x.sender_header.seq_num x.next_seq_num) := by
  unfold recvr_save_data
  dsimp only
  rw [if_neg h1, if_neg h2, if_neg h3]

theorem slide_amount_bounds (w : Nat) : 1 ≤ slide_amount w ∧ slide_amount w ≤ 64 := by
  unfold slide_amount
  have hb := move_window_loop_bounds { recvr_initial with window := w ||| 1 } 64 0 0
  have hw : is_written { recvr_initial with window := w ||| 1 } 0 ≠ 0 := by
    rw [is_written_eq _ 0 (le_refl 0) (by decide)]
    simp [Nat.shiftRight_zero, Nat.or_mod_two_eq_one]
  have hp := move_window_loop_pos { recvr_initial with window := w ||| 1 } 63 0 0 hw
  have e : MAX_WINDOW_SIZE.toNat = 63 + 1 := by decide
  rw [e]
  constructor
  · omega
  · have := hb.2
    simp only [zero_add] at this ⊢
    exact_mod_cast this

/-! ## Receiver: writing twice -/

theorem fwrite_fwrite (f : fwriter) (q : Nat) (d : List byte) :
    (fwrite { content := (fwrite { content := f.content, pos := q } d).content, pos := q } d).content
      = (fwrite { content := f.content, pos := q } d).content := by
  unfold fwrite
  by_cases hd : d = []
  · simp [hd]
  · simp only [hd, if_false]
    have hA : (List.take q f.content ++ List.replicate (q - f.content.length) 0).length = q := by
      simp [List.length_take]; omega
    have h1 : List.take q (List.take q f.content ++ List.replicate (q - f.content.length) 0 ++ d ++
        List.drop (q + d.length) f.content) =
        List.take q f.content ++ List.replicate (q - f.content.length) 0 := by
      rw [List.append_assoc, List.take_left' hA]
    have h2 : List.drop (q + d.length) (List.take q f.content ++
        List.replicate (q - f.content.length) 0 ++ d ++ List.drop (q + d.length) f.content) =
        List.drop (q + d.length) f.content := by
      apply List.drop_left'
      rw [List.length_append, hA]
    have h3 : q - (List.take q f.content ++ List.replicate (q - f.content.length) 0 ++ d ++
        List.drop (q + d.length) f.content).length = 0 := by
      rw [List.length_append, List.length_append, hA]; omega
    rw [h1, h2, h3]
    simp

theorem fwriter_offset_write_twice (hdr : Nat) (fw : fwriter) (data : List byte) (n o : Nat) :
    fwriter_offset_write hdr (fwriter_offset_write hdr fw data n o) data n o
      = fwriter_offset_write hdr fw data n o := by
  unfold fwriter_offset_write fseek_cur fseek_set
  simp only
  have := fwrite_fwrite fw (fw.pos + o * max_file_chunk_size hdr) (data.take n)
  simp only [this]

theorem recvr_save_data_twice (hdr : Nat) (x : recvr) :
    recvr_save_data hdr (recvr_save_data hdr x) = recvr_save_data hdr x := by
  by_cases h1 : safe_subtract x.sender_header.seq_num x.next_seq_num ≥ MAX_WINDOW_SIZE
  · rw [recvr_save_data_out hdr x h1, recvr_save_data_out hdr x h1]
  by_cases h2 : is_written x (safe_subtract x.sender_header.seq_num x.next_seq_num) ≠ 0
  · rw [recvr_save_data_dup hdr x h2, recvr_save_data_dup hdr x h2]
  by_cases h3 : x.sender_header.seq_num = x.next_seq_num
  · rw [recvr_save_data_base hdr x h1 h2 h3]
    apply recvr_save_data_out
    have hb := slide_amount_bounds x.window
    simp only [h3]
    rw [safe_subtract_safe_add _ _ hb.1 hb.2]
    unfold MAX_WINDOW_SIZE
    omega
  · rw [recvr_save_data_ooo hdr x h1 h2 h3]
    set y := mark_written
        { x with
          fwriter := fwriter_offset_write hdr x.fwriter x.msg_recv.data (x.bytes_recv - hdr).toNat
            (safe_subtract x.sender_header.seq_num x.next_seq_num).toNat }
        (safe_subtract x.sender_header.seq_num x.next_seq_num) with hy
    have e1 : y.sender_header = x.sender_header := rfl
    have e2 : y.next_seq_num = x.next_seq_num := rfl
    by_cases h4 : is_written y (safe_subtract y.sender_header.seq_num y.next_seq_num) ≠ 0
    · exact recvr_save_data_dup hdr y h4
    · rw [recvr_save_data_ooo hdr y (by rw [e1, e2]; exact h1) h4 (by rw [e1, e2]; exact h3)]
      rw [e1, e2, hy]
      simp only [mark_written, fwriter_offset_write_twice, Nat.or_assoc, Nat.or_self]

theorem recvr_save_data_frame (hdr : Nat) (x : recvr) :
    (recvr_save_data hdr x).msg_recv = x.msg_recv ∧
      (recvr_save_data hdr x).bytes_recv = x.bytes_recv ∧
      (recvr_save_data hdr x).sender_header = x.sender_header ∧
      (recvr_save_data hdr x).sent = x.sent ∧
      (recvr_save_data hdr x).client_connected = x.client_connected ∧
      (recvr_save_data hdr x).cycle_count = x.cycle_count := by
  by_cases h1 : safe_subtract x.sender_header.seq_num x.next_seq_num ≥ MAX_WINDOW_SIZE
  · rw [recvr_save_data_out hdr x h1]; simp
  by_cases h2 : is_written x (safe_subtract x.sender_header.seq_num x.next_seq_num) ≠ 0
  · rw [recvr_save_data_dup hdr x h2]; simp
  by_cases h3 : x.sender_header.seq_num = x.next_seq_num
  · rw [recvr_save_data_base hdr x h1 h2 h3]; simp
  · rw [recvr_save_data_ooo hdr x h1 h2 h3]; simp [mark_written]

theorem recvr_accept_reload (hdr : Nat) (r : recvr) (p : datagram) :
    parse_header (udp_recv hdr (recvr_accept hdr r p) (some p)) = recvr_accept hdr r p := by
  obtain ⟨f1, f2, f3, -, -, -⟩ :=
    recvr_save_data_frame hdr (parse_header (udp_recv hdr r (some p)))
  have g1 : (recvr_accept hdr r p).msg_recv = p := f1
  have g2 : (recvr_accept hdr r p).bytes_recv = (hdr : Int) + p.data.length := f2
  have g3 : (recvr_accept hdr r p).sender_header = p.header := f3
  generalize recvr_accept hdr r p = y at g1 g2 g3
  cases y
  simp only [parse_header, udp_recv] at *
  simp [g1, g2, g3]

/-- C3. A data packet that goes through `recvr_save_data` a second time
leaves the receiver, and with it the contents and the position of the file,
`next_seq_num` and `window`, as the first time left them; and a packet in
the window whose bit is set leaves the file, `next_seq_num` and `window`
untouched. -/
theorem idempotent_write (hdr : Nat) (r : recvr) (p : datagram) :
    recvr_accept hdr (recvr_accept hdr r p) p = recvr_accept hdr r p ∧
      (safe_subtract p.header.seq_num r.next_seq_num < MAX_WINDOW_SIZE →
        is_written r (safe_subtract p.header.seq_num r.next_seq_num) ≠ 0 →
        (recvr_accept hdr r p).fwriter = r.fwriter ∧
          (recvr_accept hdr r p).next_seq_num = r.next_seq_num ∧
          (recvr_accept hdr r p).window = r.window) := by
  constructor
  · show recvr_save_data hdr (parse_header (udp_recv hdr (recvr_accept hdr r p) (some p))) = _
    rw [recvr_accept_reload]
    exact recvr_save_data_twice hdr _
  · intro _ h
    have h2 : is_written (parse_header (udp_recv hdr r (some p)))
        (safe_subtract (parse_header (udp_recv hdr r (some p))).sender_header.seq_num
          (parse_header (udp_recv hdr r (some p))).next_seq_num) ≠ 0 := h
    unfold recvr_accept
    rw [recvr_save_data_dup hdr _ h2]
    exact ⟨rfl, rfl, rfl⟩

theorem idempotent_write_witness :
    recvr_accept 24 (recvr_accept 24 (recvr_accept 24 recvr_initial (packet 1 [7])) (packet 1 [7]))
        (packet 1 [7]) = recvr_accept 24 (recvr_accept 24 recvr_initial (packet 1 [7])) (packet 1 [7]) ∧
      safe_subtract (packet 1 [7]).header.seq_num
        (recvr_accept 24 recvr_initial (packet 1 [7])).next_seq_num < MAX_WINDOW_SIZE ∧
      is_written (recvr_accept 24 recvr_initial (packet 1 [7]))
        (safe_subtract (packet 1 [7]).header.seq_num
          (recvr_accept 24 recvr_initial (packet 1 [7])).next_seq_num) ≠ 0 ∧
      (recvr_accept 24 (recvr_accept 24 recvr_initial (packet 1 [7])) (packet 1 [7])).fwriter
        = (recvr_accept 24 recvr_initial (packet 1 [7])).fwriter :=
  ⟨(idempotent_write 24 (recvr_accept 24 recvr_initial (packet 1 [7])) (packet 1 [7])).1,
    by decide, by decide,
    ((idempotent_write 24 (recvr_accept 24 recvr_initial (packet 1 [7])) (packet 1 [7])).2
      (by decide) (by decide)).1⟩

/-! ## Receiver: the branches on the offsets where the shifts are defined -/

theorem bit_mask_low (k : Nat) (h : k < 31) : to_ull64 (shl_int 1 (k : Int)) = 2 ^ k := by
  interval_cases k <;> decide

/-- A packet at an offset from 1 to 63 whose bit is clear: the payload is
written at the position plus `offset` chunks, the position of the file and
`next_seq_num` stay, and `window` takes the bits of the mask that
`mark_written` computes. -/
theorem out_of_order_write (hdr : Nat) (r : recvr) (p : datagram) (k : Nat)
    (hk : safe_subtract p.header.seq_num r.next_seq_num = (k : Int))
    (h1 : 1 ≤ k) (h2 : k < 64) (hw : is_written r (k : Int) = 0) :
    (recvr_accept hdr r p).fwriter.content =
        (fwrite { content := r.fwriter.content,
                  pos := r.fwriter.pos + k * max_file_chunk_size hdr } p.data).content ∧
      (recvr_accept hdr r p).fwriter.pos = r.fwriter.pos ∧
      (recvr_accept hdr r p).next_seq_num = r.next_seq_num ∧
      (recvr_accept hdr r p).window = r.window ||| to_ull64 (shl_int 1 (k : Int)) := by
  set x := parse_header (udp_recv hdr r (some p)) with hx
  have e1 : x.sender_header.seq_num = p.header.seq_num := rfl
  have e2 : x.next_seq_num = r.next_seq_num := rfl
  have c1 : ¬ safe_subtract x.sender_header.seq_num x.next_seq_num ≥ MAX_WINDOW_SIZE := by
    rw [e1, e2, hk]; unfold MAX_WINDOW_SIZE; omega
  have c2 : ¬ is_written x (safe_subtract x.sender_header.seq_num x.next_seq_num) ≠ 0 := by
    rw [e1, e2, hk]; exact not_not.2 hw
  have c3 : ¬ x.sender_header.seq_num = x.next_seq_num := by
    intro h
    rw [e1, e2] at h
    rw [h, safe_subtract_self] at hk
    omega
  have hsz : ((x.bytes_recv - (hdr : Int)).toNat) = p.data.length := by
    show (((hdr : Int) + (p.data.length : Int)) - (hdr : Int)).toNat = p.data.length
    omega
  have hacc : recvr_accept hdr r p = recvr_save_data hdr x := rfl
  rw [hacc, recvr_save_data_ooo hdr x c1 c2 c3, e1, e2, hk, hsz]
  have e3 : x.window = r.window := rfl
  have e4 : x.msg_recv.data = p.data := rfl
  have e5 : x.fwriter = r.fwriter := rfl
  refine ⟨?_, rfl, rfl, ?_⟩
  · simp only [mark_written, Int.toNat_ofNat, fwriter_offset_write, fseek_cur, fseek_set, e4,
      e5, List.take_length]
  · simp only [mark_written, e3]

theorem out_of_order_write_witness :
    safe_subtract (packet 40 [7]).header.seq_num recvr_initial.next_seq_num = ((40 : Nat) : Int) ∧
      (recvr_accept 24 recvr_initial (packet 40 [7])).fwriter.pos = recvr_initial.fwriter.pos :=
  ⟨by decide,
    (out_of_order_write 24 recvr_initial (packet 40 [7]) 40 (by decide) (by decide) (by decide)
      (by decide)).2.1⟩

/-- A packet at an offset from 1 to 30 whose bit is clear: the payload is
written at the position plus `offset` chunks, bit `offset` of `window` is
set and no other bit changes, and the position of the file and
`next_seq_num` stay. -/
theorem out_of_order_write_low (hdr : Nat) (r : recvr) (p : datagram) (k : Nat)
    (hk : safe_subtract p.header.seq_num r.next_seq_num = (k : Int))
    (h1 : 1 ≤ k) (h2 : k < 31) (hw : is_written r (k : Int) = 0) :
    (recvr_accept hdr r p).fwriter.content =
        (fwrite { content := r.fwriter.content,
                  pos := r.fwriter.pos + k * max_file_chunk_size hdr } p.data).content ∧
      (recvr_accept hdr r p).fwriter.pos = r.fwriter.pos ∧
      (recvr_accept hdr r p).next_seq_num = r.next_seq_num ∧
      (recvr_accept hdr r p).window = r.window ||| 2 ^ k ∧
      (∀ j, (recvr_accept hdr r p).window.testBit j = (r.window.testBit j || decide (k = j))) := by
  obtain ⟨w1, w2, w3, w4⟩ := out_of_order_write hdr r p k hk h1 (by omega) hw
  rw [bit_mask_low k h2] at w4
  refine ⟨w1, w2, w3, w4, ?_⟩
  intro j
  rw [w4, Nat.testBit_or, Nat.testBit_two_pow]

theorem out_of_order_write_low_witness :
    safe_subtract (packet 5 [7]).header.seq_num recvr_initial.next_seq_num = ((5 : Nat) : Int) ∧
      (recvr_accept 24 recvr_initial (packet 5 [7])).window = recvr_initial.window ||| 2 ^ 5 :=
  ⟨by decide,
    (out_of_order_write_low 24 recvr_initial (packet 5 [7]) 5 (by decide) (by decide) (by decide)
      (by decide)).2.2.2.1⟩

theorem is_written_eq_zero_iff (r : recvr) (j : Nat) (h : j < 64) :
    is_written r (j : Int) = 0 ↔ r.window.testBit j = false := by
  rw [is_written_eq r j (by omega) (by omega), Int.toNat_ofNat, Nat.testBit_to_div_mod,
    Nat.shiftRight_eq_div_pow]
  simp only [decide_eq_false_iff_not]
  omega

theorem move_window_loop_spec (r : recvr) (n : Nat) :
    ∀ i : Nat, i + n ≤ 64 →
      ∃ k : Nat, move_window_loop r n (i : Int) (i : Int) = (k : Int) ∧ i ≤ k ∧ k ≤ i + n ∧
        (∀ j, i ≤ j → j < k → r.window.testBit j = true) ∧
        (k < i + n → r.window.testBit k = false) := by
  induction n with
  | zero =>
    intro i _
    exact ⟨i, rfl, le_refl _, le_refl _, fun j h1 h2 => absurd h2 (by omega),
      fun h => absurd h (by omega)⟩
  | succ n ih =>
    intro i hi
    unfold move_window_loop
    by_cases hw : is_written r (i : Int) = 0
    · rw [if_pos hw]
      exact ⟨i, rfl, le_refl _, by omega, fun j h1 h2 => absurd h2 (by omega),
        fun _ => (is_written_eq_zero_iff r i (by omega)).1 hw⟩
    · rw [if_neg hw]
      obtain ⟨k, hk, h1, h2, h3, h4⟩ := ih (i + 1) (by omega)
      refine ⟨k, ?_, by omega, by omega, ?_, fun h => h4 (by omega)⟩
      · rw [← hk]; push_cast; rfl
      · intro j hj1 hj2
        rcases Nat.eq_or_lt_of_le hj1 with he | hl
        · subst he
          have := mt (is_written_eq_zero_iff r i (by omega)).2 hw
          simpa using this
        · exact h3 j (by omega) hj2

/-- The slide of the base packet when fewer than 64 slots are filled: with
`k` the number of consecutive set low bits of `window | 1`, `next_seq_num`
moves by `k` modulo 256, the payload is written at the position, the
position moves by `k` chunks and `window` is `window | 1` shifted right by
`k`. When all 64 bits are set, `window` keeps them. -/
theorem slide_law_below_64 (hdr : Nat) (r : recvr) (p : datagram)
    (hseq : p.header.seq_num = r.next_seq_num) (hbit : is_written r 0 = 0) :
    ∃ k : Nat, 1 ≤ k ∧ k ≤ 64 ∧
      (∀ j, j < k → (r.window ||| 1).testBit j = true) ∧
      (k < 64 → (r.window ||| 1).testBit k = false) ∧
      (recvr_accept hdr r p).next_seq_num = safe_add r.next_seq_num k ∧
      (recvr_accept hdr r p).fwriter.pos = r.fwriter.pos + k * max_file_chunk_size hdr ∧
      (recvr_accept hdr r p).fwriter.content = (fwrite r.fwriter p.data).content ∧
      (k < 64 → (recvr_accept hdr r p).window = (r.window ||| 1) >>> k) ∧
      (k = 64 → (recvr_accept hdr r p).window = r.window ||| 1) := by
  set x := parse_header (udp_recv hdr r (some p)) with hx
  have e1 : x.sender_header.seq_num = p.header.seq_num := rfl
  have e2 : x.next_seq_num = r.next_seq_num := rfl
  have e3 : x.window = r.window := rfl
  have e4 : x.msg_recv.data = p.data := rfl
  have e5 : x.fwriter = r.fwriter := rfl
  have e0 : safe_subtract x.sender_header.seq_num x.next_seq_num = 0 := by
    rw [e1, e2, hseq]; exact safe_subtract_self _
  have c1 : ¬ safe_subtract x.sender_header.seq_num x.next_seq_num ≥ MAX_WINDOW_SIZE := by
    rw [e0]; decide
  have c2 : ¬ is_written x (safe_subtract x.sender_header.seq_num x.next_seq_num) ≠ 0 := by
    rw [e0]; exact not_not.2 hbit
  have c3 : x.sender_header.seq_num = x.next_seq_num := by rw [e1, e2, hseq]
  have hsz : ((x.bytes_recv - (hdr : Int)).toNat) = p.data.length := by
    show (((hdr : Int) + (p.data.length : Int)) - (hdr : Int)).toNat = p.data.length
    omega
  obtain ⟨k, hk, -, k2, k3, k4⟩ :=
    move_window_loop_spec { recvr_initial with window := r.window ||| 1 } 64 0 (by omega)
  have hsl : slide_amount r.window = (k : Int) := hk
  have hb := slide_amount_bounds r.window
  have hacc : recvr_accept hdr r p = recvr_save_data hdr x := rfl
  rw [hacc, recvr_save_data_base hdr x c1 c2 c3, e2, e3, e4, e5, hsz, hsl]
  refine ⟨k, by omega, by omega, fun j hj => k3 j (Nat.zero_le _) hj, fun h => k4 (by omega),
    rfl, ?_, ?_, ?_, ?_⟩
  · simp only [fwriter_set_position, fseek_cur, fwriter_offset_write, fseek_set, Int.toNat_ofNat]
  · simp only [fwriter_set_position, fseek_cur, fwriter_offset_write, fseek_set,
      List.take_length, Nat.zero_mul, Nat.add_zero]
  · intro h
    show shr_ull64 (r.window ||| 1) (k : Int) = _
    rw [shr_ull64_of_lt _ _ (by omega) (by omega), Int.toNat_ofNat]
  · intro h
    subst h
    show shr_ull64 (r.window ||| 1) ((64 : Nat) : Int) = _
    simp [shr_ull64]

theorem slide_law_below_64_witness :
    (packet 0 [7]).header.seq_num = recvr_initial.next_seq_num ∧
      is_written recvr_initial 0 = 0 ∧
      ∃ k : Nat, 1 ≤ k ∧ k ≤ 64 ∧
        (∀ j, j < k → (recvr_initial.window ||| 1).testBit j = true) ∧
        (k < 64 → (recvr_initial.window ||| 1).testBit k = false) ∧
        (recvr_accept 24 recvr_initial (packet 0 [7])).next_seq_num
          = safe_add recvr_initial.next_seq_num k ∧
        (recvr_accept 24 recvr_initial (packet 0 [7])).fwriter.pos
          = recvr_initial.fwriter.pos + k * max_file_chunk_size 24 ∧
        (recvr_accept 24 recvr_initial (packet 0 [7])).fwriter.content
          = (fwrite recvr_initial.fwriter (packet 0 [7]).data).content ∧
        (k < 64 → (recvr_accept 24 recvr_initial (packet 0 [7])).window
          = (recvr_initial.window ||| 1) >>> k) ∧
        (k = 64 → (recvr_accept 24 recvr_initial (packet 0 [7])).window
          = recvr_initial.window ||| 1) :=
  ⟨by decide, by decide,
    slide_law_below_64 24 recvr_initial (packet 0 [7]) (by decide) (by decide)⟩

/-! ## Receiver: a window delivered in reverse -/

theorem window_packets_succ (next : Int) (tv : timeval) (d : Nat → List byte) (n : Nat) :
    window_packets next tv d (n + 1) =
      { header := { seq_num := safe_add next n, timestamp := tv }, data := d n }
        :: window_packets next tv d n := by
  simp [window_packets, List.range_succ]

theorem reverse_delivery_aux (hdr : Nat) (next : Int) (tv : timeval) (d : Nat → List byte)
    (n0 : Nat) (hn0 : n0 ≤ 31) (h0 : 0 ≤ next) (h256 : next < 256) (n : Nat) :
    n + 1 ≤ n0 → ∀ r : recvr, r.next_seq_num = next →
      (∀ b, r.window.testBit b = decide (n + 1 ≤ b ∧ b < n0)) →
      (recvr_accept_all hdr r (window_packets next tv d (n + 1))).next_seq_num
          = safe_add next n0 ∧
        (recvr_accept_all hdr r (window_packets next tv d (n + 1))).window = 0 ∧
        (recvr_accept_all hdr r (window_packets next tv d (n + 1))).fwriter.pos
          = r.fwriter.pos + n0 * max_file_chunk_size hdr ∧
        (recvr_accept_all hdr r (window_packets next tv d (n + 1))).fwriter.content
          = writes_down (max_file_chunk_size hdr) r.fwriter.pos d (n + 1) r.fwriter.content := by
  induction n with
  | zero =>
    intro hn r hr hb
    have hs : safe_add next ((0 : Nat) : Int) = next := by
      unfold safe_add MAX_SEQ
      rw [tmod_256_nonneg (by omega)]
      omega
    have hbit0 : is_written r 0 = 0 :=
      (is_written_eq_zero_iff r 0 (by omega)).2 (by rw [hb]; simp)
    obtain ⟨k, k1, k2, k3, k4, k5, k6, k7, k8, -⟩ := slide_law_below_64 hdr r
      { header := { seq_num := safe_add next ((0 : Nat) : Int), timestamp := tv }, data := d 0 }
      (by rw [hs, hr]) hbit0
    have hor : ∀ b, (r.window ||| 1).testBit b = decide (b < n0) := by
      intro b
      rw [Nat.testBit_or, hb, show (1 : Nat) = 2 ^ 0 from rfl, Nat.testBit_two_pow]
      by_cases hb0 : b = 0
      · subst hb0; simp; omega
      · have : ¬ (0 = b) := fun h => hb0 h.symm
        simp [this]; omega
    have hk : k = n0 := by
      rcases Nat.lt_trichotomy k n0 with h | h | h
      · have := k4 (by omega)
        rw [hor] at this
        simp at this
        omega
      · exact h
      · have := k3 n0 h
        rw [hor] at this
        simp at this
    subst hk
    have hlist : window_packets next tv d (0 + 1) =
        [{ header := { seq_num := safe_add next ((0 : Nat) : Int), timestamp := tv },
           data := d 0 }] := rfl
    rw [hlist]
    simp only [recvr_accept_all, List.foldl_cons, List.foldl_nil]
    refine ⟨by rw [k5, hr], ?_, k6, ?_⟩
    · rw [k8 (by omega)]
      apply Nat.eq_of_testBit_eq
      intro j
      rw [Nat.testBit_shiftRight, hor, Nat.zero_testBit]
      simp
    · rw [k7]
      simp [writes_down]
  | succ n ih =>
    intro hn r hr hb
    rw [window_packets_succ]
    simp only [recvr_accept_all, List.foldl_cons]
    have hoff : safe_subtract (safe_add next ((n + 1 : Nat) : Int)) r.next_seq_num
        = ((n + 1 : Nat) : Int) := by
      rw [safe_subtract_eq_emod, hr]
      unfold safe_add MAX_SEQ
      rw [tmod_256_nonneg (by omega)]
      push_cast
      omega
    have hclear : is_written r ((n + 1 : Nat) : Int) = 0 :=
      (is_written_eq_zero_iff r (n + 1) (by omega)).2 (by rw [hb]; simp)
    obtain ⟨w1, w2, w3, -, w5⟩ := out_of_order_write_low hdr r
      { header := { seq_num := safe_add next ((n + 1 : Nat) : Int), timestamp := tv },
        data := d (n + 1) } (n + 1) hoff (by omega) (by omega) hclear
    have hi := ih (by omega) _ (w3.trans hr) (by
      intro b
      rw [w5, hb, Bool.eq_iff_iff]
      simp only [Bool.or_eq_true, decide_eq_true_eq]
      omega)
    simp only [recvr_accept_all] at hi
    obtain ⟨i1, i2, i3, i4⟩ := hi
    refine ⟨i1, i2, by rw [i3, w2], ?_⟩
    rw [i4, w1, w2]
    rfl

/-- A window of `n` packets, `1 ≤ n ≤ 31`, delivered in reverse to a
receiver with window 0: every payload is written at its slot,
`next_seq_num` moves by `n` modulo 256, the position by `n` chunks, and
`window` is 0 again. -/
theorem reverse_delivery_low (hdr : Nat) (r : recvr) (tv : timeval) (d : Nat → List byte)
    (n : Nat) (h1 : 1 ≤ n) (h2 : n ≤ 31) (hw : r.window = 0)
    (h0 : 0 ≤ r.next_seq_num) (h256 : r.next_seq_num < 256) :
    (recvr_accept_all hdr r (window_packets r.next_seq_num tv d n)).next_seq_num
        = safe_add r.next_seq_num n ∧
      (recvr_accept_all hdr r (window_packets r.next_seq_num tv d n)).window = 0 ∧
      (recvr_accept_all hdr r (window_packets r.next_seq_num tv d n)).fwriter.pos
        = r.fwriter.pos + n * max_file_chunk_size hdr ∧
      (recvr_accept_all hdr r (window_packets r.next_seq_num tv d n)).fwriter.content
        = writes_down (max_file_chunk_size hdr) r.fwriter.pos d n r.fwriter.content := by
  obtain ⟨m, rfl⟩ : ∃ m, n = m + 1 := ⟨n - 1, by omega⟩
  exact reverse_delivery_aux hdr r.next_seq_num tv d (m + 1) h2 h0 h256 m (le_refl _) r rfl
    (by intro b; rw [hw, Nat.zero_testBit]; simp)

theorem reverse_delivery_low_witness :
    1 ≤ 3 ∧ 3 ≤ 31 ∧ recvr_initial.window = 0 ∧ 0 ≤ recvr_initial.next_seq_num ∧
      recvr_initial.next_seq_num < 256 ∧
      (recvr_accept_all 24 recvr_initial
        (window_packets recvr_initial.next_seq_num (packet 0 []).header.timestamp
          (fun i => [UInt8.ofNat i]) 3)).window = 0 :=
  ⟨by decide, by decide, by decide, by decide, by decide,
    (reverse_delivery_low 24 recvr_initial (packet 0 []).header.timestamp
      (fun i => [UInt8.ofNat i]) 3 (by decide) (by decide) (by decide) (by decide)
      (by decide)).2.1⟩

/-! ## Sender: the congestion window -/

theorem tdiv_two_bounds (x : Int) (h1 : 1 ≤ x) (h2 : x ≤ 64) :
    0 ≤ x.tdiv 2 ∧ x.tdiv 2 ≤ 32 := by
  rw [Int.tdiv_eq_ediv (by omega) (by decide)]
  omega

theorem cc_slow_start_bounds (s : sender) (h : cc_bounds s) : cc_bounds (cc_slow_start s) := by
  obtain ⟨h1, h2, h3, h4⟩ := h
  unfold MAX_WINDOW_SIZE at *
  have := tdiv_two_bounds _ h3 h4
  unfold cc_slow_start cc_bounds MAX_WINDOW_SIZE
  simp only
  split_ifs <;> omega

theorem cc_fast_recovery_bounds (s : sender) (h : cc_bounds s) :
    cc_bounds (cc_fast_recovery s) := by
  obtain ⟨h1, h2, h3, h4⟩ := h
  unfold MAX_WINDOW_SIZE at *
  have := tdiv_two_bounds _ h1 h2
  unfold cc_fast_recovery cc_bounds MAX_WINDOW_SIZE
  simp only
  split_ifs <;> omega

theorem cc_incr_bounds (s : sender) (h : cc_bounds s) : cc_bounds (cc_incr s) := by
  obtain ⟨h1, h2, h3, h4⟩ := h
  unfold MAX_WINDOW_SIZE at *
  unfold cc_incr cc_bounds MAX_WINDOW_SIZE
  simp only
  split_ifs <;> omega

theorem cc_run_bounds (ts : List cc_transition) (s : sender) (h : cc_bounds s) :
    cc_bounds (cc_run s ts) := by
  induction ts generalizing s with
  | nil => exact h
  | cons t ts ih =>
    apply ih
    cases t
    · exact cc_slow_start_bounds s h
    · exact cc_fast_recovery_bounds s h
    · exact cc_incr_bounds s h

theorem sender_create_bounds (f : file) (transfer_size : Nat) (buf : List byte)
    (ack0 : recvr_packet_header) (tv0 : timeval) :
    cc_bounds (sender_create f transfer_size buf ack0 tv0) := by
  unfold cc_bounds sender_create MAX_WINDOW_SIZE
  simp

/-- C7. From the sender that `sender_create` returns, after any finite
sequence of `cc_slow_start`, `cc_fast_recovery` and `cc_incr`,
`1 ≤ window_size ≤ 64` and `1 ≤ optimal_window_size ≤ 64`. -/
theorem congestion_window_bounds (f : file) (transfer_size : Nat) (buf : List byte)
    (ack0 : recvr_packet_header) (tv0 : timeval) (ts : List cc_transition) :
    1 ≤ (cc_run (sender_create f transfer_size buf ack0 tv0) ts).window_size ∧
      (cc_run (sender_create f transfer_size buf ack0 tv0) ts).window_size ≤ 64 ∧
      1 ≤ (cc_run (sender_create f transfer_size buf ack0 tv0) ts).optimal_window_size ∧
      (cc_run (sender_create f transfer_size buf ack0 tv0) ts).optimal_window_size ≤ 64 :=
  cc_run_bounds ts _ (sender_create_bounds f transfer_size buf ack0 tv0)

/-! ## Sender: the window at the head of the loop -/

theorem send_chunk_cc (hdr : Nat) (clock : Nat → timeval) (s : sender) (seq_num : Int) :
    (send_chunk hdr clock s seq_num).1.window_size = s.window_size ∧
      (send_chunk hdr clock s seq_num).1.optimal_window_size = s.optimal_window_size := by
  simp [send_chunk, sender_packet_header_load, gettimeofday, file_read]

theorem sender_send_data_loop_cc (hdr : Nat) (clock : Nat → timeval) (n : Nat) (i : Int)
    (s : sender) (seq_num packets_sent : Int) :
    (sender_send_data_loop hdr clock n i s seq_num packets_sent).1.window_size = s.window_size ∧
      (sender_send_data_loop hdr clock n i s seq_num packets_sent).1.optimal_window_size
        = s.optimal_window_size := by
  induction n generalizing i s seq_num packets_sent with
  | zero => simp [sender_send_data_loop]
  | succ n ih =>
    unfold sender_send_data_loop
    split_ifs
    · simp
    · rw [(ih _ _ _ _).1, (ih _ _ _ _).2]; simp
    · rw [(ih _ _ _ _).1, (ih _ _ _ _).2]; exact send_chunk_cc hdr clock s seq_num

theorem sender_send_data_cc (hdr : Nat) (clock : Nat → timeval) (s : sender) :
    (sender_send_data hdr clock s).window_size = s.window_size ∧
      (sender_send_data hdr clock s).optimal_window_size = s.optimal_window_size := by
  unfold sender_send_data
  exact sender_send_data_loop_cc hdr clock _ 0 s _ 0

theorem sender_recv_acks_loop_cc (hdr : Nat) (clock : Nat → timeval) (n : Nat) (s : sender)
    (l : recv_acks_locals) (evs : List (Option recvr_packet_header)) :
    (sender_recv_acks_loop hdr clock n s l evs).1.window_size = s.window_size ∧
      (sender_recv_acks_loop hdr clock n s l evs).1.optimal_window_size
        = s.optimal_window_size := by
  induction n generalizing s l evs with
  | zero => simp [sender_recv_acks_loop]
  | succ n ih =>
    have hu : ∀ ev, (sender_udp_recv s ev).window_size = s.window_size ∧
        (sender_udp_recv s ev).optimal_window_size = s.optimal_window_size := by
      intro ev; cases ev <;> simp [sender_udp_recv]
    unfold sender_recv_acks_loop
    simp only
    split_ifs with h1 h2 h3
    · exact hu _
    · rw [(ih _ _ _).1, (ih _ _ _).2]
      simp only [update_rtt, gettimeofday, update_last_ack, fast_retransmit]
      rw [(send_chunk_cc _ _ _ _).1, (send_chunk_cc _ _ _ _).2]
      exact hu _
    · rw [(ih _ _ _).1, (ih _ _ _).2]
      simp only [update_rtt, gettimeofday, update_last_ack]
      exact hu _
    · rw [(ih _ _ _).1, (ih _ _ _).2]
      simp only [update_rtt, gettimeofday, update_last_ack]
      exact hu _

theorem sender_recv_acks_bounds (hdr : Nat) (clock : Nat → timeval) (s : sender)
    (evs : List (Option recvr_packet_header)) (h : cc_bounds s) :
    cc_bounds (sender_recv_acks hdr clock s evs).1 := by
  have hl := sender_recv_acks_loop_cc hdr clock s.packets_sent.toNat s
    { packets_recv := 0, should_slow_start := 0, should_recover_fast := 0, dup_count := 0 } evs
  have hb : cc_bounds (sender_recv_acks_loop hdr clock s.packets_sent.toNat s
      { packets_recv := 0, should_slow_start := 0, should_recover_fast := 0, dup_count := 0 }
      evs).1 := by
    unfold cc_bounds
    rw [hl.1, hl.2]
    exact h
  unfold sender_recv_acks
  simp only
  split_ifs
  · exact cc_slow_start_bounds _ hb
  · exact cc_fast_recovery_bounds _ hb
  · exact cc_incr_bounds _ hb

/-- The window facts at the head of the loop of `transfer`. -/
theorem transfer_body_quiescent (hdr : Nat) (clock : Nat → timeval)
    (st : sender × List (Option recvr_packet_header)) (h : cc_bounds st.1) :
    cc_bounds (transfer_body hdr clock st).1 ∧
      (((transfer_body hdr clock st).1.last_ack = -1 ∧
          (transfer_body hdr clock st).1.start_seq_num = 0) ∨
        (transfer_body hdr clock st).1.last_ack = (transfer_body hdr clock st).1.start_seq_num) := by
  have h1 : cc_bounds (sender_send_data hdr clock st.1) := by
    unfold cc_bounds
    rw [(sender_send_data_cc hdr clock st.1).1, (sender_send_data_cc hdr clock st.1).2]
    exact h
  have h2 := sender_recv_acks_bounds hdr clock _ st.2 h1
  unfold transfer_body
  simp only [sender_reset, sender_set_timeout, file_moveto, file_get_position]
  refine ⟨h2, ?_⟩
  split_ifs with h3
  · left; exact ⟨h3, rfl⟩
  · right; rfl

theorem transfer_quiescent_inv (hdr : Nat) (clock : Nat → timeval) (k : Nat)
    (st : sender × List (Option recvr_packet_header)) (h : cc_bounds st.1)
    (h2 : (st.1.last_ack = -1 ∧ st.1.start_seq_num = 0) ∨ st.1.last_ack = st.1.start_seq_num) :
    cc_bounds (transfer_quiescent hdr clock k st).1 ∧
      (((transfer_quiescent hdr clock k st).1.last_ack = -1 ∧
          (transfer_quiescent hdr clock k st).1.start_seq_num = 0) ∨
        (transfer_quiescent hdr clock k st).1.last_ack
          = (transfer_quiescent hdr clock k st).1.start_seq_num) := by
  induction k generalizing st with
  | zero => exact ⟨h, h2⟩
  | succ k ih =>
    unfold transfer_quiescent
    split_ifs
    · exact ⟨h, h2⟩
    · have := transfer_body_quiescent hdr clock st h
      exact ih _ this.1 this.2

/-- C6, as the claim states it, fails at the initial sender, where the
distance from `start_seq_num` to `last_ack` is 255 and `window_size` is 1,
and again after a first burst whose receive timed out. -/
theorem window_invariant_fails_initially :
    ¬ (safe_subtract sender_initial.last_ack sender_initial.start_seq_num
          ≤ sender_initial.window_size ∧
        sender_initial.window_size ≤ MAX_WINDOW_SIZE ∧
        sender_initial.optimal_window_size ≤ MAX_WINDOW_SIZE) ∧
      ¬ (safe_subtract (sender_at_burst 24 clock_zero sender_three_bytes [none] 1).last_ack
            (sender_at_burst 24 clock_zero sender_three_bytes [none] 1).start_seq_num
          ≤ (sender_at_burst 24 clock_zero sender_three_bytes [none] 1).window_size ∧
        (sender_at_burst 24 clock_zero sender_three_bytes [none] 1).window_size
          ≤ MAX_WINDOW_SIZE ∧
        (sender_at_burst 24 clock_zero sender_three_bytes [none] 1).optimal_window_size
          ≤ MAX_WINDOW_SIZE) := by
  decide

/-- C6, amended. At the head of the loop of `transfer` after any number of
bursts, for any receives, `window_size ≤ 64` and `optimal_window_size ≤ 64`,
and either `last_ack` is -1, `start_seq_num` is 0 and their distance is 255,
or the distance from `start_seq_num` to `last_ack` is at most `window_size`. -/
theorem window_invariant (hdr : Nat) (clock : Nat → timeval) (f : file) (transfer_size : Nat)
    (buf : List byte) (ack0 : recvr_packet_header) (tv0 : timeval)
    (evs : List (Option recvr_packet_header)) (k : Nat) :
    (sender_at_burst hdr clock (sender_create f transfer_size buf ack0 tv0) evs k).window_size
        ≤ MAX_WINDOW_SIZE ∧
      (sender_at_burst hdr clock (sender_create f transfer_size buf ack0 tv0) evs
        k).optimal_window_size ≤ MAX_WINDOW_SIZE ∧
      (((sender_at_burst hdr clock (sender_create f transfer_size buf ack0 tv0) evs k).last_ack = -1 ∧
          (sender_at_burst hdr clock (sender_create f transfer_size buf ack0 tv0) evs
            k).start_seq_num = 0 ∧
          safe_subtract
            (sender_at_burst hdr clock (sender_create f transfer_size buf ack0 tv0) evs k).last_ack
            (sender_at_burst hdr clock (sender_create f transfer_size buf ack0 tv0) evs
              k).start_seq_num = 255) ∨
        safe_subtract
            (sender_at_burst hdr clock (sender_create f transfer_size buf ack0 tv0) evs k).last_ack
            (sender_at_burst hdr clock (sender_create f transfer_size buf ack0 tv0) evs
              k).start_seq_num
          ≤ (sender_at_burst hdr clock (sender_create f transfer_size buf ack0 tv0) evs
              k).window_size) := by
  have h0 : cc_bounds (sender_set_timeout (sender_create f transfer_size buf ack0 tv0)) :=
    sender_create_bounds f transfer_size buf ack0 tv0
  obtain ⟨⟨h1, h2, -, h4⟩, h5⟩ := transfer_quiescent_inv hdr clock k
    (sender_set_timeout (sender_create f transfer_size buf ack0 tv0), evs) h0
    (Or.inl ⟨rfl, rfl⟩)
  refine ⟨h2, h4, ?_⟩
  unfold sender_at_burst
  rcases h5 with ⟨h6, h7⟩ | h6
  · left
    refine ⟨h6, h7, ?_⟩
    rw [h6, h7]
    decide
  · right
    rw [h6, safe_subtract_self]
    omega

/-! ## Lossless channel: chunk arithmetic -/

theorem lt_chunk_count (P N t : Nat) (hP : 0 < P) : t < chunk_count P N ↔ t * P < N := by
  unfold chunk_count
  rw [Nat.lt_iff_add_one_le, Nat.le_div_iff_mul_le hP, Nat.add_mul]
  omega

theorem chunk_length (P N : Nat) (content : List byte) (t : Nat) (hN : N ≤ content.length) :
    (chunk P N content t).length = min P (N - t * P) := by
  unfold chunk
  rw [List.length_take, List.length_drop]
  omega

theorem take_append_chunk (P N : Nat) (content : List byte) (t : Nat) (h : t * P < N) :
    content.take (t * P) ++ chunk P N content t = content.take (min ((t + 1) * P) N) := by
  unfold chunk
  rw [← List.take_add]
  congr 1
  rw [Nat.add_mul]
  omega

theorem fwrite_chunk (P N : Nat) (content : List byte) (t : Nat) (hP : 0 < P)
    (hN : N ≤ content.length) (h : t * P < N) :
    (fwrite { content := content.take (min (t * P) N), pos := t * P }
      (chunk P N content t)).content = content.take (min ((t + 1) * P) N) := by
  have hl := chunk_length P N content t hN
  have hne : chunk P N content t ≠ [] := by
    intro h0
    rw [h0] at hl
    simp at hl
    omega
  have hm : min (t * P) N = t * P := by omega
  unfold fwrite
  simp only [hne, if_false, hm]
  have h1 : (List.take (t * P) content).length = t * P := by
    rw [List.length_take]; omega
  rw [List.take_of_length_le (by omega), h1, List.drop_of_length_le (by omega)]
  simp only [Nat.sub_self, List.replicate_zero, List.append_nil]
  exact take_append_chunk P N content t h

/-! ## Lossless channel: the receiver -/

theorem slide_amount_zero : slide_amount 0 = 1 := by decide

theorem safe_add_one (t : Nat) : safe_add ((t : Int) % 256) 1 = ((t + 1 : Nat) : Int) % 256 := by
  unfold safe_add MAX_SEQ
  rw [tmod_256_nonneg (by omega)]
  push_cast
  omega

/-- The receiver with window 0 at chunk `t` takes the data packet of chunk
`t`: the chunk is written at the position and the window slides by one. -/
theorem recvr_save_data_in_order (hdr N : Nat) (content : List byte) (t : Nat)
    (tv : timeval) (r : recvr)
    (hP : 0 < max_file_chunk_size hdr) (hN : N ≤ content.length)
    (ht : t * max_file_chunk_size hdr < N)
    (h1 : r.next_seq_num = (t : Int) % 256) (h2 : r.window = 0)
    (h3 : r.fwriter.pos = t * max_file_chunk_size hdr)
    (h4 : r.fwriter.content = content.take (min (t * max_file_chunk_size hdr) N))
    (h5 : r.sender_header = { seq_num := (t : Int) % 256, timestamp := tv })
    (h6 : r.msg_recv.data = chunk (max_file_chunk_size hdr) N content t)
    (h7 : r.bytes_recv = (hdr : Int) + (chunk (max_file_chunk_size hdr) N content t).length) :
    (recvr_save_data hdr r).next_seq_num = ((t + 1 : Nat) : Int) % 256 ∧
      (recvr_save_data hdr r).window = 0 ∧
      (recvr_save_data hdr r).fwriter.pos = (t + 1) * max_file_chunk_size hdr ∧
      (recvr_save_data hdr r).fwriter.content
        = content.take (min ((t + 1) * max_file_chunk_size hdr) N) := by
  have e0 : safe_subtract r.sender_header.seq_num r.next_seq_num = 0 := by
    rw [h5, h1]; exact safe_subtract_self _
  have c1 : ¬ safe_subtract r.sender_header.seq_num r.next_seq_num ≥ MAX_WINDOW_SIZE := by
    rw [e0]; decide
  have c2 : ¬ is_written r (safe_subtract r.sender_header.seq_num r.next_seq_num) ≠ 0 := by
    rw [e0, is_written_eq r 0 (le_refl 0) (by decide), h2]; decide
  have c3 : r.sender_header.seq_num = r.next_seq_num := by rw [h5, h1]
  rw [recvr_save_data_base hdr r c1 c2 c3]
  simp only [h2, slide_amount_zero, h1, safe_add_one]
  refine ⟨trivial, by decide, ?_, ?_⟩
  · simp only [fwriter_set_position, fseek_cur, fwriter_offset_write, fseek_set, h3]
    rw [Nat.add_mul]; simp
  · simp only [fwriter_set_position, fseek_cur, fwriter_offset_write, fseek_set, h3, h6, h7]
    have e : ((hdr : Int) + ((chunk (max_file_chunk_size hdr) N content t).length : Int)
        - (hdr : Int)).toNat = (chunk (max_file_chunk_size hdr) N content t).length := by omega
    rw [e, List.take_length]
    have := fwrite_chunk (max_file_chunk_size hdr) N content t hP hN ht
    simp only [Nat.zero_mul, Nat.add_zero]
    rw [← h4] at this
    exact this

/-- The receiver with window 0 at chunk `t` takes the data packets of `m`
chunks in order: it stays in its loop, writes the chunks, replies to each
and is at chunk `t + m` with window 0. -/
theorem receive_lossless (hdr N : Nat) (clock : Nat → timeval) (content : List byte)
    (hP : 0 < max_file_chunk_size hdr) (hN : N ≤ content.length) (m : Nat) :
    ∀ (t tick : Nat) (r : recvr),
      t + m ≤ chunk_count (max_file_chunk_size hdr) N →
      r.next_seq_num = (t : Int) % 256 → r.window = 0 →
      r.fwriter.pos = t * max_file_chunk_size hdr →
      r.fwriter.content = content.take (min (t * max_file_chunk_size hdr) N) →
      (receive hdr r
          ((burst_packets clock (max_file_chunk_size hdr) N content m t tick).map some)).2 = false ∧
        (receive hdr r
          ((burst_packets clock (max_file_chunk_size hdr) N content m t tick).map some)).1.next_seq_num
          = ((t + m : Nat) : Int) % 256 ∧
        (receive hdr r
          ((burst_packets clock (max_file_chunk_size hdr) N content m t tick).map some)).1.window
          = 0 ∧
        (receive hdr r
          ((burst_packets clock (max_file_chunk_size hdr) N content m t tick).map some)).1.fwriter.pos
          = (t + m) * max_file_chunk_size hdr ∧
        (receive hdr r
          ((burst_packets clock (max_file_chunk_size hdr) N content m t
            tick).map some)).1.fwriter.content
          = content.take (min ((t + m) * max_file_chunk_size hdr) N) ∧
        (receive hdr r
          ((burst_packets clock (max_file_chunk_size hdr) N content m t tick).map some)).1.sent
          = r.sent ++ burst_acks clock m t tick := by
  induction m with
  | zero =>
    intro t tick r _ h1 h2 h3 h4
    simp [burst_packets, burst_acks, receive, h1, h2, h3, h4]
  | succ m ih =>
    intro t tick r hK h1 h2 h3 h4
    have ht : t * max_file_chunk_size hdr < N :=
      (lt_chunk_count _ N t hP).1 (by omega)
    set p : datagram :=
      { header := { seq_num := (t : Int) % 256, timestamp := clock tick }
        data := chunk (max_file_chunk_size hdr) N content t } with hp
    have hs := recvr_save_data_in_order hdr N content t (clock tick)
      (parse_header (udp_recv hdr r (some p))) hP hN ht h1 h2 h3 h4 rfl rfl rfl
    have hf := recvr_save_data_frame hdr (parse_header (udp_recv hdr r (some p)))
    set r2 := recvr_save_data hdr (parse_header (udp_recv hdr r (some p))) with hr2
    have hstep : receive hdr r
        ((burst_packets clock (max_file_chunk_size hdr) N content (m + 1) t tick).map some)
        = receive hdr (recvr_respond r2)
          ((burst_packets clock (max_file_chunk_size hdr) N content m (t + 1) (tick + 1)).map
            some) := by
      have hto : is_timed_out (udp_recv hdr r (some p)) = false := by
        simp only [is_timed_out, udp_recv, decide_eq_false_iff_not]
        omega
      have heof : is_eof (parse_header (udp_recv hdr r (some p))) = false := by
        simp only [is_eof, parse_header, udp_recv, EOF_SEQ_NUM, decide_eq_false_iff_not, hp]
        omega
      simp only [burst_packets, List.map_cons]
      rw [receive]
      simp only [recvr_listen, hto, heof, TIMED_OUT, TRANSFER_COMPLETE, TRANSFER_IN_PROGRESS]
      simp [← hp, ← hr2]
    rw [hstep]
    have hi := ih (t + 1) (tick + 1) (recvr_respond r2) (by omega)
      (by simp only [recvr_respond]; split_ifs <;> exact hs.1)
      (by simp only [recvr_respond]; split_ifs <;> exact hs.2.1)
      (by simp only [recvr_respond]; split_ifs <;> exact hs.2.2.1)
      (by simp only [recvr_respond]; split_ifs <;> exact hs.2.2.2)
    have e : t + 1 + m = t + (m + 1) := by omega
    rw [e] at hi
    refine ⟨hi.1, hi.2.1, hi.2.2.1, hi.2.2.2.1, hi.2.2.2.2.1, ?_⟩
    rw [hi.2.2.2.2.2]
    have hsent : (recvr_respond r2).sent = r.sent ++
        [{ next_seq_num := ((t + 1 : Nat) : Int) % 256, timestamp := clock tick, window := 0 }] := by
      have hm : r2.msg_recv = p := hf.1
      have hsn : r2.sent = r.sent := hf.2.2.2.1
      simp only [recvr_respond]
      split_ifs <;> simp [hs.1, hs.2.1, hm, hsn, hp]
    rw [hsent, burst_acks]
    simp

/-! ## Lossless channel: the transmit phase -/

theorem send_chunk_ctl (hdr : Nat) (clock : Nat → timeval) (s : sender) (seq_num : Int) :
    sender_ctl (send_chunk hdr clock s seq_num).1 = sender_ctl s := by
  simp [sender_ctl, send_chunk, sender_packet_header_load, gettimeofday, file_read]

theorem sender_send_data_loop_ctl (hdr : Nat) (clock : Nat → timeval) (n : Nat) (i : Int)
    (s : sender) (seq_num packets_sent : Int) :
    sender_ctl (sender_send_data_loop hdr clock n i s seq_num packets_sent).1 = sender_ctl s := by
  induction n generalizing i s seq_num packets_sent with
  | zero => simp [sender_send_data_loop]
  | succ n ih =>
    unfold sender_send_data_loop
    split_ifs
    · rfl
    · rw [ih]; rfl
    · rw [ih]; exact send_chunk_ctl hdr clock s seq_num

theorem safe_increment_mod (t : Nat) :
    safe_increment ((t : Int) % 256) = ((t + 1 : Nat) : Int) % 256 := by
  unfold safe_increment MAX_SEQ
  rw [tmod_256_nonneg (by omega)]
  push_cast
  omega

theorem is_transferred_zero (i : Int) : is_transferred 0 i = 0 := by
  simp [is_transferred, shr_ull64]

/-- The sender at chunk `t` sends it: the packet carries the bytes of the
chunk and the position of the file moves by the bytes read. -/
theorem send_chunk_lossless (hdr N : Nat) (clock : Nat → timeval) (content : List byte)
    (t : Nat) (s : sender) (seq_num : Int) (hN : N ≤ content.length)
    (ht : t * max_file_chunk_size hdr < N)
    (h1 : s.file.content = content) (h2 : s.transfer_size = N)
    (h3 : s.file.pos = t * max_file_chunk_size hdr) :
    (send_chunk hdr clock s seq_num).1.sent = s.sent ++
        [{ header := { seq_num := seq_num, timestamp := clock s.ticks }
           data := chunk (max_file_chunk_size hdr) N content t }] ∧
      (send_chunk hdr clock s seq_num).1.ticks = s.ticks + 1 ∧
      (send_chunk hdr clock s seq_num).1.file.pos = t * max_file_chunk_size hdr +
        min (max_file_chunk_size hdr) (content.length - t * max_file_chunk_size hdr) := by
  simp only [send_chunk, sender_packet_header_load, gettimeofday, file_read, get_bytes_left,
    file_get_position, h1, h2, h3, List.length_take, List.length_drop]
  refine ⟨?_, trivial, trivial⟩
  congr 2
  unfold chunk
  generalize t * max_file_chunk_size hdr = q at *
  generalize max_file_chunk_size hdr = P at *
  have hlt : ¬ q > N := by omega
  simp only [hlt, if_false]
  split_ifs with h
  · rw [List.take_append_of_le_length (by rw [List.length_take, List.length_drop]; omega),
      List.take_take]
    have e : min (N - q) P = min P (N - q) := by omega
    rw [e]
  · rw [List.take_left' (by rw [List.length_take, List.length_drop])]
    have e : min P (N - q) = P := by omega
    rw [e]

/-- The loop of `sender_send_data` from chunk `t` with nothing marked as
transferred: it sends the chunks that follow, as many as iterations are
left and chunks remain. -/
theorem sender_send_data_loop_lossless (hdr N : Nat) (clock : Nat → timeval)
    (content : List byte) (hP : 0 < max_file_chunk_size hdr) (hN : N ≤ content.length)
    (n : Nat) :
    ∀ (t : Nat) (i : Int) (s : sender) (ps : Int),
      s.file.content = content → s.transfer_size = N → s.recvr_window = 0 →
      (s.file.pos = t * max_file_chunk_size hdr ∨
        (chunk_count (max_file_chunk_size hdr) N ≤ t ∧ N ≤ s.file.pos)) →
      (sender_send_data_loop hdr clock n i s ((t : Int) % 256) ps).1.sent = s.sent ++
          burst_packets clock (max_file_chunk_size hdr) N content
            (min n (chunk_count (max_file_chunk_size hdr) N - t)) t s.ticks ∧
        (sender_send_data_loop hdr clock n i s ((t : Int) % 256) ps).2.2
          = ps + (min n (chunk_count (max_file_chunk_size hdr) N - t) : Nat) := by
  induction n with
  | zero =>
    intro t i s ps _ _ _ _
    simp [sender_send_data_loop, burst_packets]
  | succ n ih =>
    intro t i s ps h1 h2 h3 h4
    have hK := lt_chunk_count (max_file_chunk_size hdr) N t hP
    have hK1 := lt_chunk_count (max_file_chunk_size hdr) N (t + 1) hP
    unfold sender_send_data_loop
    by_cases hb : get_bytes_left s = 0
    · have hge : chunk_count (max_file_chunk_size hdr) N ≤ t := by
        simp only [get_bytes_left, file_get_position, h2] at hb
        rcases h4 with h4 | h4
        · rw [h4] at hb
          have : ¬ t * max_file_chunk_size hdr < N := by
            split_ifs at hb <;> omega
          have := mt hK.1 this
          omega
        · exact h4.1
      have hm : min (n + 1) (chunk_count (max_file_chunk_size hdr) N - t) = 0 := by omega
      simp [hb, hm, burst_packets]
    · have hpos : s.file.pos < N := by
        simp only [get_bytes_left, file_get_position, h2] at hb
        split_ifs at hb <;> omega
      have h4' : s.file.pos = t * max_file_chunk_size hdr := by
        rcases h4 with h4 | h4
        · exact h4
        · omega
      have ht : t * max_file_chunk_size hdr < N := by rw [← h4']; exact hpos
      have htK : t < chunk_count (max_file_chunk_size hdr) N := hK.2 ht
      have hc := send_chunk_lossless hdr N clock content t s ((t : Int) % 256) hN ht h1 h2 h4'
      have hctl := send_chunk_ctl hdr clock s ((t : Int) % 256)
      simp only [sender_ctl, Prod.mk.injEq] at hctl
      obtain ⟨c1, -, -, -, c5, -, -, c8⟩ := hctl
      have hi := ih (t + 1) (i + 1) (send_chunk hdr clock s ((t : Int) % 256)).1 (ps + 1)
        (by rw [c8, h1]) (by rw [c1, h2]) (by rw [c5, h3])
        (by
          rw [hc.2.2]
          by_cases hle : (t + 1) * max_file_chunk_size hdr ≤ N
          · left
            rw [Nat.add_mul] at hle ⊢
            omega
          · right
            constructor
            · by_contra hlt
              have := hK1.1 (by omega)
              omega
            · rw [Nat.add_mul] at hle
              omega)
      rw [if_neg hb, is_transferred, h3]
      have hz : shr_ull64 0 i &&& 1 = 0 := is_transferred_zero i
      rw [hz]
      simp only [ne_eq, not_true_eq_false, if_false, safe_increment_mod]
      rw [hi.1, hi.2, hc.1, hc.2.1]
      have hm : min (n + 1) (chunk_count (max_file_chunk_size hdr) N - t)
          = min n (chunk_count (max_file_chunk_size hdr) N - (t + 1)) + 1 := by omega
      rw [hm, burst_packets]
      constructor
      · simp
      · push_cast
        ring

/-! ## Lossless channel: the acknowledgement phase -/

theorem sender_recv_acks_loop_new (hdr : Nat) (clock : Nat → timeval) (n : Nat) (s : sender)
    (l : recv_acks_locals) (a : recvr_packet_header)
    (rest : List (Option recvr_packet_header)) (h : ¬ s.last_ack = a.next_seq_num) :
    sender_recv_acks_loop hdr clock (n + 1) s l (some a :: rest) =
      sender_recv_acks_loop hdr clock n
        (update_rtt clock (update_last_ack { s with msg_recv := a, bytes_recv := 32 } a) a)
        { l with packets_recv := l.packets_recv + 1, dup_count := 0 } rest := by
  rw [sender_recv_acks_loop]
  simp [sender_udp_recv, h]

/-- The loop of `sender_recv_acks` on the replies to `n` chunks received in
order from chunk `t`: every reply is new, nothing is retransmitted and no
flag is raised. -/
theorem sender_recv_acks_loop_lossless (hdr : Nat) (clock : Nat → timeval) (n : Nat) :
    ∀ (t tick : Nat) (s : sender) (l : recv_acks_locals),
      (s.last_ack = -1 ∨ s.last_ack = (t : Int) % 256) → s.recvr_window = 0 →
      (sender_recv_acks_loop hdr clock n s l ((burst_acks clock n t tick).map some)).2.2 = [] ∧
        (sender_recv_acks_loop hdr clock n s l
          ((burst_acks clock n t tick).map some)).2.1.should_slow_start = l.should_slow_start ∧
        (sender_recv_acks_loop hdr clock n s l
          ((burst_acks clock n t tick).map some)).2.1.should_recover_fast
          = l.should_recover_fast ∧
        sender_ack_frame (sender_recv_acks_loop hdr clock n s l
          ((burst_acks clock n t tick).map some)).1 = sender_ack_frame s ∧
        (sender_recv_acks_loop hdr clock n s l
          ((burst_acks clock n t tick).map some)).1.recvr_window = 0 ∧
        (0 < n → (sender_recv_acks_loop hdr clock n s l
          ((burst_acks clock n t tick).map some)).1.last_ack = ((t + n : Nat) : Int) % 256) := by
  induction n with
  | zero =>
    intro t tick s l _ h2
    simp [sender_recv_acks_loop, burst_acks, h2]
  | succ n ih =>
    intro t tick s l h1 h2
    have hne : ¬ s.last_ack = ((t + 1 : Nat) : Int) % 256 := by
      push_cast
      rcases h1 with h1 | h1 <;> omega
    simp only [burst_acks, List.map_cons]
    rw [sender_recv_acks_loop_new hdr clock n s l _ _ hne]
    set s2 := update_rtt clock (update_last_ack
      { s with
        msg_recv := { next_seq_num := ((t + 1 : Nat) : Int) % 256, timestamp := clock tick,
                      window := 0 }
        bytes_recv := 32 }
      { next_seq_num := ((t + 1 : Nat) : Int) % 256, timestamp := clock tick, window := 0 })
      { next_seq_num := ((t + 1 : Nat) : Int) % 256, timestamp := clock tick, window := 0 }
      with hs2
    have g1 : s2.last_ack = ((t + 1 : Nat) : Int) % 256 := rfl
    have g2 : s2.recvr_window = 0 := rfl
    have g3 : sender_ack_frame s2 = sender_ack_frame s := rfl
    have hi := ih (t + 1) (tick + 1) s2
      { packets_recv := l.packets_recv + 1, should_slow_start := l.should_slow_start,
        should_recover_fast := l.should_recover_fast, dup_count := 0 } (Or.inr g1) g2
    obtain ⟨i1, i2, i3, i4, i5, i6⟩ := hi
    refine ⟨i1, i2, i3, by rw [i4, g3], i5, ?_⟩
    intro _
    rcases Nat.eq_zero_or_pos n with h0 | h0
    · subst h0
      simp only [sender_recv_acks_loop, burst_acks, List.map_nil]
      exact g1
    · rw [i6 h0]
      congr 2
      omega

/-! ## Lossless channel: one burst -/

theorem sender_send_data_lossless (hdr N : Nat) (clock : Nat → timeval) (content : List byte)
    (hP : 0 < max_file_chunk_size hdr) (hN : N ≤ content.length) (c : Nat) (s : sender)
    (h1 : s.file.content = content) (h2 : s.transfer_size = N) (h3 : s.recvr_window = 0)
    (h4 : s.file.pos = c * max_file_chunk_size hdr) (h5 : s.start_seq_num = (c : Int) % 256) :
    (sender_send_data hdr clock s).sent = s.sent ++
        burst_packets clock (max_file_chunk_size hdr) N content
          (min s.window_size.toNat (chunk_count (max_file_chunk_size hdr) N - c)) c s.ticks ∧
      (sender_send_data hdr clock s).packets_sent
        = (min s.window_size.toNat (chunk_count (max_file_chunk_size hdr) N - c) : Nat) ∧
      sender_ctl (sender_send_data hdr clock s) = sender_ctl s := by
  have hl := sender_send_data_loop_lossless hdr N clock content hP hN s.window_size.toNat c 0 s 0
    h1 h2 h3 (Or.inl h4)
  have hc := sender_send_data_loop_ctl hdr clock s.window_size.toNat 0 s ((c : Int) % 256) 0
  unfold sender_send_data
  simp only [h5]
  refine ⟨hl.1, ?_, hc⟩
  rw [hl.2]
  simp

theorem sender_recv_acks_lossless (hdr : Nat) (clock : Nat → timeval) (m c tick : Nat)
    (s : sender) (hps : s.packets_sent = (m : Int))
    (hla : s.last_ack = -1 ∨ s.last_ack = (c : Int) % 256) (hw : s.recvr_window = 0)
    (hm : 0 < m) (hcc : cc_bounds s) :
    (sender_recv_acks hdr clock s ((burst_acks clock m c tick).map some)).2 = [] ∧
      (sender_recv_acks hdr clock s ((burst_acks clock m c tick).map some)).1.file = s.file ∧
      (sender_recv_acks hdr clock s ((burst_acks clock m c tick).map some)).1.transfer_size
        = s.transfer_size ∧
      (sender_recv_acks hdr clock s ((burst_acks clock m c tick).map some)).1.start_seq_num
        = s.start_seq_num ∧
      (sender_recv_acks hdr clock s ((burst_acks clock m c tick).map some)).1.start_file_pos
        = s.start_file_pos ∧
      (sender_recv_acks hdr clock s ((burst_acks clock m c tick).map some)).1.sent = s.sent ∧
      (sender_recv_acks hdr clock s ((burst_acks clock m c tick).map some)).1.recvr_window = 0 ∧
      (sender_recv_acks hdr clock s ((burst_acks clock m c tick).map some)).1.last_ack
        = ((c + m : Nat) : Int) % 256 ∧
      cc_bounds (sender_recv_acks hdr clock s ((burst_acks clock m c tick).map some)).1 := by
  have hb := sender_recv_acks_bounds hdr clock s ((burst_acks clock m c tick).map some) hcc
  refine ⟨?_, ?_, ?_, ?_, ?_, ?_, ?_, ?_, hb⟩ <;>
  · have hl := sender_recv_acks_loop_lossless hdr clock m c tick s
      { packets_recv := 0, should_slow_start := 0, should_recover_fast := 0, dup_count := 0 }
      hla hw
    obtain ⟨l1, l2, l3, l4, l5, l6⟩ := hl
    have l6 := l6 hm
    simp only [sender_ack_frame, Prod.mk.injEq] at l4
    obtain ⟨f1, f2, f3, f4, f5, f6, f7⟩ := l4
    unfold sender_recv_acks
    simp only [hps, Int.toNat_ofNat, l2, l3, ne_eq, not_true_eq_false, if_false, cc_incr]
    first
      | exact l1 | exact f1 | exact f2 | exact f3 | exact f4 | exact f7 | exact l5 | exact l6

theorem sender_recv_acks_lossless_window (hdr : Nat) (clock : Nat → timeval) (m c tick : Nat)
    (s : sender) (hps : s.packets_sent = (m : Int))
    (hla : s.last_ack = -1 ∨ s.last_ack = (c : Int) % 256) (hw : s.recvr_window = 0) :
    (sender_recv_acks hdr clock s ((burst_acks clock m c tick).map some)).1.window_size
      = (cc_incr s).window_size := by
  obtain ⟨-, l2, l3, -, -, -⟩ := sender_recv_acks_loop_lossless hdr clock m c tick s
    { packets_recv := 0, should_slow_start := 0, should_recover_fast := 0, dup_count := 0 }
    hla hw
  have hc := sender_recv_acks_loop_cc hdr clock m s
    { packets_recv := 0, should_slow_start := 0, should_recover_fast := 0, dup_count := 0 }
    ((burst_acks clock m c tick).map some)
  unfold sender_recv_acks
  simp only [hps, Int.toNat_ofNat, l2, l3, ne_eq, not_true_eq_false, if_false, cc_incr, hc.1,
    hc.2]

theorem safe_subtract_advance (c m : Nat) (hm : m ≤ 64) :
    safe_subtract (((c + m : Nat) : Int) % 256) ((c : Int) % 256) = m := by
  rw [safe_subtract_eq_emod]
  push_cast
  omega

theorem sender_reset_lossless (hdr : Nat) (s : sender) (c m : Nat) (hm : m ≤ 64)
    (h1 : s.last_ack = ((c + m : Nat) : Int) % 256) (h2 : s.start_seq_num = (c : Int) % 256)
    (h3 : s.start_file_pos = c * max_file_chunk_size hdr) :
    (sender_reset hdr (sender_set_timeout s)).file.content = s.file.content ∧
      (sender_reset hdr (sender_set_timeout s)).file.pos = (c + m) * max_file_chunk_size hdr ∧
      (sender_reset hdr (sender_set_timeout s)).start_file_pos
        = (c + m) * max_file_chunk_size hdr ∧
      (sender_reset hdr (sender_set_timeout s)).start_seq_num = ((c + m : Nat) : Int) % 256 ∧
      (sender_reset hdr (sender_set_timeout s)).last_ack = s.last_ack ∧
      (sender_reset hdr (sender_set_timeout s)).transfer_size = s.transfer_size ∧
      (sender_reset hdr (sender_set_timeout s)).recvr_window = s.recvr_window ∧
      (sender_reset hdr (sender_set_timeout s)).sent = s.sent ∧
      (sender_reset hdr (sender_set_timeout s)).window_size = s.window_size ∧
      (sender_reset hdr (sender_set_timeout s)).optimal_window_size = s.optimal_window_size := by
  have hdiff := safe_subtract_advance c m hm
  have hne : ¬ (((c + m : Nat) : Int) % 256 = -1) := by omega
  simp only [sender_reset, sender_set_timeout, file_moveto, file_get_position, h1, h2, h3, hne,
    if_false, hdiff, Int.toNat_ofNat, Nat.add_mul, and_self]

/-- One burst over the lossless channel from chunk `c`: the sender sends
the packets of the next chunks, as many as `window_size` allows and chunks
remain, and both sides are then at the chunk after them. -/
theorem lossless_burst_exact (hdr N : Nat) (clock : Nat → timeval) (content : List byte)
    (hP : 0 < max_file_chunk_size hdr) (hN : N ≤ content.length) (c : Nat) (st : lossless)
    (h : lossless_inv hdr N content c st)
    (hc : c < chunk_count (max_file_chunk_size hdr) N) :
    lossless_inv hdr N content
        (c + min st.s.window_size.toNat (chunk_count (max_file_chunk_size hdr) N - c))
        (lossless_burst hdr clock st) ∧
      (sender_send_data hdr clock st.s).sent =
        burst_packets clock (max_file_chunk_size hdr) N content
          (min st.s.window_size.toNat (chunk_count (max_file_chunk_size hdr) N - c)) c
          st.s.ticks ∧
      0 < min st.s.window_size.toNat (chunk_count (max_file_chunk_size hdr) N - c) ∧
      c + min st.s.window_size.toNat (chunk_count (max_file_chunk_size hdr) N - c)
        ≤ chunk_count (max_file_chunk_size hdr) N ∧
      (lossless_burst hdr clock st).s.window_size = (cc_incr st.s).window_size := by
  obtain ⟨hcc1, hcc2, hcc3, hcc4⟩ := h.s_cc
  unfold MAX_WINDOW_SIZE at hcc2
  set m := min st.s.window_size.toNat (chunk_count (max_file_chunk_size hdr) N - c) with hm
  have hm1 : 0 < m := by omega
  have hm2 : m ≤ 64 := by omega
  have hmK : c + m ≤ chunk_count (max_file_chunk_size hdr) N := by omega
  -- the transmit phase
  obtain ⟨a1, a2, a3⟩ := sender_send_data_lossless hdr N clock content hP hN c st.s
    h.s_content h.s_size h.s_window h.s_pos h.s_start_seq
  rw [← hm, h.s_sent, List.nil_append] at a1
  rw [← hm] at a2
  simp only [sender_ctl, Prod.mk.injEq] at a3
  obtain ⟨b1, b2, b3, b4, b5, b6, b7, b8⟩ := a3
  set s1 := sender_send_data hdr clock st.s with hs1
  -- the receiver
  have hr := receive_lossless hdr N clock content hP hN m c st.s.ticks st.r hmK
    h.r_next h.r_window h.r_pos h.r_content
  rw [h.r_sent, List.nil_append, ← a1] at hr
  obtain ⟨r1, r2, r3, r4, r5, r6⟩ := hr
  have hd : lossless_deliver hdr s1 st.r st.r_done = receive hdr st.r (s1.sent.map some) := by
    simp [lossless_deliver, h.r_done]
  -- the acknowledgement phase
  have hcc : cc_bounds { s1 with sent := [] } := by
    unfold cc_bounds
    simp only [b6, b7]
    exact h.s_cc
  obtain ⟨e1, e2, e3, e4, e5, e6, e7, e8, e9⟩ := sender_recv_acks_lossless hdr clock m c
    st.s.ticks { s1 with sent := [] } a2 (by simp only [b4]; exact h.s_last_ack)
    (by simp only [b5]; exact h.s_window) hm1 hcc
  have hws := sender_recv_acks_lossless_window hdr clock m c st.s.ticks { s1 with sent := [] } a2
    (by simp only [b4]; exact h.s_last_ack) (by simp only [b5]; exact h.s_window)
  have hws2 : (cc_incr { s1 with sent := [] }).window_size = (cc_incr st.s).window_size := by
    simp only [cc_incr, b6, b7]
  rw [hws2] at hws
  rw [← r6] at e1 e2 e3 e4 e5 e6 e7 e8 e9 hws
  set s3 := (sender_recv_acks hdr clock { s1 with sent := [] }
    ((receive hdr st.r (s1.sent.map some)).1.sent.map some)) with hs3
  obtain ⟨q1, q2, q3, q4, q5, q6, q7, q8, q9, q10⟩ := sender_reset_lossless hdr s3.1 c m hm2 e8
    (by rw [e4]; simp only [b2]; exact h.s_start_seq)
    (by rw [e5]; simp only [b3]; exact h.s_start_pos)
  have hburst : lossless_burst hdr clock st =
      { s := sender_reset hdr (sender_set_timeout s3.1)
        r := { (receive hdr st.r (s1.sent.map some)).1 with sent := s3.2.filterMap id }
        r_done := (receive hdr st.r (s1.sent.map some)).2 } := by
    unfold lossless_burst
    simp only [← hs1, hd, ← hs3]
  refine ⟨?_, a1, hm1, hmK, ?_⟩
  rotate_left
  · rw [hburst]
    show (sender_reset hdr (sender_set_timeout s3.1)).window_size = _
    rw [q9]
    exact hws
  rw [hburst]
  constructor
  · simp only [q1, e2, b8, h.s_content]
  · exact q2
  · simp only [q6, e3, b1, h.s_size]
  · exact q3
  · exact q4
  · right
    simp only [q5, e8]
  · simp only [q7, e7]
  · unfold cc_bounds
    simp only [q9, q10]
    exact e9
  · simp only [q8, e6]
  · exact r2
  · exact r3
  · exact r4
  · exact r5
  · simp only [e1, List.filterMap_nil]
  · exact r1

/-- One burst over the lossless channel delivers the next chunks: at least
one and at most `window_size` of them. -/
theorem lossless_burst_inv (hdr N : Nat) (clock : Nat → timeval) (content : List byte)
    (hP : 0 < max_file_chunk_size hdr) (hN : N ≤ content.length) (c : Nat) (st : lossless)
    (h : lossless_inv hdr N content c st)
    (hc : c < chunk_count (max_file_chunk_size hdr) N) :
    ∃ c2, c < c2 ∧ c2 ≤ chunk_count (max_file_chunk_size hdr) N ∧
      lossless_inv hdr N content c2 (lossless_burst hdr clock st) := by
  obtain ⟨h1, -, h3, h4, -⟩ := lossless_burst_exact hdr N clock content hP hN c st h hc
  exact ⟨_, by omega, h4, h1⟩

/-! ## Lossless channel: the whole transfer -/

theorem sender_is_complete_iff (hdr N : Nat) (content : List byte) (c : Nat) (st : lossless)
    (hP : 0 < max_file_chunk_size hdr) (h : lossless_inv hdr N content c st) :
    sender_is_complete st.s = true ↔ ¬ c < chunk_count (max_file_chunk_size hdr) N := by
  rw [lt_chunk_count _ N c hP]
  simp only [sender_is_complete, h.s_start_pos, h.s_size, decide_eq_true_eq]
  omega

theorem lossless_loop_ends (hdr N : Nat) (clock : Nat → timeval) (content : List byte)
    (hP : 0 < max_file_chunk_size hdr) (hN : N ≤ content.length) (fuel : Nat) :
    ∀ (c : Nat) (st : lossless), lossless_inv hdr N content c st →
      c ≤ chunk_count (max_file_chunk_size hdr) N →
      chunk_count (max_file_chunk_size hdr) N - c ≤ fuel →
      ∃ st2, lossless_loop hdr clock fuel st = some st2 ∧
        lossless_inv hdr N content (chunk_count (max_file_chunk_size hdr) N) st2 := by
  induction fuel with
  | zero =>
    intro c st h hc hf
    have hcK : c = chunk_count (max_file_chunk_size hdr) N := by omega
    have hdone := (sender_is_complete_iff hdr N content c st hP h).2 (by omega)
    refine ⟨st, ?_, hcK ▸ h⟩
    simp [lossless_loop, hdone]
  | succ fuel ih =>
    intro c st h hc hf
    by_cases hlt : c < chunk_count (max_file_chunk_size hdr) N
    · have hnd : ¬ sender_is_complete st.s = true := by
        rw [sender_is_complete_iff hdr N content c st hP h]
        exact fun hn => hn hlt
      obtain ⟨c2, h1, h2, h3⟩ := lossless_burst_inv hdr N clock content hP hN c st h hlt
      obtain ⟨st2, h4, h5⟩ := ih c2 (lossless_burst hdr clock st) h3 h2 (by omega)
      refine ⟨st2, ?_, h5⟩
      rw [lossless_loop, if_neg hnd]
      exact h4
    · have hcK : c = chunk_count (max_file_chunk_size hdr) N := by omega
      have hdone := (sender_is_complete_iff hdr N content c st hP h).2 hlt
      refine ⟨st, ?_, hcK ▸ h⟩
      simp [lossless_loop, hdone]

theorem lossless_inv_initial (hdr N : Nat) (content : List byte) (buf : List byte)
    (ack0 : recvr_packet_header) (tv0 : timeval) (rbuf : datagram) (h0 : sender_packet_header) :
    lossless_inv hdr N content 0
      { s := sender_set_timeout (sender_create (file_create content) N buf ack0 tv0)
        r := recvr_create rbuf h0
        r_done := false } := by
  constructor <;>
    simp [sender_set_timeout, sender_create, file_create, file_get_position, recvr_create,
      fwriter_create, cc_bounds, MAX_WINDOW_SIZE]

theorem chunk_count_le (P N : Nat) (hP : 0 < P) : chunk_count P N ≤ N := by
  by_contra h
  have h1 := (lt_chunk_count P N N hP).1 (by omega)
  have h2 : N * 1 ≤ N * P := Nat.mul_le_mul_left N hP
  omega

/-- Over the lossless channel, with fuel for as many bursts as the transfer
has chunks, `transfer` and `receive` both end and the output file holds the
first `N` bytes of the source. -/
theorem lossless_transfer_ends (hdr N : Nat) (clock : Nat → timeval) (content : List byte)
    (buf : List byte) (ack0 : recvr_packet_header) (tv0 : timeval) (rbuf : datagram)
    (h0 : sender_packet_header) (fuel : Nat)
    (hP : 0 < max_file_chunk_size hdr) (hN : N ≤ content.length)
    (hfuel : chunk_count (max_file_chunk_size hdr) N ≤ fuel) :
    ∃ st, lossless_transfer hdr clock fuel
          (sender_create (file_create content) N buf ack0 tv0) (recvr_create rbuf h0) = some st ∧
      st.r_done = true ∧
      st.r.fwriter.content = content.take N ∧
      st.r.fwriter.content.length = N := by
  obtain ⟨st2, h1, h2⟩ := lossless_loop_ends hdr N clock content hP hN fuel 0 _
    (lossless_inv_initial hdr N content buf ack0 tv0 rbuf h0) (Nat.zero_le _) (by omega)
  have hfull : ¬ chunk_count (max_file_chunk_size hdr) N * max_file_chunk_size hdr < N :=
    fun hlt => Nat.lt_irrefl _ ((lt_chunk_count _ N _ hP).2 hlt)
  have hrecv : lossless_deliver hdr (sender_send_eof clock st2.s) st2.r st2.r_done =
      ({ st2.r with
          msg_recv := { header := { seq_num := EOF_SEQ_NUM, timestamp := clock st2.s.ticks },
                        data := [] }
          bytes_recv := (hdr : Int) + (0 : Nat)
          sender_header := { seq_num := EOF_SEQ_NUM, timestamp := clock st2.s.ticks } }, true) := by
    simp [lossless_deliver, h2.r_done, sender_send_eof, sender_packet_header_load, gettimeofday,
      h2.s_sent, receive, recvr_listen, udp_recv, is_timed_out, parse_header, is_eof,
      TIMED_OUT, TRANSFER_COMPLETE]
  refine ⟨_, by rw [lossless_transfer, h1], ?_, ?_, ?_⟩
  · simp only [hrecv]
  · simp only [hrecv, h2.r_content]
    congr 1
    omega
  · simp only [hrecv, h2.r_content, List.length_take]
    omega

/-! ## Sender: the three congestion transitions -/

/-- C11, as the claim states it, fails at the initial sender: `window_size`
is 1, so half of it with a floor of 1 is 1, and `cc_slow_start` leaves
`optimal_window_size` at 32, half of the 64 it was. -/
theorem slow_start_not_from_window :
    sender_initial.window_size = 1 ∧
      sender_initial.optimal_window_size = 64 ∧
      (cc_slow_start sender_initial).optimal_window_size = 32 ∧
      ¬ ((cc_slow_start sender_initial).optimal_window_size
          = max 1 (sender_initial.window_size.tdiv 2)) := by
  decide

/-- C11, amended. For every sender with `optimal_window_size = o ≥ 0`,
`cc_slow_start` sets `window_size` to 1 and `optimal_window_size` to
`max 1 (o / 2)`, the division being that of C. -/
theorem slow_start_transition (s : sender) (h : 0 ≤ s.optimal_window_size) :
    (cc_slow_start s).window_size = 1 ∧
      (cc_slow_start s).optimal_window_size = max 1 (s.optimal_window_size.tdiv 2) := by
  have e := Int.tdiv_eq_ediv h (show (0 : Int) ≤ 2 by decide)
  unfold cc_slow_start
  simp only [e, true_and]
  split_ifs <;> omega

theorem slow_start_transition_witness :
    0 ≤ sender_initial.optimal_window_size ∧
      (cc_slow_start sender_initial).window_size = 1 ∧
      (cc_slow_start sender_initial).optimal_window_size
        = max 1 (sender_initial.optimal_window_size.tdiv 2) :=
  ⟨by decide, slow_start_transition sender_initial (by decide)⟩

/-- C13. For every sender with `window_size = w ≥ 0`, `cc_fast_recovery`
sets both `window_size` and `optimal_window_size` to `max 1 (w / 2)`, the
division being that of C. -/
theorem fast_recovery_transition (s : sender) (h : 0 ≤ s.window_size) :
    (cc_fast_recovery s).window_size = max 1 (s.window_size.tdiv 2) ∧
      (cc_fast_recovery s).optimal_window_size = max 1 (s.window_size.tdiv 2) := by
  have e := Int.tdiv_eq_ediv h (show (0 : Int) ≤ 2 by decide)
  unfold cc_fast_recovery
  simp only [e]
  split_ifs <;> constructor <;> omega

theorem fast_recovery_transition_witness :
    0 ≤ sender_initial.window_size ∧
      (cc_fast_recovery sender_initial).window_size
        = max 1 (sender_initial.window_size.tdiv 2) ∧
      (cc_fast_recovery sender_initial).optimal_window_size
        = max 1 (sender_initial.window_size.tdiv 2) :=
  ⟨by decide, fast_recovery_transition sender_initial (by decide)⟩

/-- C14. For every sender with `1 ≤ window_size ≤ 64`, `cc_incr` sets
`window_size` to `min 64 (window_size + 1)` when
`window_size ≥ optimal_window_size` and to `min 64 (2 * window_size)`
otherwise, leaves `optimal_window_size` as it was, makes `window_size`
strictly greater when it was below 64 and leaves it at 64 when it was 64. -/
theorem increase_transition (s : sender) (h1 : 1 ≤ s.window_size) (h2 : s.window_size ≤ 64) :
    (cc_incr s).window_size =
        (if s.window_size ≥ s.optimal_window_size then min 64 (s.window_size + 1)
         else min 64 (2 * s.window_size)) ∧
      (cc_incr s).optimal_window_size = s.optimal_window_size ∧
      (s.window_size < 64 → s.window_size < (cc_incr s).window_size) ∧
      (s.window_size = 64 → (cc_incr s).window_size = 64) := by
  unfold cc_incr MAX_WINDOW_SIZE
  simp only
  refine ⟨?_, trivial, ?_, ?_⟩
  · split_ifs <;> omega
  · intro _; split_ifs <;> omega
  · intro _; split_ifs <;> omega

theorem increase_transition_witness :
    1 ≤ sender_initial.window_size ∧ sender_initial.window_size ≤ 64 ∧
      (cc_incr sender_initial).window_size = 2 ∧
      (cc_incr sender_initial).optimal_window_size = sender_initial.optimal_window_size :=
  ⟨by decide, by decide,
    (increase_transition sender_initial (by decide) (by decide)).1.trans (by decide),
    (increase_transition sender_initial (by decide) (by decide)).2.1⟩

/-! ## Sequence arithmetic -/

/-- C16. For all `a` and `b`, those of 16 bits among them,
`safe_subtract a b` is at least 0 and below 256, is congruent to `a - b`
modulo 256, equals `((a - b) % 256 + 256) % 256` with the `%` of C and with
the mathematical one, and is the only such value. -/
theorem modular_distance (a b : Int) :
    0 ≤ safe_subtract a b ∧ safe_subtract a b < 256 ∧
      (safe_subtract a b - (a - b)) % 256 = 0 ∧
      safe_subtract a b = ((a - b).tmod 256 + 256).tmod 256 ∧
      safe_subtract a b = ((a - b) % 256 + 256) % 256 ∧
      (∀ d : Int, 0 ≤ d → d < 256 → (d - (a - b)) % 256 = 0 → d = safe_subtract a b) := by
  have h := safe_subtract_eq_emod a b
  have h1 := tmod_emod_256 (a - b)
  have h2 := tmod_256_lt (a - b)
  have h3 : 0 ≤ (a - b).tmod 256 + 256 := by
    have := Int.tdiv_add_tmod (a - b) 256
    rcases le_or_lt 0 (a - b) with hn | hn
    · have := Int.tmod_nonneg 256 hn
      omega
    · have h4 : (a - b).tmod 256 = -((-(a - b)).tmod 256) := by
        rw [Int.tmod_def, Int.tmod_def, Int.neg_tdiv]; ring
      have := tmod_256_lt (-(a - b))
      omega
  refine ⟨by omega, by omega, by omega, ?_, by omega, ?_⟩
  · rw [tmod_256_nonneg h3]
    omega
  · intro d hd0 hd1 hd2
    omega

theorem modular_distance_witness :
    (0 : Int) ≤ 51 ∧ (51 : Int) < 256 ∧ ((51 : Int) - (-5 - 200)) % 256 = 0 ∧
      (51 : Int) = safe_subtract (-5) 200 :=
  ⟨by decide, by decide, by decide,
    (modular_distance (-5) 200).2.2.2.2.2 51 (by decide) (by decide) (by decide)⟩

/-- C17. For every `base` and `k` from 0 to 255, the slot of
`safe_add base k` counted from `base` is `k`; two slots `k` and `k2` with the
same sequence number are equal, so the 64 sequence numbers of a window are
pairwise distinct, each with its slot below `MAX_WINDOW_SIZE`; and a
sequence number from 1 to 64 slots behind `base` is at a distance of 192 or
more, which `recvr_save_data` takes as out of the window. -/
theorem unambiguous_slot (base k k2 seq : Int) (hb0 : 0 ≤ base) (hb : base < 256)
    (hk0 : 0 ≤ k) (hk : k < 256) (hk20 : 0 ≤ k2) (hk2 : k2 < 256) :
    safe_subtract (safe_add base k) base = k ∧
      (safe_add base k = safe_add base k2 → k = k2) ∧
      (k < 64 → safe_subtract (safe_add base k) base < MAX_WINDOW_SIZE) ∧
      (1 ≤ safe_subtract base seq → safe_subtract base seq ≤ 64 →
        192 ≤ safe_subtract seq base ∧ safe_subtract seq base ≥ MAX_WINDOW_SIZE) := by
  have e : ∀ j : Int, 0 ≤ j → j < 256 → safe_subtract (safe_add base j) base = j := by
    intro j hj0 hj
    rw [safe_subtract_eq_emod]
    unfold safe_add MAX_SEQ
    rw [tmod_256_nonneg (by omega)]
    omega
  refine ⟨e k hk0 hk, ?_, ?_, ?_⟩
  · intro h
    have h1 := e k hk0 hk
    rw [h, e k2 hk20 hk2] at h1
    exact h1.symm
  · intro h
    rw [e k hk0 hk]
    exact h
  · rw [safe_subtract_eq_emod, safe_subtract_eq_emod]
    unfold MAX_WINDOW_SIZE
    intro h1 h2
    omega

theorem unambiguous_slot_witness :
    safe_subtract (safe_add 250 10) 250 = 10 ∧
      192 ≤ safe_subtract 246 250 ∧ safe_subtract 246 250 ≥ MAX_WINDOW_SIZE :=
  ⟨(unambiguous_slot 250 10 10 246 (by decide) (by decide) (by decide) (by decide) (by decide)
      (by decide)).1,
    (unambiguous_slot 250 10 10 246 (by decide) (by decide) (by decide) (by decide) (by decide)
      (by decide)).2.2.2 (by decide) (by decide)⟩

/-! ## Sender: a burst whose receive times out -/

theorem sender_recv_acks_loop_flag (hdr : Nat) (clock : Nat → timeval) (n : Nat) :
    ∀ (s : sender) (l : recv_acks_locals) (evs : List (Option recvr_packet_header)),
      (sender_recv_acks_loop hdr clock n s l evs).2.1.should_slow_start
        = if times_out n evs = true then 1 else l.should_slow_start := by
  induction n with
  | zero => intro s l evs; simp [sender_recv_acks_loop, times_out]
  | succ n ih =>
    intro s l evs
    unfold sender_recv_acks_loop times_out
    cases hev : evs.head?.join with
    | none => simp [sender_udp_recv]
    | some a =>
      simp only [sender_udp_recv, show ¬ ((32 : Int) = -1) by decide, if_false]
      split_ifs <;> simp_all

theorem sender_recv_acks_loop_start (hdr : Nat) (clock : Nat → timeval) (n : Nat) (s : sender)
    (l : recv_acks_locals) (evs : List (Option recvr_packet_header)) :
    (sender_recv_acks_loop hdr clock n s l evs).1.start_file_pos = s.start_file_pos ∧
      (sender_recv_acks_loop hdr clock n s l evs).1.start_seq_num = s.start_seq_num ∧
      (sender_recv_acks_loop hdr clock n s l evs).1.transfer_size = s.transfer_size := by
  induction n generalizing s l evs with
  | zero => simp [sender_recv_acks_loop]
  | succ n ih =>
    have hu : ∀ ev, (sender_udp_recv s ev).start_file_pos = s.start_file_pos ∧
        (sender_udp_recv s ev).start_seq_num = s.start_seq_num ∧
        (sender_udp_recv s ev).transfer_size = s.transfer_size := by
      intro ev; cases ev <;> simp [sender_udp_recv]
    have hc : ∀ (x : sender) (q : Int), sender_ctl (send_chunk hdr clock x q).1 = sender_ctl x :=
      fun x q => send_chunk_ctl hdr clock x q
    simp only [sender_ctl, Prod.mk.injEq] at hc
    unfold sender_recv_acks_loop
    simp only
    split_ifs with h1 h2 h3
    · exact hu _
    · rw [(ih _ _ _).1, (ih _ _ _).2.1, (ih _ _ _).2.2]
      simp only [update_rtt, gettimeofday, update_last_ack, fast_retransmit]
      rw [(hc _ _).1, (hc _ _).2.1, (hc _ _).2.2.1]
      exact ⟨(hu _).1, (hu _).2.1, (hu _).2.2⟩
    · rw [(ih _ _ _).1, (ih _ _ _).2.1, (ih _ _ _).2.2]
      simp only [update_rtt, gettimeofday, update_last_ack]
      exact hu _
    · rw [(ih _ _ _).1, (ih _ _ _).2.1, (ih _ _ _).2.2]
      simp only [update_rtt, gettimeofday, update_last_ack]
      exact hu _

theorem sender_recv_acks_start (hdr : Nat) (clock : Nat → timeval) (s : sender)
    (evs : List (Option recvr_packet_header)) :
    (sender_recv_acks hdr clock s evs).1.start_file_pos = s.start_file_pos ∧
      (sender_recv_acks hdr clock s evs).1.start_seq_num = s.start_seq_num ∧
      (sender_recv_acks hdr clock s evs).1.transfer_size = s.transfer_size := by
  have hl := sender_recv_acks_loop_start hdr clock s.packets_sent.toNat s
    { packets_recv := 0, should_slow_start := 0, should_recover_fast := 0, dup_count := 0 } evs
  unfold sender_recv_acks
  simp only
  split_ifs <;> exact hl

/-- The adapt phase after a timeout: `cc_slow_start` and nothing else. -/
theorem sender_recv_acks_timeout (hdr : Nat) (clock : Nat → timeval) (s : sender)
    (evs : List (Option recvr_packet_header))
    (h : times_out s.packets_sent.toNat evs = true) :
    (sender_recv_acks hdr clock s evs).1.window_size = 1 ∧
      (sender_recv_acks hdr clock s evs).1.optimal_window_size
        = (cc_slow_start s).optimal_window_size := by
  have hf := sender_recv_acks_loop_flag hdr clock s.packets_sent.toNat s
    { packets_recv := 0, should_slow_start := 0, should_recover_fast := 0, dup_count := 0 } evs
  rw [if_pos h] at hf
  have hc := sender_recv_acks_loop_cc hdr clock s.packets_sent.toNat s
    { packets_recv := 0, should_slow_start := 0, should_recover_fast := 0, dup_count := 0 } evs
  unfold sender_recv_acks
  simp only [hf, ne_eq, one_ne_zero, not_false_eq_true, if_true, cc_slow_start, hc.2, and_self]

/-- C12. At every burst of a transfer that starts from `sender_create`, for
any receives: when one of the receives of the acknowledgement phase times
out, `sender_recv_acks` leaves `window_size = 1` and
`optimal_window_size = max 1 (o / 2)`, where `o` is `optimal_window_size`
at the start of the burst. -/
theorem timeout_response (hdr : Nat) (clock : Nat → timeval) (f : file) (transfer_size : Nat)
    (buf : List byte) (ack0 : recvr_packet_header) (tv0 : timeval)
    (evs : List (Option recvr_packet_header)) (k : Nat)
    (h : times_out
      (sender_send_data hdr clock
        (sender_at_burst hdr clock (sender_create f transfer_size buf ack0 tv0) evs
          k)).packets_sent.toNat
      (events_at_burst hdr clock (sender_create f transfer_size buf ack0 tv0) evs k) = true) :
    (sender_recv_acks hdr clock
        (sender_send_data hdr clock
          (sender_at_burst hdr clock (sender_create f transfer_size buf ack0 tv0) evs k))
        (events_at_burst hdr clock (sender_create f transfer_size buf ack0 tv0) evs
          k)).1.window_size = 1 ∧
      (sender_recv_acks hdr clock
        (sender_send_data hdr clock
          (sender_at_burst hdr clock (sender_create f transfer_size buf ack0 tv0) evs k))
        (events_at_burst hdr clock (sender_create f transfer_size buf ack0 tv0) evs
          k)).1.optimal_window_size
        = max 1
          ((sender_at_burst hdr clock (sender_create f transfer_size buf ack0 tv0) evs
            k).optimal_window_size / 2) := by
  obtain ⟨h1, h2⟩ := sender_recv_acks_timeout hdr clock _ _ h
  have h0 : cc_bounds (sender_set_timeout (sender_create f transfer_size buf ack0 tv0)) :=
    sender_create_bounds f transfer_size buf ack0 tv0
  obtain ⟨⟨-, -, b3, b4⟩, -⟩ := transfer_quiescent_inv hdr clock k
    (sender_set_timeout (sender_create f transfer_size buf ack0 tv0), evs) h0
    (Or.inl ⟨rfl, rfl⟩)
  have hs := (sender_send_data_cc hdr clock
    (sender_at_burst hdr clock (sender_create f transfer_size buf ack0 tv0) evs k)).2
  refine ⟨h1, ?_⟩
  rw [h2]
  unfold MAX_WINDOW_SIZE at b4
  have b3' : 1 ≤ (sender_at_burst hdr clock (sender_create f transfer_size buf ack0 tv0) evs
      k).optimal_window_size := b3
  have e := Int.tdiv_eq_ediv (show (0 : Int) ≤ (sender_at_burst hdr clock
    (sender_create f transfer_size buf ack0 tv0) evs k).optimal_window_size by omega)
    (show (0 : Int) ≤ 2 by decide)
  simp only [cc_slow_start, hs, e]
  split_ifs <;> omega

theorem timeout_response_witness :
    times_out
        (sender_send_data 24 clock_zero
          (sender_at_burst 24 clock_zero
            (sender_create (file_create [1, 2, 3]) 3 [] sender_initial.msg_recv
              sender_initial.timeout) [none] 0)).packets_sent.toNat
        (events_at_burst 24 clock_zero
          (sender_create (file_create [1, 2, 3]) 3 [] sender_initial.msg_recv
            sender_initial.timeout) [none] 0) = true ∧
      (sender_recv_acks 24 clock_zero
        (sender_send_data 24 clock_zero
          (sender_at_burst 24 clock_zero
            (sender_create (file_create [1, 2, 3]) 3 [] sender_initial.msg_recv
              sender_initial.timeout) [none] 0))
        (events_at_burst 24 clock_zero
          (sender_create (file_create [1, 2, 3]) 3 [] sender_initial.msg_recv
            sender_initial.timeout) [none] 0)).1.window_size = 1 :=
  ⟨by decide,
    (timeout_response 24 clock_zero (file_create [1, 2, 3]) 3 [] sender_initial.msg_recv
      sender_initial.timeout [none] 0 (by decide)).1⟩

/-! ## Sender: the slide -/

theorem transfer_quiescent_succ (hdr : Nat) (clock : Nat → timeval) (k : Nat) :
    ∀ st : sender × List (Option recvr_packet_header),
      transfer_quiescent hdr clock (k + 1) st =
        if sender_is_complete (transfer_quiescent hdr clock k st).1 then
          transfer_quiescent hdr clock k st
        else transfer_body hdr clock (transfer_quiescent hdr clock k st) := by
  induction k with
  | zero => intro st; simp [transfer_quiescent]
  | succ k ih =>
    intro st
    rw [transfer_quiescent]
    by_cases hc : sender_is_complete st.1 = true
    · rw [if_pos hc]
      have e : transfer_quiescent hdr clock (k + 1) st = st := by
        rw [transfer_quiescent, if_pos hc]
      rw [e, if_pos hc]
    · rw [if_neg hc]
      have e : transfer_quiescent hdr clock (k + 1) st
          = transfer_quiescent hdr clock k (transfer_body hdr clock st) := by
        rw [transfer_quiescent, if_neg hc]
      rw [e]
      exact ih _

theorem transfer_body_start_file_pos (hdr : Nat) (clock : Nat → timeval)
    (st : sender × List (Option recvr_packet_header)) :
    st.1.start_file_pos ≤ (transfer_body hdr clock st).1.start_file_pos := by
  have h1 := sender_send_data_loop_ctl hdr clock st.1.window_size.toNat 0 st.1
    st.1.start_seq_num 0
  simp only [sender_ctl, Prod.mk.injEq] at h1
  have h2 := (sender_recv_acks_start hdr clock (sender_send_data hdr clock st.1) st.2).1
  have h3 : (sender_send_data hdr clock st.1).start_file_pos = st.1.start_file_pos :=
    h1.2.2.1
  unfold transfer_body
  simp only [sender_reset, sender_set_timeout, file_moveto, file_get_position, h2, h3]
  exact Nat.le_add_right _ _

/-- C18. For every sender, `sender_reset` sets `start_seq_num` to `last_ack`,
or to 0 when `last_ack` is -1, adds to `start_file_pos` the distance from
the old `start_seq_num` to the new one times the chunk size, and leaves the
position of the file at the new `start_file_pos`; `start_file_pos` does not
decrease over a burst, nor from the head of one burst of `transfer` to the
head of the next. -/
theorem slide_phase (hdr : Nat) (clock : Nat → timeval) (s s0 : sender)
    (st : sender × List (Option recvr_packet_header))
    (evs : List (Option recvr_packet_header)) (k : Nat) :
    (sender_reset hdr s).start_seq_num = (if s.last_ack = -1 then 0 else s.last_ack) ∧
      (sender_reset hdr s).start_file_pos = s.start_file_pos +
        (safe_subtract (if s.last_ack = -1 then 0 else s.last_ack) s.start_seq_num).toNat
          * max_file_chunk_size hdr ∧
      (sender_reset hdr s).file.pos = (sender_reset hdr s).start_file_pos ∧
      (sender_reset hdr s).file.content = s.file.content ∧
      s.start_file_pos ≤ (sender_reset hdr s).start_file_pos ∧
      st.1.start_file_pos ≤ (transfer_body hdr clock st).1.start_file_pos ∧
      (sender_at_burst hdr clock s0 evs k).start_file_pos
        ≤ (sender_at_burst hdr clock s0 evs (k + 1)).start_file_pos := by
  refine ⟨rfl, rfl, rfl, rfl, ?_, transfer_body_start_file_pos hdr clock st, ?_⟩
  · simp only [sender_reset, file_moveto, file_get_position]
    exact Nat.le_add_right _ _
  · unfold sender_at_burst
    rw [transfer_quiescent_succ]
    split_ifs
    · exact le_refl _
    · exact transfer_body_start_file_pos hdr clock _

/-! ## Sender: the estimate after a timeout -/

theorem send_chunk_rtt (hdr : Nat) (clock : Nat → timeval) (s : sender) (seq_num : Int) :
    (send_chunk hdr clock s seq_num).1.rtt_est = s.rtt_est ∧
      (send_chunk hdr clock s seq_num).1.rtt_dev = s.rtt_dev := by
  simp [send_chunk, sender_packet_header_load, gettimeofday, file_read]

theorem sender_send_data_loop_rtt (hdr : Nat) (clock : Nat → timeval) (n : Nat) (i : Int)
    (s : sender) (seq_num packets_sent : Int) :
    (sender_send_data_loop hdr clock n i s seq_num packets_sent).1.rtt_est = s.rtt_est ∧
      (sender_send_data_loop hdr clock n i s seq_num packets_sent).1.rtt_dev = s.rtt_dev := by
  induction n generalizing i s seq_num packets_sent with
  | zero => simp [sender_send_data_loop]
  | succ n ih =>
    unfold sender_send_data_loop
    split_ifs
    · simp
    · rw [(ih _ _ _ _).1, (ih _ _ _ _).2]; simp
    · rw [(ih _ _ _ _).1, (ih _ _ _ _).2]; exact send_chunk_rtt hdr clock s seq_num

/-- A burst whose first receive times out leaves the estimate and the
deviation as they were. -/
theorem transfer_body_rtt (hdr : Nat) (clock : Nat → timeval)
    (st : sender × List (Option recvr_packet_header)) (h : st.2.head?.join = none) :
    (transfer_body hdr clock st).1.rtt_est = st.1.rtt_est ∧
      (transfer_body hdr clock st).1.rtt_dev = st.1.rtt_dev := by
  have h1 := sender_send_data_loop_rtt hdr clock st.1.window_size.toNat 0 st.1
    st.1.start_seq_num 0
  have h2 : ∀ (n : Nat) (x : sender) (l : recv_acks_locals),
      (sender_recv_acks_loop hdr clock n x l st.2).1.rtt_est = x.rtt_est ∧
      (sender_recv_acks_loop hdr clock n x l st.2).1.rtt_dev = x.rtt_dev := by
    intro n x l
    cases n with
    | zero => simp [sender_recv_acks_loop]
    | succ n =>
      rw [sender_recv_acks_loop]
      simp only [h, sender_udp_recv, if_true, and_self]
  unfold transfer_body sender_recv_acks
  simp only [sender_reset, sender_set_timeout, file_moveto, file_get_position]
  split_ifs <;>
    simp only [cc_slow_start, cc_fast_recovery, cc_incr, h2] <;>
    exact h1

/-- C20, as the claim states it, fails for a transfer of three bytes whose
receives all time out: after one failed burst `rtt_est` is the 1,000,000 it
was, not raised; after five failed bursts it still is, where doubling it at
each would have passed 10,000,000 at the fourth, and the sender is at the
head of its loop with the transfer not complete. -/
theorem rtt_not_raised :
    sender_three_bytes.rtt_est = 1000000 ∧
      ¬ (sender_three_bytes.rtt_est
          < (sender_at_burst 24 clock_zero sender_three_bytes [] 1).rtt_est) ∧
      (sender_at_burst 24 clock_zero sender_three_bytes [] 5).rtt_est = 1000000 ∧
      sender_is_complete (sender_at_burst 24 clock_zero sender_three_bytes [] 5) = false ∧
      2 * (2 * (2 * (2 * sender_three_bytes.rtt_est))) > MAX_TIMEOUT := by
  decide

/-! ## Sender: the estimator on a constant sample -/

theorem update_rtt_estimate_bounds (est dev smp : Int) (E D : Nat) (h0 : 0 ≤ smp)
    (h1 : smp ≤ est) (h2 : est ≤ smp + E) (h3 : 0 ≤ dev) (h4 : dev ≤ D) :
    smp ≤ (update_rtt_estimate est dev smp).1 ∧
      (update_rtt_estimate est dev smp).1 ≤ smp + (rtt_bound_step (E, D)).1 ∧
      0 ≤ (update_rtt_estimate est dev smp).2 ∧
      (update_rtt_estimate est dev smp).2 ≤ (rtt_bound_step (E, D)).2 := by
  have ha : |smp - est| = est - smp := by
    rw [abs_sub_comm]
    exact abs_of_nonneg (by omega)
  have e1 := Int.tdiv_eq_ediv (show (0 : Int) ≤ est + 7 * smp by omega)
    (show (0 : Int) ≤ 8 by decide)
  have e2 := Int.tdiv_eq_ediv (show (0 : Int) ≤ dev + 3 * (est - smp) by omega)
    (show (0 : Int) ≤ 4 by decide)
  simp only [update_rtt_estimate, rtt_bound_step, ha, e1, e2]
  push_cast
  refine ⟨?_, ?_, ?_, ?_⟩ <;> omega

theorem update_rtt_times_bounds (clock : Nat → timeval) (header : recvr_packet_header)
    (smp : Int) (h0 : 0 ≤ smp)
    (hs : ∀ n, (timeval_subtract (clock n) header.timestamp).1.tv_usec = smp) (n : Nat) :
    ∀ (s : sender) (E D : Nat), smp ≤ s.rtt_est → s.rtt_est ≤ smp + E → 0 ≤ s.rtt_dev →
      s.rtt_dev ≤ D →
      smp ≤ (update_rtt_times clock header n s).rtt_est ∧
        (update_rtt_times clock header n s).rtt_est ≤ smp + (rtt_bounds n (E, D)).1 ∧
        0 ≤ (update_rtt_times clock header n s).rtt_dev ∧
        (update_rtt_times clock header n s).rtt_dev ≤ (rtt_bounds n (E, D)).2 := by
  induction n with
  | zero => intro s E D h1 h2 h3 h4; exact ⟨h1, h2, h3, h4⟩
  | succ n ih =>
    intro s E D h1 h2 h3 h4
    have hb := update_rtt_estimate_bounds s.rtt_est s.rtt_dev smp E D h0 h1 h2 h3 h4
    have he : (update_rtt clock s header).rtt_est
        = (update_rtt_estimate s.rtt_est s.rtt_dev smp).1 := by
      simp only [update_rtt, gettimeofday, hs]
    have hd : (update_rtt clock s header).rtt_dev
        = (update_rtt_estimate s.rtt_est s.rtt_dev smp).2 := by
      simp only [update_rtt, gettimeofday, hs]
    rw [update_rtt_times, rtt_bounds]
    exact ih (update_rtt clock s header) (rtt_bound_step (E, D)).1 (rtt_bound_step (E, D)).2
      (he ▸ hb.1) (he ▸ hb.2.1) (hd ▸ hb.2.2.1) (hd ▸ hb.2.2.2)

theorem rtt_bounds_sixty : rtt_bounds 60 (1000000, 200) = (0, 0) := by decide

/-- C15. From the sender that `sender_create` returns (`rtt_est` 1,000,000
and `rtt_dev` 200), for every sample `smp` with `0 ≤ smp < 1,000,000` that
every call of `update_rtt` measures, after 60 calls `rtt_est = smp` and
`rtt_dev = 0`. -/
theorem rtt_estimator_stability (clock : Nat → timeval) (header : recvr_packet_header)
    (smp : Int) (f : file) (transfer_size : Nat) (buf : List byte)
    (ack0 : recvr_packet_header) (tv0 : timeval) (h0 : 0 ≤ smp) (h1 : smp < 1000000)
    (hs : ∀ n, (timeval_subtract (clock n) header.timestamp).1.tv_usec = smp) :
    (update_rtt_times clock header 60 (sender_create f transfer_size buf ack0 tv0)).rtt_est
        = smp ∧
      (update_rtt_times clock header 60 (sender_create f transfer_size buf ack0 tv0)).rtt_dev
        = 0 := by
  have h := update_rtt_times_bounds clock header smp h0 hs 60
    (sender_create f transfer_size buf ack0 tv0) 1000000 200
    (by simp only [sender_create]; omega) (by simp only [sender_create]; omega)
    (by simp only [sender_create]; omega) (by simp only [sender_create]; omega)
  rw [rtt_bounds_sixty] at h
  obtain ⟨a1, a2, a3, a4⟩ := h
  constructor <;> omega

theorem rtt_estimator_stability_witness :
    (0 : Int) ≤ 250 ∧ (250 : Int) < 1000000 ∧
      (update_rtt_times (fun _ => { tv_sec := 5, tv_usec := 250 })
        { next_seq_num := 1, timestamp := { tv_sec := 5, tv_usec := 0 }, window := 0 } 60
        sender_three_bytes).rtt_est = 250 ∧
      (update_rtt_times (fun _ => { tv_sec := 5, tv_usec := 250 })
        { next_seq_num := 1, timestamp := { tv_sec := 5, tv_usec := 0 }, window := 0 } 60
        sender_three_bytes).rtt_dev = 0 :=
  ⟨by decide, by decide,
    rtt_estimator_stability (fun _ => { tv_sec := 5, tv_usec := 250 })
      { next_seq_num := 1, timestamp := { tv_sec := 5, tv_usec := 0 }, window := 0 } 250
      (file_create [1, 2, 3]) 3 [] sender_initial.msg_recv sender_initial.timeout
      (by decide) (by decide) (fun _ => rfl)⟩

/-! ## Lossless channel: what the sender sends -/

theorem burst_packets_view (clock : Nat → timeval) (P N : Nat) (content : List byte) (m : Nat) :
    ∀ c tick : Nat, (burst_packets clock P N content m c tick).map seq_and_data =
      (List.range' c m).map (fun (t : Nat) => ((t : Int) % 256, chunk P N content t)) := by
  induction m with
  | zero => intro c tick; simp [burst_packets]
  | succ m ih =>
    intro c tick
    rw [burst_packets, List.range'_succ, List.map_cons, List.map_cons, ih]
    rfl

theorem lossless_loop_sent_view (hdr N : Nat) (clock : Nat → timeval) (content : List byte)
    (hP : 0 < max_file_chunk_size hdr) (hN : N ≤ content.length) (fuel : Nat) :
    ∀ (c : Nat) (st : lossless), lossless_inv hdr N content c st →
      c ≤ chunk_count (max_file_chunk_size hdr) N →
      chunk_count (max_file_chunk_size hdr) N - c ≤ fuel →
      (lossless_loop_sent hdr clock fuel st).map seq_and_data =
        (List.range' c (chunk_count (max_file_chunk_size hdr) N - c)).map
          (fun (t : Nat) => ((t : Int) % 256, chunk (max_file_chunk_size hdr) N content t)) := by
  induction fuel with
  | zero =>
    intro c st h hc hf
    have e : chunk_count (max_file_chunk_size hdr) N - c = 0 := by omega
    simp [lossless_loop_sent, e]
  | succ fuel ih =>
    intro c st h hc hf
    by_cases hlt : c < chunk_count (max_file_chunk_size hdr) N
    · have hnd : ¬ sender_is_complete st.s = true := by
        rw [sender_is_complete_iff hdr N content c st hP h]
        exact fun hn => hn hlt
      obtain ⟨h1, h2, h3, h4, -⟩ := lossless_burst_exact hdr N clock content hP hN c st h hlt
      have hi := ih _ (lossless_burst hdr clock st) h1 h4 (by omega)
      rw [lossless_loop_sent, if_neg hnd, List.map_append, hi, h2, burst_packets_view,
        ← List.map_append, List.range'_append_1]
      congr 2
      omega
    · have hdone := (sender_is_complete_iff hdr N content c st hP h).2 hlt
      have e : chunk_count (max_file_chunk_size hdr) N - c = 0 := by omega
      simp [lossless_loop_sent, hdone, e]

/-- Over the lossless channel the sender sends one data packet for each
chunk of the transfer, in order, with the sequence number of the chunk
modulo 256 and its bytes, and then four end-of-file packets. -/
theorem lossless_transfer_sent_view (hdr N : Nat) (clock : Nat → timeval)
    (content : List byte) (buf : List byte) (ack0 : recvr_packet_header) (tv0 : timeval)
    (rbuf : datagram) (h0 : sender_packet_header) (fuel : Nat)
    (hP : 0 < max_file_chunk_size hdr) (hN : N ≤ content.length)
    (hfuel : chunk_count (max_file_chunk_size hdr) N ≤ fuel) :
    (lossless_transfer_sent hdr clock fuel
        (sender_create (file_create content) N buf ack0 tv0) (recvr_create rbuf h0)).map
        seq_and_data =
      (List.range' 0 (chunk_count (max_file_chunk_size hdr) N)).map
          (fun (t : Nat) => ((t : Int) % 256, chunk (max_file_chunk_size hdr) N content t))
        ++ List.replicate 4 (EOF_SEQ_NUM, []) := by
  have hi := lossless_inv_initial hdr N content buf ack0 tv0 rbuf h0
  have hv := lossless_loop_sent_view hdr N clock content hP hN fuel 0 _ hi (Nat.zero_le _)
    (by omega)
  obtain ⟨st2, h1, h2⟩ := lossless_loop_ends hdr N clock content hP hN fuel 0 _ hi
    (Nat.zero_le _) (by omega)
  unfold lossless_transfer_sent
  rw [List.map_append, hv, h1]
  simp only [Nat.sub_zero, sender_send_eof, sender_packet_header_load, gettimeofday, h2.s_sent,
    List.nil_append, List.map_cons, List.map_nil, seq_and_data]
  rfl

theorem data_packet_count_view (l : List datagram) :
    data_packet_count l
      = (l.map seq_and_data).countP (fun q => decide (q.1 ≠ EOF_SEQ_NUM)) := by
  rw [List.countP_map]
  rfl

/-- Over the lossless channel the sender sends as many data packets as the
transfer has chunks. -/
theorem lossless_data_packet_count (hdr N : Nat) (clock : Nat → timeval)
    (content : List byte) (buf : List byte) (ack0 : recvr_packet_header) (tv0 : timeval)
    (rbuf : datagram) (h0 : sender_packet_header) (fuel : Nat)
    (hP : 0 < max_file_chunk_size hdr) (hN : N ≤ content.length)
    (hfuel : chunk_count (max_file_chunk_size hdr) N ≤ fuel) :
    data_packet_count (lossless_transfer_sent hdr clock fuel
        (sender_create (file_create content) N buf ack0 tv0) (recvr_create rbuf h0))
      = chunk_count (max_file_chunk_size hdr) N := by
  rw [data_packet_count_view,
    lossless_transfer_sent_view hdr N clock content buf ack0 tv0 rbuf h0 fuel hP hN hfuel,
    List.countP_append]
  have h1 : List.countP (fun q : Int × List byte => decide (q.1 ≠ EOF_SEQ_NUM))
      (List.replicate 4 (EOF_SEQ_NUM, [])) = 0 := by decide
  have h2 : List.countP (fun q : Int × List byte => decide (q.1 ≠ EOF_SEQ_NUM))
      ((List.range' 0 (chunk_count (max_file_chunk_size hdr) N)).map
        (fun (t : Nat) => ((t : Int) % 256, chunk (max_file_chunk_size hdr) N content t)))
      = chunk_count (max_file_chunk_size hdr) N := by
    rw [List.countP_eq_length.2]
    · simp
    · intro q hq
      obtain ⟨t, -, rfl⟩ := List.mem_map.1 hq
      simp only [EOF_SEQ_NUM, ne_eq, decide_eq_true_eq]
      omega
  rw [h1, h2, Nat.add_zero]

theorem chunk_count_three_thousand (P : Nat) (h1 : 1000 ≤ P) (h2 : P ≤ 1499) :
    chunk_count P 3000 = 3 := by
  have a := (lt_chunk_count P 3000 2 (by omega)).2 (by omega)
  have b := mt (lt_chunk_count P 3000 3 (by omega)).1 (by omega)
  omega

theorem three_thousand_bytes_length : 3000 ≤ three_thousand_bytes.length := by
  unfold three_thousand_bytes
  rw [List.length_replicate]

/-- A data packet that is not the end-of-file packet goes through one turn of
the loop of `receive`: `recvr_save_data`, then `recvr_respond`. -/
theorem receive_data_packet (hdr : Nat) (r : recvr) (p : datagram)
    (rest : List (Option datagram)) (h : p.header.seq_num ≠ EOF_SEQ_NUM) :
    receive hdr r (some p :: rest)
      = receive hdr (recvr_respond (recvr_accept hdr r p)) rest := by
  have hb : ¬ ((hdr : Int) + (p.data.length : Int) = -1) := by omega
  rw [receive]
  simp only [recvr_listen, udp_recv, is_timed_out, is_eof, parse_header, hb, h, decide_False,
    Bool.false_eq_true, if_false, recvr_accept, TRANSFER_IN_PROGRESS, TIMED_OUT,
    TRANSFER_COMPLETE]
  simp

theorem recvr_respond_sent (r : recvr) :
    (recvr_respond r).sent = r.sent ++
        [{ next_seq_num := r.next_seq_num, timestamp := r.msg_recv.header.timestamp,
           window := r.window }] ∧
      (recvr_respond r).next_seq_num = r.next_seq_num ∧
      (recvr_respond r).window = r.window ∧
      (recvr_respond r).fwriter = r.fwriter := by
  unfold recvr_respond
  split_ifs <;> exact ⟨rfl, rfl, rfl, rfl⟩

theorem receive_data_packets_length (hdr : Nat) (ps : List datagram) :
    ∀ r : recvr, (∀ p ∈ ps, p.header.seq_num ≠ EOF_SEQ_NUM) →
      (receive hdr r (ps.map some)).1.sent.length = r.sent.length + ps.length ∧
        (receive hdr r (ps.map some)).2 = false := by
  induction ps with
  | nil => intro r _; simp [receive]
  | cons p ps ih =>
    intro r h
    rw [List.map_cons, receive_data_packet hdr r p _ (h p (List.mem_cons_self _ _))]
    obtain ⟨a, b⟩ := ih (recvr_respond (recvr_accept hdr r p))
      (fun q hq => h q (List.mem_cons_of_mem _ hq))
    rw [a, b, (recvr_respond_sent _).1, List.length_append, recvr_accept,
      (recvr_save_data_frame hdr _).2.2.2.1]
    simp only [parse_header, udp_recv, List.length_cons, List.length_nil]
    exact ⟨by omega, trivial⟩

/-- C21. For every receiver and every received datagram whose sequence
number is not `EOF_SEQ_NUM`, in the window or not, written before or not: the
loop of `receive` handles it with `recvr_save_data` and `recvr_respond` and
goes on; `recvr_respond` sends exactly one reply, whose `next_seq_num` and
`window` are those of the receiver after `recvr_save_data` and whose
timestamp is that of the header of the datagram. Over a list of such
datagrams the receiver sends as many replies as there are datagrams and
stays in its loop; a timeout and an end-of-file packet get no reply. -/
theorem reply_to_data_packet (hdr : Nat) (r : recvr) (p : datagram)
    (rest : List (Option datagram)) (ps : List datagram)
    (h : p.header.seq_num ≠ EOF_SEQ_NUM) :
    receive hdr r (some p :: rest)
        = receive hdr (recvr_respond (recvr_accept hdr r p)) rest ∧
      (recvr_respond (recvr_accept hdr r p)).sent = r.sent ++
        [{ next_seq_num := (recvr_accept hdr r p).next_seq_num
           timestamp := p.header.timestamp
           window := (recvr_accept hdr r p).window }] ∧
      (recvr_respond (recvr_accept hdr r p)).next_seq_num
        = (recvr_accept hdr r p).next_seq_num ∧
      (recvr_respond (recvr_accept hdr r p)).window = (recvr_accept hdr r p).window ∧
      (recvr_respond (recvr_accept hdr r p)).fwriter = (recvr_accept hdr r p).fwriter ∧
      ((∀ q ∈ ps, q.header.seq_num ≠ EOF_SEQ_NUM) →
        (receive hdr r (ps.map some)).1.sent.length = r.sent.length + ps.length ∧
          (receive hdr r (ps.map some)).2 = false) ∧
      (receive hdr r (none :: rest)).1.sent = r.sent ∧
      (receive hdr r (some { p with header := { p.header with seq_num := EOF_SEQ_NUM } }
        :: rest)).1.sent = r.sent := by
  have hf := recvr_save_data_frame hdr (parse_header (udp_recv hdr r (some p)))
  have hr := recvr_respond_sent (recvr_accept hdr r p)
  refine ⟨receive_data_packet hdr r p rest h, ?_, hr.2.1, hr.2.2.1, hr.2.2.2,
    receive_data_packets_length hdr ps r, ?_, ?_⟩
  · rw [hr.1]
    unfold recvr_accept
    rw [hf.2.2.2.1, hf.1]
    rfl
  · simp [receive, recvr_listen, udp_recv, is_timed_out, TIMED_OUT]
  · have hb : ¬ ((hdr : Int) + (p.data.length : Int) = -1) := by omega
    simp [receive, recvr_listen, udp_recv, is_timed_out, is_eof, parse_header, hb,
      TIMED_OUT, TRANSFER_COMPLETE]

theorem reply_to_data_packet_witness :
    (packet 70 [1]).header.seq_num ≠ EOF_SEQ_NUM ∧
      (recvr_respond (recvr_accept 24 recvr_initial (packet 70 [1]))).sent =
        [{ next_seq_num := 0, timestamp := { tv_sec := 0, tv_usec := 0 }, window := 0 }] ∧
      (receive 24 recvr_initial [some (packet 70 [1]), some (packet 0 [2])]).1.sent =
        [{ next_seq_num := 0, timestamp := { tv_sec := 0, tv_usec := 0 }, window := 0 },
         { next_seq_num := 1, timestamp := { tv_sec := 0, tv_usec := 0 }, window := 0 }] :=
  ⟨by decide,
    (reply_to_data_packet 24 recvr_initial (packet 70 [1]) [] [] (by decide)).2.1,
    by decide⟩

/-- The call `send_chunk` at any position of a source that holds the bytes
of the transfer: the packet carries the sequence number, the time of the
clock and the bytes at the position, a whole chunk or what is left of the
transfer. -/
theorem send_chunk_at (hdr : Nat) (clock : Nat → timeval) (s : sender) (seq_num : Int)
    (hN : s.transfer_size ≤ s.file.content.length) :
    (send_chunk hdr clock s seq_num).1.sent = s.sent ++
        [{ header := { seq_num := seq_num, timestamp := clock s.ticks }
           data := (s.file.content.drop s.file.pos).take
             (min (max_file_chunk_size hdr) (s.transfer_size - s.file.pos)) }] ∧
      (send_chunk hdr clock s seq_num).1.ticks = s.ticks + 1 ∧
      (send_chunk hdr clock s seq_num).1.file.pos = s.file.pos +
        min (max_file_chunk_size hdr) (s.file.content.length - s.file.pos) := by
  simp only [send_chunk, sender_packet_header_load, gettimeofday, file_read, get_bytes_left,
    file_get_position, List.length_take, List.length_drop]
  refine ⟨?_, trivial, trivial⟩
  congr 2
  generalize max_file_chunk_size hdr = P at *
  generalize s.file.pos = q at *
  generalize s.transfer_size = N at *
  by_cases hq : q > N
  · simp only [hq, if_true]
    split_ifs with h
    · have e : min P (N - q) = 0 := by omega
      rw [e]
      simp
    · have e : min P (N - q) = 0 := by omega
      have e2 : P = 0 := by omega
      rw [e]
      simp [e2]
  · simp only [hq, if_false]
    split_ifs with h
    · rw [List.take_append_of_le_length (by rw [List.length_take, List.length_drop]; omega),
        List.take_take]
      have e : min (N - q) P = min P (N - q) := by omega
      rw [e]
    · rw [List.take_left' (by rw [List.length_take, List.length_drop])]
      have e : min P (N - q) = P := by omega
      rw [e]

theorem is_transferred_eq (w : Nat) (j : Nat) (h : j < 64) :
    (is_transferred w (j : Int) ≠ 0) ↔ w.testBit j = true := by
  unfold is_transferred
  rw [shr_ull64_of_lt w j (by omega) (by omega), Nat.and_one_is_mod, Int.toNat_ofNat,
    Nat.testBit_to_div_mod, Nat.shiftRight_eq_div_pow]
  have := Nat.mod_two_eq_zero_or_one (w / 2 ^ j)
  constructor
  · intro h1
    simp only [decide_eq_true_eq]
    omega
  · intro h1
    simp only [decide_eq_true_eq] at h1
    omega

theorem safe_increment_add (a : Int) (j : Nat) :
    safe_increment ((a + j) % 256) = (a + ((j + 1 : Nat) : Int)) % 256 := by
  unfold safe_increment MAX_SEQ
  rw [tmod_256_nonneg (by omega)]
  push_cast
  omega

/-- The loop of `sender_send_data` from slot `j` on while whole chunks are
left for all its slots: the slots whose bit is set in `recvr_window` are
skipped, the others sent in order, and the file moves by a chunk per slot. -/
theorem sender_send_data_loop_slots (hdr : Nat) (clock : Nat → timeval)
    (hP : 0 < max_file_chunk_size hdr) (a : Int) (A : Nat) (n : Nat) :
    ∀ (j : Nat) (s : sender) (ps : Int),
      j + n ≤ 64 →
      s.transfer_size ≤ s.file.content.length →
      s.file.pos = A + j * max_file_chunk_size hdr →
      A + (j + n) * max_file_chunk_size hdr ≤ s.transfer_size →
      ((sender_send_data_loop hdr clock n (j : Int) s ((a + j) % 256) ps).1.sent.map
          seq_and_data = s.sent.map seq_and_data ++
            ((List.range' j n).filter (fun i => !s.recvr_window.testBit i)).map
              (fun (i : Nat) => ((a + (i : Int)) % 256,
                (s.file.content.drop (A + i * max_file_chunk_size hdr)).take
                  (max_file_chunk_size hdr)))) ∧
        (sender_send_data_loop hdr clock n (j : Int) s ((a + j) % 256) ps).2.2
          = ps + (((List.range' j n).filter (fun i => !s.recvr_window.testBit i)).length : Nat) ∧
        (sender_send_data_loop hdr clock n (j : Int) s ((a + j) % 256) ps).2.1
          = (a + ((j + n : Nat) : Int)) % 256 ∧
        (sender_send_data_loop hdr clock n (j : Int) s ((a + j) % 256) ps).1.file.pos
          = A + (j + n) * max_file_chunk_size hdr := by
  induction n with
  | zero =>
    intro j s ps _ _ h3 _
    simp [sender_send_data_loop, h3]
  | succ n ih =>
    intro j s ps h1 h2 h3 h4
    have hleft : ¬ (get_bytes_left s = 0) := by
      simp only [get_bytes_left, file_get_position, h3]
      have e : (j + (n + 1)) * max_file_chunk_size hdr
          = j * max_file_chunk_size hdr + n * max_file_chunk_size hdr
            + max_file_chunk_size hdr := by ring
      generalize j * max_file_chunk_size hdr = q at *
      generalize n * max_file_chunk_size hdr = q2 at *
      split_ifs <;> omega
    have hj : ((j : Int) + 1) = ((j + 1 : Nat) : Int) := by push_cast; rfl
    have e1 : j + 1 + n = j + (n + 1) := by omega
    rw [sender_send_data_loop, if_neg hleft, safe_increment_add, hj, List.range'_succ]
    by_cases hb : s.recvr_window.testBit j = true
    · rw [if_pos ((is_transferred_eq _ j (by omega)).2 hb)]
      have hi := ih (j + 1) { s with file := file_moveby s.file (max_file_chunk_size hdr) } ps
        (by omega) h2 (by simp only [file_moveby, h3]; ring) (by rw [e1]; exact h4)
      rw [e1] at hi
      obtain ⟨i1, i2, i3, i4⟩ := hi
      refine ⟨?_, ?_, i3, i4⟩
      · rw [i1]; simp [hb, file_moveby]
      · rw [i2]; simp [hb]
    · rw [if_neg (fun h => hb ((is_transferred_eq _ j (by omega)).1 h))]
      have hc := send_chunk_ctl hdr clock s ((a + j) % 256)
      simp only [sender_ctl, Prod.mk.injEq] at hc
      obtain ⟨c1, -, -, -, c5, -, -, c8⟩ := hc
      obtain ⟨d1, -, d3⟩ := send_chunk_at hdr clock s ((a + j) % 256) h2
      have hfull : min (max_file_chunk_size hdr) (s.transfer_size - s.file.pos)
          = max_file_chunk_size hdr := by
        rw [h3]
        have e : (j + (n + 1)) * max_file_chunk_size hdr
            = j * max_file_chunk_size hdr + n * max_file_chunk_size hdr
              + max_file_chunk_size hdr := by ring
        generalize j * max_file_chunk_size hdr = q at *
        generalize n * max_file_chunk_size hdr = q2 at *
        omega
      have hfull2 : min (max_file_chunk_size hdr) (s.file.content.length - s.file.pos)
          = max_file_chunk_size hdr := by omega
      have hi := ih (j + 1) (send_chunk hdr clock s ((a + j) % 256)).1 (ps + 1)
        (by omega) (by rw [c1, c8]; exact h2)
        (by rw [d3, hfull2, h3]; ring) (by rw [e1, c1]; exact h4)
      rw [e1, c5, c8] at hi
      obtain ⟨i1, i2, i3, i4⟩ := hi
      refine ⟨?_, ?_, i3, i4⟩
      · rw [i1, d1, hfull, h3]
        simp [hb, seq_and_data]
      · rw [i2]
        simp [hb]
        omega

/-- C22. For every sender whose file is at `start_file_pos`, with
`window_size = w` and at least `w` chunks of bytes left in the transfer
(`start_seq_num` a sequence number, `w` at most `MAX_WINDOW_SIZE`, the source
holding the bytes of the transfer): `sender_send_data` sends exactly the
packets of the slots `i < w` whose bit `i` of `recvr_window` is clear, in
increasing `i`, the packet of slot `i` with the sequence number
`(start_seq_num + i) % 256` and the chunk of the source at
`start_file_pos + i * max_file_chunk_size`; `packets_sent` is the number of
these slots, `end_seq_num` is `(start_seq_num + w) % 256` and the file is
`w` chunks further. -/
theorem transmit_phase (hdr : Nat) (clock : Nat → timeval) (s : sender)
    (hP : 0 < max_file_chunk_size hdr) (hw : s.window_size ≤ MAX_WINDOW_SIZE)
    (hseq0 : 0 ≤ s.start_seq_num) (hseq : s.start_seq_num < MAX_SEQ)
    (hpos : s.file.pos = s.start_file_pos)
    (hN : s.transfer_size ≤ s.file.content.length)
    (hleft : s.window_size.toNat * max_file_chunk_size hdr ≤ get_bytes_left s) :
    (sender_send_data hdr clock s).sent.map seq_and_data = s.sent.map seq_and_data ++
        ((List.range s.window_size.toNat).filter (fun i => !s.recvr_window.testBit i)).map
          (fun (i : Nat) => ((s.start_seq_num + (i : Int)) % 256,
            (s.file.content.drop (s.start_file_pos + i * max_file_chunk_size hdr)).take
              (max_file_chunk_size hdr))) ∧
      (sender_send_data hdr clock s).packets_sent =
        (((List.range s.window_size.toNat).filter
          (fun i => !s.recvr_window.testBit i)).length : Nat) ∧
      (sender_send_data hdr clock s).end_seq_num
        = (s.start_seq_num + (s.window_size.toNat : Int)) % 256 ∧
      (sender_send_data hdr clock s).file.pos
        = s.start_file_pos + s.window_size.toNat * max_file_chunk_size hdr := by
  have hseq1 : (s.start_seq_num + 0) % 256 = s.start_seq_num := by
    unfold MAX_SEQ at hseq
    omega
  have hw64 : s.window_size.toNat ≤ 64 := by
    unfold MAX_WINDOW_SIZE at hw
    omega
  rcases Nat.eq_zero_or_pos s.window_size.toNat with h0 | h0
  · simp only [sender_send_data, h0, sender_send_data_loop, List.range_zero, List.filter_nil,
      List.map_nil, List.append_nil, List.length_nil, Nat.cast_zero, zero_mul, add_zero,
      true_and]
    unfold MAX_SEQ at hseq
    exact ⟨by omega, hpos⟩
  · have hA : s.start_file_pos + (0 + s.window_size.toNat) * max_file_chunk_size hdr
        ≤ s.transfer_size := by
      have h1 : 0 < s.window_size.toNat * max_file_chunk_size hdr := Nat.mul_pos h0 hP
      simp only [get_bytes_left, file_get_position, hpos] at hleft
      rw [Nat.zero_add]
      generalize s.window_size.toNat * max_file_chunk_size hdr = q at *
      split_ifs at hleft <;> omega
    have h := sender_send_data_loop_slots hdr clock hP s.start_seq_num s.start_file_pos
      s.window_size.toNat 0 s 0 (by omega) hN (by rw [hpos]; simp) hA
    simp only [Nat.zero_add, Nat.cast_zero, hseq1, ← List.range_eq_range', Int.zero_add] at h
    simp only [sender_send_data]
    exact h

theorem transmit_phase_witness :
    0 < max_file_chunk_size 1470 ∧ sender_three_slots.window_size ≤ MAX_WINDOW_SIZE ∧
      0 ≤ sender_three_slots.start_seq_num ∧ sender_three_slots.start_seq_num < MAX_SEQ ∧
      sender_three_slots.file.pos = sender_three_slots.start_file_pos ∧
      sender_three_slots.transfer_size ≤ sender_three_slots.file.content.length ∧
      sender_three_slots.window_size.toNat * max_file_chunk_size 1470
        ≤ get_bytes_left sender_three_slots ∧
      (sender_send_data 1470 clock_zero sender_three_slots).sent.map seq_and_data
        = [(0, [1, 2]), (2, [5, 6])] ∧
      (sender_send_data 1470 clock_zero sender_three_slots).packets_sent = 2 :=
  ⟨by decide, by decide, by decide, by decide, by decide, by decide, by decide,
    (transmit_phase 1470 clock_zero sender_three_slots (by decide) (by decide) (by decide)
      (by decide) (by decide) (by decide) (by decide)).1,
    (transmit_phase 1470 clock_zero sender_three_slots (by decide) (by decide) (by decide)
      (by decide) (by decide) (by decide) (by decide)).2.1⟩

/-! ## Sender: the acknowledgement phase, reply by reply -/

theorem sender_recv_acks_loop_some (hdr : Nat) (clock : Nat → timeval) (n : Nat) (s : sender)
    (l : recv_acks_locals) (evs : List (Option recvr_packet_header)) (h : recvr_packet_header)
    (he : evs.head?.join = some h) :
    sender_recv_acks_loop hdr clock (n + 1) s l evs
      = sender_recv_acks_loop hdr clock n (sender_recv_ack hdr clock s l h).1
          (sender_recv_ack hdr clock s l h).2 evs.tail := by
  rw [sender_recv_acks_loop]
  simp only [he, sender_udp_recv, show ¬ ((32 : Int) = -1) by decide, if_false,
    sender_recv_ack]

theorem sender_recv_acks_loop_none (hdr : Nat) (clock : Nat → timeval) (n : Nat) (s : sender)
    (l : recv_acks_locals) (evs : List (Option recvr_packet_header))
    (he : evs.head?.join = none) :
    sender_recv_acks_loop hdr clock (n + 1) s l evs
      = ({ s with bytes_recv := -1 }, { l with should_slow_start := 1 }, evs.tail) := by
  rw [sender_recv_acks_loop]
  simp only [he, sender_udp_recv, if_true]

theorem sender_recv_ack_locals (hdr : Nat) (clock : Nat → timeval) (s : sender)
    (l : recv_acks_locals) (h : recvr_packet_header) :
    (sender_recv_ack hdr clock s l h).2.dup_count
        = (if s.last_ack = h.next_seq_num then l.dup_count + 1 else 0) ∧
      (sender_recv_ack hdr clock s l h).2.should_recover_fast
        = (if s.last_ack = h.next_seq_num ∧ l.dup_count + 1 = 2 then 1
           else l.should_recover_fast) ∧
      (sender_recv_ack hdr clock s l h).2.should_slow_start = l.should_slow_start ∧
      (sender_recv_ack hdr clock s l h).2.packets_recv = l.packets_recv + 1 ∧
      (sender_recv_ack hdr clock s l h).1.last_ack = h.next_seq_num := by
  simp only [sender_recv_ack, sender_udp_recv, update_rtt, gettimeofday, update_last_ack]
  split_ifs <;> simp_all

theorem repeats_twice_of_ne (a b : Int) (m : List Int) (h : a ≠ b) :
    repeats_twice (a :: b :: m) = repeats_twice (b :: m) := by
  cases m with
  | nil => simp [repeats_twice]
  | cons c rest => simp [repeats_twice, h]

theorem repeats_twice_of_ne_snd (a b : Int) (m : List Int) (h : a ≠ b) :
    repeats_twice (a :: a :: b :: m) = repeats_twice (b :: m) := by
  rw [repeats_twice]
  simp only [h, decide_True, decide_False, Bool.and_false, Bool.false_or]
  exact repeats_twice_of_ne a b m h

theorem repeats_twice_same (a : Int) (m : List Int) :
    repeats_twice (a :: a :: a :: m) = true := by
  simp [repeats_twice]

theorem acks_taken_none (n : Nat) (evs : List (Option recvr_packet_header))
    (he : evs.head?.join = none) : acks_taken (n + 1) evs = [] := by
  rw [acks_taken]
  simp only [he]

theorem acks_taken_some (n : Nat) (evs : List (Option recvr_packet_header))
    (h : recvr_packet_header) (he : evs.head?.join = some h) :
    acks_taken (n + 1) evs = h :: acks_taken n evs.tail := by
  rw [acks_taken]
  simp only [he]

/-- Once set, `should_recover_fast` stays set to the end of the loop. -/
theorem sender_recv_acks_loop_fast_stays (hdr : Nat) (clock : Nat → timeval) (n : Nat) :
    ∀ (s : sender) (l : recv_acks_locals) (evs : List (Option recvr_packet_header)),
      l.should_recover_fast = 1 →
      (sender_recv_acks_loop hdr clock n s l evs).2.1.should_recover_fast = 1 := by
  induction n with
  | zero => intro s l evs h; simpa [sender_recv_acks_loop] using h
  | succ n ih =>
    intro s l evs h
    cases he : evs.head?.join with
    | none => rw [sender_recv_acks_loop_none hdr clock n s l evs he]; exact h
    | some a =>
      rw [sender_recv_acks_loop_some hdr clock n s l evs a he]
      apply ih
      rw [(sender_recv_ack_locals hdr clock s l a).2.1, h]
      split_ifs <;> rfl

/-- The flag `should_recover_fast` at the end of the loop of
`sender_recv_acks`, from a count of duplicates of 0 and of 1. -/
theorem sender_recv_acks_loop_fast (hdr : Nat) (clock : Nat → timeval) (n : Nat) :
    ∀ (s : sender) (l : recv_acks_locals) (evs : List (Option recvr_packet_header)),
      (l.dup_count = 0 →
        (sender_recv_acks_loop hdr clock n s l evs).2.1.should_recover_fast
          = if repeats_twice (s.last_ack :: (acks_taken n evs).map (fun h => h.next_seq_num))
              = true then 1 else l.should_recover_fast) ∧
      (l.dup_count = 1 →
        (sender_recv_acks_loop hdr clock n s l evs).2.1.should_recover_fast
          = if repeats_twice (s.last_ack :: s.last_ack ::
                (acks_taken n evs).map (fun h => h.next_seq_num)) = true then 1
            else l.should_recover_fast) := by
  induction n with
  | zero => intro s l evs; simp [sender_recv_acks_loop, acks_taken, repeats_twice]
  | succ n ih =>
    intro s l evs
    cases he : evs.head?.join with
    | none =>
      rw [sender_recv_acks_loop_none hdr clock n s l evs he, acks_taken_none n evs he]
      simp [repeats_twice]
    | some a =>
      rw [sender_recv_acks_loop_some hdr clock n s l evs a he, acks_taken_some n evs a he]
      obtain ⟨q1, q2, -, -, q5⟩ := sender_recv_ack_locals hdr clock s l a
      obtain ⟨i1, i2⟩ := ih (sender_recv_ack hdr clock s l a).1
        (sender_recv_ack hdr clock s l a).2 evs.tail
      rw [q5] at i1 i2
      simp only [List.map_cons]
      constructor
      · intro hd
        rw [hd] at q1 q2
        by_cases hs : s.last_ack = a.next_seq_num
        · rw [if_pos hs] at q1
          rw [i2 (by rw [q1]; rfl), q2, hs]
          simp
        · rw [if_neg hs] at q1
          rw [i1 q1, q2]
          simp [hs, repeats_twice_of_ne _ _ _ hs]
      · intro hd
        rw [hd] at q1 q2
        by_cases hs : s.last_ack = a.next_seq_num
        · rw [sender_recv_acks_loop_fast_stays hdr clock n _ _ _ (by rw [q2]; simp [hs])]
          simp [hs, repeats_twice_same]
        · rw [if_neg hs] at q1
          rw [i1 q1, q2]
          simp [hs, repeats_twice_of_ne_snd _ _ _ hs]

theorem sender_recv_acks_loop_recv (hdr : Nat) (clock : Nat → timeval) (n : Nat) :
    ∀ (s : sender) (l : recv_acks_locals) (evs : List (Option recvr_packet_header)),
      (sender_recv_acks_loop hdr clock n s l evs).2.1.packets_recv
        = l.packets_recv + ((acks_taken n evs).length : Nat) := by
  induction n with
  | zero => intro s l evs; simp [sender_recv_acks_loop, acks_taken]
  | succ n ih =>
    intro s l evs
    cases he : evs.head?.join with
    | none =>
      rw [sender_recv_acks_loop_none hdr clock n s l evs he, acks_taken_none n evs he]
      simp
    | some a =>
      rw [sender_recv_acks_loop_some hdr clock n s l evs a he, acks_taken_some n evs a he, ih,
        (sender_recv_ack_locals hdr clock s l a).2.2.2.1]
      simp only [List.length_cons]
      push_cast
      ring

/-- C23. For every sender and every sequence of receives, each a reply or a
timeout: `sender_recv_acks` is its loop followed by exactly one congestion
transition on the sender the loop leaves, `cc_slow_start` when one of the
receives of the loop timed out, else `cc_fast_recovery` when two replies in a
row each repeated the `last_ack` of their time, else `cc_incr`; the loop
leaves `window_size` and `optimal_window_size` alone, so both are those of
the one transition on the sender before the phase. -/
theorem adapt_phase_selection (hdr : Nat) (clock : Nat → timeval) (s : sender)
    (evs : List (Option recvr_packet_header)) :
    (sender_recv_acks hdr clock s evs).1 =
        { cc_apply
            (sender_recv_acks_loop hdr clock s.packets_sent.toNat s
              { packets_recv := 0, should_slow_start := 0, should_recover_fast := 0,
                dup_count := 0 } evs).1
            (adapt_transition s.last_ack s.packets_sent.toNat evs) with
          packets_recv := ((acks_taken s.packets_sent.toNat evs).length : Nat) } ∧
      (sender_recv_acks_loop hdr clock s.packets_sent.toNat s
          { packets_recv := 0, should_slow_start := 0, should_recover_fast := 0,
            dup_count := 0 } evs).1.window_size = s.window_size ∧
      (sender_recv_acks_loop hdr clock s.packets_sent.toNat s
          { packets_recv := 0, should_slow_start := 0, should_recover_fast := 0,
            dup_count := 0 } evs).1.optimal_window_size = s.optimal_window_size ∧
      (sender_recv_acks hdr clock s evs).1.window_size
        = (cc_apply s (adapt_transition s.last_ack s.packets_sent.toNat evs)).window_size ∧
      (sender_recv_acks hdr clock s evs).1.optimal_window_size
        = (cc_apply s
            (adapt_transition s.last_ack s.packets_sent.toNat evs)).optimal_window_size := by
  have hcc := sender_recv_acks_loop_cc hdr clock s.packets_sent.toNat s
    { packets_recv := 0, should_slow_start := 0, should_recover_fast := 0, dup_count := 0 } evs
  have hslow := sender_recv_acks_loop_flag hdr clock s.packets_sent.toNat s
    { packets_recv := 0, should_slow_start := 0, should_recover_fast := 0, dup_count := 0 } evs
  have hfast := (sender_recv_acks_loop_fast hdr clock s.packets_sent.toNat s
    { packets_recv := 0, should_slow_start := 0, should_recover_fast := 0, dup_count := 0 }
    evs).1 rfl
  have hrecv := sender_recv_acks_loop_recv hdr clock s.packets_sent.toNat s
    { packets_recv := 0, should_slow_start := 0, should_recover_fast := 0, dup_count := 0 } evs
  simp only [zero_add] at hrecv
  have main : (sender_recv_acks hdr clock s evs).1 =
      { cc_apply
          (sender_recv_acks_loop hdr clock s.packets_sent.toNat s
            { packets_recv := 0, should_slow_start := 0, should_recover_fast := 0,
              dup_count := 0 } evs).1
          (adapt_transition s.last_ack s.packets_sent.toNat evs) with
        packets_recv := ((acks_taken s.packets_sent.toNat evs).length : Nat) } := by
    unfold sender_recv_acks adapt_transition
    simp only [hslow, hfast, hrecv]
    by_cases h1 : times_out s.packets_sent.toNat evs = true
    · simp [h1, cc_apply]
    · by_cases h2 : repeats_twice (s.last_ack ::
          (acks_taken s.packets_sent.toNat evs).map (fun h => h.next_seq_num)) = true
      · simp [h1, h2, cc_apply]
      · simp [h1, h2, cc_apply]
  refine ⟨main, hcc.1, hcc.2, ?_, ?_⟩
  · rw [main]
    cases adapt_transition s.last_ack s.packets_sent.toNat evs <;>
      simp [cc_apply, cc_slow_start, cc_fast_recovery, cc_incr, hcc.1, hcc.2]
  · rw [main]
    cases adapt_transition s.last_ack s.packets_sent.toNat evs <;>
      simp [cc_apply, cc_slow_start, cc_fast_recovery, cc_incr, hcc.1, hcc.2]

/-- The adapt phase evaluated on a sender that sent three packets with
`last_ack = 1` and a window of three: two replies in a row that repeat 1 halve
the window, a receive that times out asks for the slow start, and replies
with no two duplicates in a row double the window. -/
theorem adapt_phase_examples :
    adapt_transition 1 3
        [some { next_seq_num := 1, timestamp := { tv_sec := 0, tv_usec := 0 }, window := 0 },
         some { next_seq_num := 1, timestamp := { tv_sec := 0, tv_usec := 0 }, window := 0 },
         some { next_seq_num := 2, timestamp := { tv_sec := 0, tv_usec := 0 }, window := 0 }]
        = .fast_recovery ∧
      (sender_recv_acks 1470 clock_zero
        { sender_three_slots with last_ack := 1, packets_sent := 3 }
        [some { next_seq_num := 1, timestamp := { tv_sec := 0, tv_usec := 0 }, window := 0 },
         some { next_seq_num := 1, timestamp := { tv_sec := 0, tv_usec := 0 }, window := 0 },
         some { next_seq_num := 2, timestamp := { tv_sec := 0, tv_usec := 0 },
                window := 0 }]).1.window_size = 1 ∧
      adapt_transition 1 3
        [some { next_seq_num := 1, timestamp := { tv_sec := 0, tv_usec := 0 }, window := 0 },
         some { next_seq_num := 1, timestamp := { tv_sec := 0, tv_usec := 0 }, window := 0 }]
        = .slow_start ∧
      adapt_transition 1 3
        [some { next_seq_num := 1, timestamp := { tv_sec := 0, tv_usec := 0 }, window := 0 },
         some { next_seq_num := 2, timestamp := { tv_sec := 0, tv_usec := 0 }, window := 0 },
         some { next_seq_num := 2, timestamp := { tv_sec := 0, tv_usec := 0 }, window := 0 }]
        = .incr ∧
      (sender_recv_acks 1470 clock_zero
        { sender_three_slots with last_ack := 1, packets_sent := 3 }
        [some { next_seq_num := 1, timestamp := { tv_sec := 0, tv_usec := 0 }, window := 0 },
         some { next_seq_num := 2, timestamp := { tv_sec := 0, tv_usec := 0 }, window := 0 },
         some { next_seq_num := 2, timestamp := { tv_sec := 0, tv_usec := 0 },
                window := 0 }]).1.window_size = 6 := by
  decide

theorem round_half_even_intCast (m : Int) : round_half_even (m : ℚ) = m := by
  unfold round_half_even
  simp

/-- A value `k / 2 ^ j` with `|k| < 2 ^ 24` and `j ≤ 149` is a `float`:
rounding leaves it as it is. -/
theorem to_float_exact (k : Int) (j : Nat) (hk : |k| < 2 ^ 24) (hj : j ≤ 149) :
    to_float ((k : ℚ) / 2 ^ j) = (k : ℚ) / 2 ^ j := by
  unfold to_float
  by_cases hk0 : k = 0
  · simp [hk0]
  have hx0 : (k : ℚ) / 2 ^ j ≠ 0 := by
    have : (k : ℚ) ≠ 0 := by exact_mod_cast hk0
    positivity
  rw [if_neg hx0]
  simp only
  set e : Int := max (Int.log 2 |(k : ℚ) / 2 ^ j| - 23) (-149) with he
  have hpos : 0 < |(k : ℚ) / 2 ^ j| := abs_pos.2 hx0
  have hlog : Int.log 2 |(k : ℚ) / 2 ^ j| < 24 - (j : Int) := by
    rw [← Int.lt_zpow_iff_log_lt (by norm_num) hpos]
    rw [abs_div, abs_of_pos (show (0 : ℚ) < 2 ^ j by positivity), Nat.cast_ofNat,
      zpow_sub₀ (by norm_num), zpow_natCast]
    have hk' : |(k : ℚ)| < 2 ^ (24 : Int) := by
      have : ((|k| : Int) : ℚ) < 16777216 := by exact_mod_cast hk
      rw [Int.cast_abs] at this
      norm_num
      exact this
    exact div_lt_div_of_pos_right hk' (by positivity)
  have hle : e ≤ -(j : Int) := by
    rw [he]
    apply max_le <;> omega
  obtain ⟨t, ht⟩ : ∃ t : Nat, (t : Int) = -(j : Int) - e := ⟨(-(j : Int) - e).toNat, by omega⟩
  have hdiv : (k : ℚ) / 2 ^ j / 2 ^ e = ((k * 2 ^ t : Int) : ℚ) := by
    have h2 : (2 : ℚ) ^ (t : Int) = 2 ^ (-(j : Int)) / 2 ^ e := by
      rw [ht, zpow_sub₀ (by norm_num)]
    rw [zpow_natCast] at h2
    push_cast
    rw [h2, zpow_neg, zpow_natCast]
    field_simp
  rw [hdiv, round_half_even_intCast, ← hdiv]
  field_simp
  ring

theorem to_float_dyadic (x : ℚ) (k : Int) (j : Nat) (hx : x = (k : ℚ) / 2 ^ j)
    (hk0 : -16777216 < k) (hk : k < 16777216) (hj : j ≤ 149) : to_float x = x := by
  rw [hx]
  exact to_float_exact k j (abs_lt.2 ⟨by norm_num; omega, by norm_num; omega⟩) hj

theorem to_long_div (k : Int) (d : Nat) (hk : 0 ≤ k) :
    to_long ((k : ℚ) / (d : ℚ)) = k.tdiv d := by
  have h0 : (0 : ℚ) ≤ (k : ℚ) / (d : ℚ) := by
    have : (0 : ℚ) ≤ (k : ℚ) := by exact_mod_cast hk
    positivity
  unfold to_long
  rw [if_pos h0, Rat.floor_intCast_div_natCast, Int.tdiv_eq_ediv hk (Int.ofNat_nonneg d)]

/-- While `rtt_est + 7 * rtt_sample` and `rtt_dev + 3 * diff` stay below
`2 ^ 24`, every `float` operation of the estimator is exact: the source
computes what the arithmetic on integers gives. -/
theorem update_rtt_estimate_float_exact (est dev smp : Int) (h1 : 0 ≤ est) (h2 : 0 ≤ dev)
    (h3 : 0 ≤ smp) (h4 : est + 7 * smp < 16777216) (h5 : dev + 3 * |smp - est| < 16777216) :
    update_rtt_estimate_float est dev smp = update_rtt_estimate est dev smp := by
  have hd0 : 0 ≤ |smp - est| := abs_nonneg _
  have e8 : to_float (1 / 8) = 1 / 8 := to_float_dyadic _ 1 3 (by norm_num) (by omega)
    (by omega) (by omega)
  have e4 : to_float (1 / 4) = 1 / 4 := to_float_dyadic _ 1 2 (by norm_num) (by omega)
    (by omega) (by omega)
  have e1 : to_float 1 = 1 := to_float_dyadic _ 1 0 (by norm_num) (by omega)
    (by omega) (by omega)
  have e78 : to_float (1 - 1 / 8) = 7 / 8 := by
    rw [to_float_dyadic _ 7 3 (by norm_num) (by omega) (by omega) (by omega)]
    norm_num
  have e34 : to_float (1 - 1 / 4) = 3 / 4 := by
    rw [to_float_dyadic _ 3 2 (by norm_num) (by omega) (by omega) (by omega)]
    norm_num
  have a1 : to_float (est : ℚ) = est := to_float_dyadic _ est 0 (by simp) (by omega)
    (by omega) (by omega)
  have a2 : to_float ((1 / 8 : ℚ) * est) = (1 / 8 : ℚ) * est :=
    to_float_dyadic _ est 3 (by ring) (by omega) (by omega) (by omega)
  have a3 : to_float (smp : ℚ) = smp := to_float_dyadic _ smp 0 (by simp) (by omega)
    (by omega) (by omega)
  have a4 : to_float ((7 / 8 : ℚ) * smp) = (7 / 8 : ℚ) * smp :=
    to_float_dyadic _ (7 * smp) 3 (by push_cast; ring) (by omega) (by omega) (by omega)
  have a5 : to_float ((1 / 8 : ℚ) * est + (7 / 8 : ℚ) * smp)
      = ((est + 7 * smp : Int) : ℚ) / ((8 : Nat) : ℚ) := by
    rw [to_float_dyadic _ (est + 7 * smp) 3 (by push_cast; ring) (by omega) (by omega)
      (by omega)]
    push_cast
    ring
  have b1 : to_float (dev : ℚ) = dev := to_float_dyadic _ dev 0 (by simp) (by omega)
    (by omega) (by omega)
  have b2 : to_float ((1 / 4 : ℚ) * dev) = (1 / 4 : ℚ) * dev :=
    to_float_dyadic _ dev 2 (by ring) (by omega) (by omega) (by omega)
  have b3 : to_float ((|smp - est| : Int) : ℚ) = (|smp - est| : Int) :=
    to_float_dyadic _ (|smp - est|) 0 (by simp) (by omega) (by omega) (by omega)
  have b4 : to_float ((3 / 4 : ℚ) * (|smp - est| : Int)) = (3 / 4 : ℚ) * (|smp - est| : Int) :=
    to_float_dyadic _ (3 * |smp - est|) 2 (by push_cast; ring) (by omega) (by omega) (by omega)
  have b5 : to_float ((1 / 4 : ℚ) * dev + (3 / 4 : ℚ) * (|smp - est| : Int))
      = ((dev + 3 * |smp - est| : Int) : ℚ) / ((4 : Nat) : ℚ) := by
    rw [to_float_dyadic _ (dev + 3 * |smp - est|) 2 (by push_cast; ring) (by omega) (by omega)
      (by omega)]
    push_cast
    ring
  unfold update_rtt_estimate_float update_rtt_estimate
  simp only [e8, e4, e1, e78, e34, a1, a2, a3, a4, a5, b1, b2, b3, b4, b5]
  rw [to_long_div _ _ (by omega), to_long_div _ _ (by omega)]
  rfl

/-- C25. For every sender with `rtt_est` and `rtt_dev` from 0 to 1,000,000
and every sample `smp` with `0 ≤ smp < 1,000,000` that `update_rtt`
measures: `rtt_dev` becomes `0.25 * rtt_dev + 0.75 * |smp - rtt_est|` with
the `rtt_est` from before the call, and `rtt_est` becomes
`0.125 * rtt_est + 0.875 * smp`, both as exact rationals with the fraction
dropped; the `float` operations of the source give these values, none of
them rounding. -/
theorem rtt_estimator_step (clock : Nat → timeval) (s : sender) (header : recvr_packet_header)
    (smp : Int) (h1 : 0 ≤ s.rtt_est) (h2 : s.rtt_est ≤ 1000000) (h3 : 0 ≤ s.rtt_dev)
    (h4 : s.rtt_dev ≤ 1000000) (h5 : 0 ≤ smp) (h6 : smp < 1000000)
    (hs : (timeval_subtract (clock s.ticks) header.timestamp).1.tv_usec = smp) :
    (update_rtt clock s header).rtt_dev
        = to_long ((1 / 4 : ℚ) * s.rtt_dev + (3 / 4 : ℚ) * |(smp : ℚ) - s.rtt_est|) ∧
      (update_rtt clock s header).rtt_est
        = to_long ((1 / 8 : ℚ) * s.rtt_est + (7 / 8 : ℚ) * smp) ∧
      update_rtt_estimate_float s.rtt_est s.rtt_dev smp
        = ((update_rtt clock s header).rtt_est, (update_rtt clock s header).rtt_dev) := by
  have hd : |smp - s.rtt_est| ≤ 1000000 := abs_le.2 ⟨by omega, by omega⟩
  have hd0 : 0 ≤ |smp - s.rtt_est| := abs_nonneg _
  have hf := update_rtt_estimate_float_exact s.rtt_est s.rtt_dev smp h1 h3 h5 (by omega)
    (by omega)
  have he : (update_rtt clock s header).rtt_est = (s.rtt_est + 7 * smp).tdiv 8 := by
    simp only [update_rtt, gettimeofday, hs, update_rtt_estimate]
  have hv : (update_rtt clock s header).rtt_dev = (s.rtt_dev + 3 * |smp - s.rtt_est|).tdiv 4 := by
    simp only [update_rtt, gettimeofday, hs, update_rtt_estimate]
  refine ⟨?_, ?_, ?_⟩
  · have e : (1 / 4 : ℚ) * s.rtt_dev + (3 / 4 : ℚ) * |(smp : ℚ) - s.rtt_est|
        = ((s.rtt_dev + 3 * |smp - s.rtt_est| : Int) : ℚ) / ((4 : Nat) : ℚ) := by
      push_cast
      ring
    rw [e, to_long_div _ _ (by omega), hv]
    rfl
  · have e : (1 / 8 : ℚ) * s.rtt_est + (7 / 8 : ℚ) * smp
        = ((s.rtt_est + 7 * smp : Int) : ℚ) / ((8 : Nat) : ℚ) := by
      push_cast
      ring
    rw [e, to_long_div _ _ (by omega), he]
    rfl
  · rw [hf, he, hv]
    rfl

theorem rtt_estimator_step_witness :
    0 ≤ sender_three_bytes.rtt_est ∧ sender_three_bytes.rtt_est ≤ 1000000 ∧
      0 ≤ sender_three_bytes.rtt_dev ∧ sender_three_bytes.rtt_dev ≤ 1000000 ∧
      (0 : Int) ≤ 250 ∧ (250 : Int) < 1000000 ∧
      update_rtt_estimate_float sender_three_bytes.rtt_est sender_three_bytes.rtt_dev 250
        = ((update_rtt (fun _ => { tv_sec := 5, tv_usec := 250 }) sender_three_bytes
              { next_seq_num := 1, timestamp := { tv_sec := 5, tv_usec := 0 },
                window := 0 }).rtt_est,
           (update_rtt (fun _ => { tv_sec := 5, tv_usec := 250 }) sender_three_bytes
              { next_seq_num := 1, timestamp := { tv_sec := 5, tv_usec := 0 },
                window := 0 }).rtt_dev) ∧
      (update_rtt (fun _ => { tv_sec := 5, tv_usec := 250 }) sender_three_bytes
          { next_seq_num := 1, timestamp := { tv_sec := 5, tv_usec := 0 },
            window := 0 }).rtt_est = 125218 ∧
      (update_rtt (fun _ => { tv_sec := 5, tv_usec := 250 }) sender_three_bytes
          { next_seq_num := 1, timestamp := { tv_sec := 5, tv_usec := 0 },
            window := 0 }).rtt_dev = 749862 :=
  ⟨by decide, by decide, by decide, by decide, by decide, by decide,
    (rtt_estimator_step (fun _ => { tv_sec := 5, tv_usec := 250 }) sender_three_bytes
      { next_seq_num := 1, timestamp := { tv_sec := 5, tv_usec := 0 }, window := 0 } 250
      (by decide) (by decide) (by decide) (by decide) (by decide) (by decide) rfl).2.2,
    by decide, by decide⟩

/-! ## The datagrams already sent do not steer the sender or the receiver -/

theorem sender_sent_after_nil (s : sender) : sender_sent_after [] s = s := rfl

theorem sender_sent_after_append (p q : List datagram) (s : sender) :
    sender_sent_after p (sender_sent_after q s) = sender_sent_after (p ++ q) s := by
  simp [sender_sent_after]

theorem sender_sent_after_self (s : sender) :
    sender_sent_after s.sent { s with sent := [] } = s := by
  simp [sender_sent_after]

theorem send_chunk_sent_after (hdr : Nat) (clock : Nat → timeval) (p : List datagram)
    (s : sender) (seq_num : Int) :
    send_chunk hdr clock (sender_sent_after p s) seq_num
      = (sender_sent_after p (send_chunk hdr clock s seq_num).1,
          (send_chunk hdr clock s seq_num).2) := by
  simp [send_chunk, sender_sent_after, sender_packet_header_load, gettimeofday, get_bytes_left,
    file_read, file_get_position]

theorem sender_send_data_loop_sent_after (hdr : Nat) (clock : Nat → timeval)
    (p : List datagram) (n : Nat) :
    ∀ (i : Int) (s : sender) (seq_num packets_sent : Int),
      sender_send_data_loop hdr clock n i (sender_sent_after p s) seq_num packets_sent
        = (sender_sent_after p (sender_send_data_loop hdr clock n i s seq_num packets_sent).1,
            (sender_send_data_loop hdr clock n i s seq_num packets_sent).2) := by
  induction n with
  | zero => intro i s seq_num packets_sent; rfl
  | succ n ih =>
    intro i s seq_num packets_sent
    have h1 : get_bytes_left (sender_sent_after p s) = get_bytes_left s := rfl
    have h2 : (sender_sent_after p s).recvr_window = s.recvr_window := rfl
    rw [sender_send_data_loop, sender_send_data_loop, h1, h2]
    split_ifs
    · rfl
    · exact ih (i + 1) { s with file := file_moveby s.file (max_file_chunk_size hdr) } _ _
    · rw [send_chunk_sent_after]
      exact ih _ _ _ _

theorem sender_send_data_sent_after (hdr : Nat) (clock : Nat → timeval) (p : List datagram)
    (s : sender) :
    sender_send_data hdr clock (sender_sent_after p s)
      = sender_sent_after p (sender_send_data hdr clock s) := by
  unfold sender_send_data
  simp only
  rw [show (sender_sent_after p s).window_size = s.window_size from rfl,
    show (sender_sent_after p s).start_seq_num = s.start_seq_num from rfl,
    sender_send_data_loop_sent_after]
  rfl

theorem fast_retransmit_sent_after (hdr : Nat) (clock : Nat → timeval) (p : List datagram)
    (x : sender) (g : recvr_packet_header) :
    fast_retransmit hdr clock (sender_sent_after p x) g
      = sender_sent_after p (fast_retransmit hdr clock x g) := by
  unfold fast_retransmit
  simp only
  exact congrArg Prod.fst (send_chunk_sent_after hdr clock p
    { x with
      file := file_moveto x.file
        (x.start_file_pos + (safe_subtract g.expected_seq_num x.start_seq_num).toNat
          * max_file_chunk_size hdr) } g.expected_seq_num)

theorem sender_recv_ack_sent_after (hdr : Nat) (clock : Nat → timeval) (p : List datagram)
    (s : sender) (l : recv_acks_locals) (h : recvr_packet_header) :
    sender_recv_ack hdr clock (sender_sent_after p s) l h
      = (sender_sent_after p (sender_recv_ack hdr clock s l h).1,
          (sender_recv_ack hdr clock s l h).2) := by
  have hu : sender_udp_recv (sender_sent_after p s) (some h)
      = sender_sent_after p (sender_udp_recv s (some h)) := rfl
  unfold sender_recv_ack
  simp only [hu]
  rw [show (sender_sent_after p (sender_udp_recv s (some h))).msg_recv
      = (sender_udp_recv s (some h)).msg_recv from rfl,
    show (sender_sent_after p (sender_udp_recv s (some h))).last_ack
      = (sender_udp_recv s (some h)).last_ack from rfl, fast_retransmit_sent_after]
  split_ifs <;> rfl
theorem sender_recv_acks_loop_sent_after (hdr : Nat) (clock : Nat → timeval)
    (p : List datagram) (n : Nat) :
    ∀ (s : sender) (l : recv_acks_locals) (evs : List (Option recvr_packet_header)),
      sender_recv_acks_loop hdr clock n (sender_sent_after p s) l evs
        = (sender_sent_after p (sender_recv_acks_loop hdr clock n s l evs).1,
            (sender_recv_acks_loop hdr clock n s l evs).2) := by
  induction n with
  | zero => intro s l evs; rfl
  | succ n ih =>
    intro s l evs
    cases he : evs.head?.join with
    | none =>
      rw [sender_recv_acks_loop_none hdr clock n _ l evs he,
        sender_recv_acks_loop_none hdr clock n s l evs he]
      rfl
    | some a =>
      rw [sender_recv_acks_loop_some hdr clock n _ l evs a he,
        sender_recv_acks_loop_some hdr clock n s l evs a he, sender_recv_ack_sent_after]
      exact ih _ _ _

theorem sender_recv_acks_sent_after (hdr : Nat) (clock : Nat → timeval) (p : List datagram)
    (s : sender) (evs : List (Option recvr_packet_header)) :
    sender_recv_acks hdr clock (sender_sent_after p s) evs
      = (sender_sent_after p (sender_recv_acks hdr clock s evs).1,
          (sender_recv_acks hdr clock s evs).2) := by
  unfold sender_recv_acks
  simp only
  rw [show (sender_sent_after p s).packets_sent = s.packets_sent from rfl,
    sender_recv_acks_loop_sent_after]
  split_ifs <;> rfl

theorem transfer_body_sent_after (hdr : Nat) (clock : Nat → timeval) (p : List datagram)
    (s : sender) (evs : List (Option recvr_packet_header)) :
    transfer_body hdr clock (sender_sent_after p s, evs)
      = (sender_sent_after p (transfer_body hdr clock (s, evs)).1,
          (transfer_body hdr clock (s, evs)).2) := by
  unfold transfer_body
  simp only
  rw [sender_send_data_sent_after, sender_recv_acks_sent_after]
  rfl

theorem transfer_loop_sent_after (hdr : Nat) (clock : Nat → timeval) (p : List datagram)
    (fuel : Nat) :
    ∀ (s : sender) (evs : List (Option recvr_packet_header)),
      transfer_loop hdr clock fuel (sender_sent_after p s, evs)
        = (transfer_loop hdr clock fuel (s, evs)).map
            (fun st => (sender_sent_after p st.1, st.2)) := by
  induction fuel with
  | zero =>
    intro s evs
    rw [transfer_loop, transfer_loop]
    simp only [show sender_is_complete (sender_sent_after p s) = sender_is_complete s from rfl]
    split_ifs <;> rfl
  | succ fuel ih =>
    intro s evs
    rw [transfer_loop, transfer_loop]
    simp only [show sender_is_complete (sender_sent_after p s) = sender_is_complete s from rfl]
    split_ifs
    · rfl
    · rw [transfer_body_sent_after]
      exact ih _ _

theorem sender_send_eof_sent_after (clock : Nat → timeval) (p : List datagram) (s : sender) :
    sender_send_eof clock (sender_sent_after p s)
      = sender_sent_after p (sender_send_eof clock s) := by
  simp [sender_send_eof, sender_sent_after, sender_packet_header_load, gettimeofday]

/-- The loop of `sender_recv_acks` takes as many receives as packets were
sent: with a reply for each, the receives that follow are left. -/
theorem sender_recv_acks_loop_append (hdr : Nat) (clock : Nat → timeval)
    (hs : List recvr_packet_header) :
    ∀ (s : sender) (l : recv_acks_locals) (rest : List (Option recvr_packet_header)),
      sender_recv_acks_loop hdr clock hs.length s l (hs.map some ++ rest)
        = ((sender_recv_acks_loop hdr clock hs.length s l (hs.map some)).1,
            (sender_recv_acks_loop hdr clock hs.length s l (hs.map some)).2.1, rest) := by
  induction hs with
  | nil => intro s l rest; rfl
  | cons a hs ih =>
    intro s l rest
    rw [List.length_cons,
      sender_recv_acks_loop_some hdr clock hs.length s l _ a (by simp),
      sender_recv_acks_loop_some hdr clock hs.length s l (List.map some (a :: hs)) a (by simp)]
    simp only [List.map_cons, List.cons_append, List.tail_cons]
    exact ih _ _ _

theorem sender_recv_acks_append (hdr : Nat) (clock : Nat → timeval)
    (hs : List recvr_packet_header) (s : sender)
    (rest : List (Option recvr_packet_header)) (h : s.packets_sent.toNat = hs.length) :
    sender_recv_acks hdr clock s (hs.map some ++ rest)
      = ((sender_recv_acks hdr clock s (hs.map some)).1, rest) := by
  unfold sender_recv_acks
  simp only [h]
  rw [sender_recv_acks_loop_append]
theorem recvr_sent_after_append (p q : List recvr_packet_header) (r : recvr) :
    recvr_sent_after p (recvr_sent_after q r) = recvr_sent_after (p ++ q) r := by
  simp [recvr_sent_after]

theorem recvr_sent_after_self (r : recvr) :
    recvr_sent_after r.sent { r with sent := [] } = r := by
  simp [recvr_sent_after]

theorem recvr_save_data_sent_after (hdr : Nat) (p : List recvr_packet_header) (r : recvr) :
    recvr_save_data hdr (recvr_sent_after p r) = recvr_sent_after p (recvr_save_data hdr r) := by
  unfold recvr_save_data
  simp only [show (recvr_sent_after p r).sender_header = r.sender_header from rfl,
    show (recvr_sent_after p r).next_seq_num = r.next_seq_num from rfl,
    show ∀ k, is_written (recvr_sent_after p r) k = is_written r k from fun _ => rfl]
  split_ifs <;> rfl

theorem recvr_respond_sent_after (p : List recvr_packet_header) (r : recvr) :
    recvr_respond (recvr_sent_after p r) = recvr_sent_after p (recvr_respond r) := by
  unfold recvr_respond
  simp only [show (recvr_sent_after p r).client_connected = r.client_connected from rfl]
  split_ifs <;> simp [recvr_sent_after]

theorem recvr_listen_sent_after (hdr : Nat) (p : List recvr_packet_header) (r : recvr)
    (ev : Option datagram) :
    recvr_listen hdr (recvr_sent_after p r) ev
      = (recvr_sent_after p (recvr_listen hdr r ev).1, (recvr_listen hdr r ev).2) := by
  cases ev with
  | none => rfl
  | some d =>
    unfold recvr_listen
    simp only [show is_timed_out (udp_recv hdr (recvr_sent_after p r) (some d))
        = is_timed_out (udp_recv hdr r (some d)) from rfl,
      show is_eof (parse_header (udp_recv hdr (recvr_sent_after p r) (some d)))
        = is_eof (parse_header (udp_recv hdr r (some d))) from rfl]
    split_ifs <;> rfl

theorem receive_sent_after (hdr : Nat) (p : List recvr_packet_header)
    (l : List (Option datagram)) :
    ∀ r : recvr, receive hdr (recvr_sent_after p r) l
      = (recvr_sent_after p (receive hdr r l).1, (receive hdr r l).2) := by
  induction l with
  | nil => intro r; rfl
  | cons ev l ih =>
    intro r
    rw [receive, receive, recvr_listen_sent_after]
    simp only
    split_ifs
    · rfl
    · rfl
    · rw [recvr_save_data_sent_after, recvr_respond_sent_after]
      exact ih _

/-- The loop of `receive` over two lists of receives in a row, when it is
not left within the first. -/
theorem receive_append (hdr : Nat) (l1 l2 : List (Option datagram)) :
    ∀ r : recvr, (receive hdr r l1).2 = false →
      receive hdr r (l1 ++ l2) = receive hdr (receive hdr r l1).1 l2 := by
  induction l1 with
  | nil => intro r _; rfl
  | cons ev l1 ih =>
    intro r h
    rw [List.cons_append, receive, receive]
    rw [receive] at h
    simp only at h ⊢
    split_ifs at h ⊢ with h1 h2
    exact ih _ h
/-! ## The lossless channel and the functions `transfer` and `receive` -/

theorem burst_acks_length (clock : Nat → timeval) (m : Nat) :
    ∀ (t tick : Nat), (burst_acks clock m t tick).length = m := by
  induction m with
  | zero => intro t tick; rfl
  | succ m ih => intro t tick; simp [burst_acks, ih]

theorem sender_slide_sent_after (hdr : Nat) (p : List datagram) (s : sender) :
    sender_reset hdr (sender_set_timeout (sender_sent_after p s))
      = sender_sent_after p (sender_reset hdr (sender_set_timeout s)) := rfl

/-- One burst over the lossless channel is one turn of the loop of
`transfer` on the replies of the receiver, and the loop of `receive` on the
packets of the burst. -/
theorem lossless_burst_link (hdr N : Nat) (clock : Nat → timeval) (content : List byte)
    (hP : 0 < max_file_chunk_size hdr) (hN : N ≤ content.length) (c : Nat) (st : lossless)
    (h : lossless_inv hdr N content c st)
    (hc : c < chunk_count (max_file_chunk_size hdr) N) :
    (sender_send_data hdr clock st.s).sent =
        burst_packets clock (max_file_chunk_size hdr) N content
          (min st.s.window_size.toNat (chunk_count (max_file_chunk_size hdr) N - c)) c
          st.s.ticks ∧
      (∀ rest : List (Option recvr_packet_header),
        transfer_body hdr clock (st.s,
            (burst_acks clock
              (min st.s.window_size.toNat (chunk_count (max_file_chunk_size hdr) N - c)) c
              st.s.ticks).map some ++ rest)
          = (sender_sent_after (sender_send_data hdr clock st.s).sent
              (lossless_burst hdr clock st).s, rest)) ∧
      receive hdr st.r ((sender_send_data hdr clock st.s).sent.map some)
        = (recvr_sent_after
            (burst_acks clock
              (min st.s.window_size.toNat (chunk_count (max_file_chunk_size hdr) N - c)) c
              st.s.ticks)
            (lossless_burst hdr clock st).r, false) := by
  obtain ⟨hcc1, hcc2, hcc3, hcc4⟩ := h.s_cc
  unfold MAX_WINDOW_SIZE at hcc2
  set m := min st.s.window_size.toNat (chunk_count (max_file_chunk_size hdr) N - c) with hm
  have hm1 : 0 < m := by omega
  have hmK : c + m ≤ chunk_count (max_file_chunk_size hdr) N := by omega
  obtain ⟨a1, a2, a3⟩ := sender_send_data_lossless hdr N clock content hP hN c st.s
    h.s_content h.s_size h.s_window h.s_pos h.s_start_seq
  rw [← hm, h.s_sent, List.nil_append] at a1
  rw [← hm] at a2
  simp only [sender_ctl, Prod.mk.injEq] at a3
  obtain ⟨b1, b2, b3, b4, b5, b6, b7, b8⟩ := a3
  set s1 := sender_send_data hdr clock st.s with hs1
  have hr := receive_lossless hdr N clock content hP hN m c st.s.ticks st.r hmK
    h.r_next h.r_window h.r_pos h.r_content
  rw [h.r_sent, List.nil_append, ← a1] at hr
  obtain ⟨r1, r2, r3, r4, r5, r6⟩ := hr
  have hd : lossless_deliver hdr s1 st.r st.r_done = receive hdr st.r (s1.sent.map some) := by
    simp [lossless_deliver, h.r_done]
  have hcc : cc_bounds { s1 with sent := [] } := by
    unfold cc_bounds
    simp only [b6, b7]
    exact h.s_cc
  obtain ⟨e1, -, -, -, -, -, -, -, -⟩ := sender_recv_acks_lossless hdr clock m c
    st.s.ticks { s1 with sent := [] } a2 (by simp only [b4]; exact h.s_last_ack)
    (by simp only [b5]; exact h.s_window) hm1 hcc
  rw [← r6] at e1
  have hburst : lossless_burst hdr clock st =
      { s := sender_reset hdr (sender_set_timeout
          (sender_recv_acks hdr clock { s1 with sent := [] }
            ((receive hdr st.r (s1.sent.map some)).1.sent.map some)).1)
        r := { (receive hdr st.r (s1.sent.map some)).1 with sent := [] }
        r_done := (receive hdr st.r (s1.sent.map some)).2 } := by
    unfold lossless_burst
    simp only [← hs1, hd, e1, List.filterMap_nil]
  refine ⟨a1, ?_, ?_⟩
  · intro rest
    have hlen : s1.packets_sent.toNat = (burst_acks clock m c st.s.ticks).length := by
      rw [a2, burst_acks_length]
      simp
    rw [hburst]
    simp only
    unfold transfer_body
    simp only [← hs1]
    rw [sender_recv_acks_append hdr clock _ s1 rest hlen]
    simp only
    conv_lhs => rw [← sender_sent_after_self s1]
    rw [sender_recv_acks_sent_after, sender_slide_sent_after, r6]
  · rw [hburst]
    simp only
    rw [← r6, recvr_sent_after_self]
    exact Prod.ext rfl r1

/-- The loop of bursts over the lossless channel is the loop of `transfer`
on the replies of the receiver, and the loop of `receive` on the packets of
the sender: with fuel for the chunks that remain there are replies `acks`
that the sender takes, one for each packet, and that the receiver sends. -/
theorem lossless_loop_link (hdr N : Nat) (clock : Nat → timeval) (content : List byte)
    (hP : 0 < max_file_chunk_size hdr) (hN : N ≤ content.length) (fuel : Nat) :
    ∀ (c : Nat) (st : lossless), lossless_inv hdr N content c st →
      c ≤ chunk_count (max_file_chunk_size hdr) N →
      chunk_count (max_file_chunk_size hdr) N - c ≤ fuel →
      ∃ (st2 : lossless) (acks : List recvr_packet_header),
        lossless_loop hdr clock fuel st = some st2 ∧
        lossless_inv hdr N content (chunk_count (max_file_chunk_size hdr) N) st2 ∧
        acks.length + c = chunk_count (max_file_chunk_size hdr) N ∧
        (∀ rest : List (Option recvr_packet_header),
          transfer_loop hdr clock fuel (st.s, acks.map some ++ rest)
            = some (sender_sent_after (lossless_loop_sent hdr clock fuel st) st2.s, rest)) ∧
        (∀ l2 : List (Option datagram),
          receive hdr st.r ((lossless_loop_sent hdr clock fuel st).map some ++ l2)
            = receive hdr (recvr_sent_after acks st2.r) l2) := by
  induction fuel with
  | zero =>
    intro c st h hc hf
    have hcK : c = chunk_count (max_file_chunk_size hdr) N := by omega
    have hdone := (sender_is_complete_iff hdr N content c st hP h).2 (by omega)
    refine ⟨st, [], ?_, hcK ▸ h, by simp [hcK], ?_, ?_⟩
    · simp [lossless_loop, hdone]
    · intro rest
      simp [transfer_loop, hdone, lossless_loop_sent, sender_sent_after]
    · intro l2
      simp [lossless_loop_sent, recvr_sent_after]
  | succ fuel ih =>
    intro c st h hc hf
    by_cases hlt : c < chunk_count (max_file_chunk_size hdr) N
    · have hnd : ¬ sender_is_complete st.s = true := by
        rw [sender_is_complete_iff hdr N content c st hP h]
        exact fun hn => hn hlt
      obtain ⟨x1, -, x3, x4, -⟩ := lossless_burst_exact hdr N clock content hP hN c st h hlt
      obtain ⟨y1, y2, y3⟩ := lossless_burst_link hdr N clock content hP hN c st h hlt
      obtain ⟨st2, acks, i1, i2, i0, i3, i4⟩ := ih _ (lossless_burst hdr clock st) x1 x4 (by omega)
      refine ⟨st2, burst_acks clock
        (min st.s.window_size.toNat (chunk_count (max_file_chunk_size hdr) N - c)) c st.s.ticks
        ++ acks, ?_, i2, ?_, ?_, ?_⟩
      · rw [lossless_loop, if_neg hnd]
        exact i1
      · rw [List.length_append, burst_acks_length]
        omega
      · intro rest
        rw [transfer_loop, lossless_loop_sent]
        simp only [hnd, Bool.false_eq_true, if_false, List.map_append, List.append_assoc]
        rw [y2, transfer_loop_sent_after, i3]
        simp only [Option.map_some', sender_sent_after_append]
      · intro l2
        rw [lossless_loop_sent]
        simp only [hnd, Bool.false_eq_true, if_false, List.map_append, List.append_assoc]
        rw [receive_append hdr ((sender_send_data hdr clock st.s).sent.map some) _ st.r
          (by rw [y3]), y3]
        simp only
        rw [receive_sent_after, i4, ← receive_sent_after, recvr_sent_after_append]
    · have hcK : c = chunk_count (max_file_chunk_size hdr) N := by omega
      have hdone := (sender_is_complete_iff hdr N content c st hP h).2 hlt
      refine ⟨st, [], ?_, hcK ▸ h, by simp [hcK], ?_, ?_⟩
      · simp [lossless_loop, hdone]
      · intro rest
        simp [transfer_loop, hdone, lossless_loop_sent, sender_sent_after]
      · intro l2
        simp [lossless_loop_sent, hdone, recvr_sent_after]

/-- The run over the lossless channel is a run of `transfer` and a run of
`receive`: there are replies `acks` such that `transfer` on them ends with
the sender `s`, `receive` on the datagrams that `s` has sent ends with the
receiver `r`, the replies that `r` has sent are `acks`, and the output file
holds the first `N` bytes of the source. -/
theorem lossless_transfer_link (hdr N : Nat) (clock : Nat → timeval) (content : List byte)
    (buf : List byte) (ack0 : recvr_packet_header) (tv0 : timeval) (rbuf : datagram)
    (h0 : sender_packet_header) (fuel : Nat)
    (hP : 0 < max_file_chunk_size hdr) (hN : N ≤ content.length)
    (hfuel : chunk_count (max_file_chunk_size hdr) N ≤ fuel) :
    ∃ (acks : List recvr_packet_header) (s : sender) (r : recvr),
      transfer hdr clock fuel (sender_create (file_create content) N buf ack0 tv0)
          (acks.map some) = some s ∧
      receive hdr (recvr_create rbuf h0) (s.sent.map some) = (r, true) ∧
      r.sent = acks ∧
      acks.length = chunk_count (max_file_chunk_size hdr) N ∧
      s.sent = lossless_transfer_sent hdr clock fuel
          (sender_create (file_create content) N buf ack0 tv0) (recvr_create rbuf h0) ∧
      lossless_transfer hdr clock fuel (sender_create (file_create content) N buf ack0 tv0)
          (recvr_create rbuf h0)
        = some { s := { s with sent := [] }, r := { r with sent := [] }, r_done := true } ∧
      r.fwriter.content = content.take N ∧
      r.fwriter.content.length = N := by
  obtain ⟨st2, acks, i1, i2, i0, i3, i4⟩ := lossless_loop_link hdr N clock content hP hN fuel 0 _
    (lossless_inv_initial hdr N content buf ack0 tv0 rbuf h0) (Nat.zero_le _) (by omega)
  have hfull : ¬ chunk_count (max_file_chunk_size hdr) N * max_file_chunk_size hdr < N :=
    fun hlt => Nat.lt_irrefl _ ((lt_chunk_count _ N _ hP).2 hlt)
  have i3 := i3 []
  rw [List.append_nil] at i3
  simp only at i3 i4
  have hsent : (sender_send_eof clock st2.s).sent
      = [{ header := { seq_num := EOF_SEQ_NUM, timestamp := clock st2.s.ticks }, data := [] },
         { header := { seq_num := EOF_SEQ_NUM, timestamp := clock st2.s.ticks }, data := [] },
         { header := { seq_num := EOF_SEQ_NUM, timestamp := clock st2.s.ticks }, data := [] },
         { header := { seq_num := EOF_SEQ_NUM, timestamp := clock st2.s.ticks }, data := [] }] := by
    simp [sender_send_eof, sender_packet_header_load, gettimeofday, i2.s_sent]
  have hrecv : receive hdr st2.r ((sender_send_eof clock st2.s).sent.map some) =
      ({ st2.r with
          msg_recv := { header := { seq_num := EOF_SEQ_NUM, timestamp := clock st2.s.ticks },
                        data := [] }
          bytes_recv := (hdr : Int) + (0 : Nat)
          sender_header := { seq_num := EOF_SEQ_NUM, timestamp := clock st2.s.ticks } }, true) := by
    rw [hsent]
    simp [receive, recvr_listen, udp_recv, is_timed_out, parse_header, is_eof,
      TIMED_OUT, TRANSFER_COMPLETE]
  refine ⟨acks, sender_sent_after (lossless_loop_sent hdr clock fuel
      { s := sender_set_timeout (sender_create (file_create content) N buf ack0 tv0)
        r := recvr_create rbuf h0, r_done := false }) (sender_send_eof clock st2.s),
    recvr_sent_after acks
      { st2.r with
        msg_recv := { header := { seq_num := EOF_SEQ_NUM, timestamp := clock st2.s.ticks },
                      data := [] }
        bytes_recv := (hdr : Int) + (0 : Nat)
        sender_header := { seq_num := EOF_SEQ_NUM, timestamp := clock st2.s.ticks } },
    ?_, ?_, ?_, by omega, ?_, ?_, ?_, ?_⟩
  · rw [transfer, i3]
    simp only [sender_send_eof_sent_after]
  · show receive hdr (recvr_create rbuf h0) (List.map some (_ ++ (sender_send_eof clock st2.s).sent))
      = _
    rw [List.map_append, i4, receive_sent_after, hrecv]
  · simp [recvr_sent_after, i2.r_sent]
  · rw [lossless_transfer_sent, i1]
    rfl
  · rw [lossless_transfer, i1]
    simp only [lossless_deliver, i2.r_done, Bool.false_eq_true, if_false, hrecv]
    simp [sender_sent_after, recvr_sent_after, i2.r_sent]
  · simp only [recvr_sent_after, i2.r_content]
    congr 1
    omega
  · simp only [recvr_sent_after, i2.r_content, List.length_take]
    omega

/-- C1. Over a channel that delivers every datagram once, in order and
before any timeout, for every transfer size `N` and every source of at
least `N` bytes: `transfer` ends (within `N` bursts) on the replies `acks`,
`receive` ends on the datagrams that the sender has sent, the replies that
the receiver has sent are `acks`, one for each data packet, and the
output file then holds exactly the first `N` bytes of the source. The run
is the one of `lossless_transfer`, where the two programs take turns. -/
theorem lossless_delivery (hdr N : Nat) (clock : Nat → timeval) (content : List byte)
    (buf : List byte) (ack0 : recvr_packet_header) (tv0 : timeval) (rbuf : datagram)
    (h0 : sender_packet_header) (fuel : Nat)
    (hhdr : hdr < MAX_PACKET_SIZE) (hN : N ≤ content.length) (hfuel : N ≤ fuel) :
    ∃ (acks : List recvr_packet_header) (s : sender) (r : recvr),
      transfer hdr clock fuel (sender_create (file_create content) N buf ack0 tv0)
          (acks.map some) = some s ∧
      receive hdr (recvr_create rbuf h0) (s.sent.map some) = (r, true) ∧
      r.sent = acks ∧
      acks.length = data_packet_count s.sent ∧
      lossless_transfer hdr clock fuel (sender_create (file_create content) N buf ack0 tv0)
          (recvr_create rbuf h0)
        = some { s := { s with sent := [] }, r := { r with sent := [] }, r_done := true } ∧
      r.fwriter.content = content.take N ∧
      r.fwriter.content.length = N := by
  have hP : 0 < max_file_chunk_size hdr := by
    unfold max_file_chunk_size; omega
  have hK := chunk_count_le (max_file_chunk_size hdr) N hP
  obtain ⟨acks, s, r, a1, a2, a3, a4, a5, a6, a7, a8⟩ :=
    lossless_transfer_link hdr N clock content buf ack0 tv0 rbuf h0 fuel hP hN (by omega)
  refine ⟨acks, s, r, a1, a2, a3, ?_, a6, a7, a8⟩
  rw [a4, a5, lossless_data_packet_count hdr N clock content buf ack0 tv0 rbuf h0 fuel hP hN
    (by omega)]

theorem lossless_delivery_witness :
    24 < MAX_PACKET_SIZE ∧ 3 ≤ ([1, 2, 3, 4] : List byte).length ∧ 3 ≤ 3 ∧
      ∃ (acks : List recvr_packet_header) (s : sender) (r : recvr),
        transfer 24 (fun n => { tv_sec := 0, tv_usec := n }) 3
            (sender_create (file_create [1, 2, 3, 4]) 3 [] sender_initial.msg_recv
              sender_initial.timeout) (acks.map some) = some s ∧
        receive 24 (recvr_create (packet 0 []) (packet 0 []).header) (s.sent.map some)
          = (r, true) ∧
        r.sent = acks ∧
        acks.length = data_packet_count s.sent ∧
        lossless_transfer 24 (fun n => { tv_sec := 0, tv_usec := n }) 3
            (sender_create (file_create [1, 2, 3, 4]) 3 [] sender_initial.msg_recv
              sender_initial.timeout)
            (recvr_create (packet 0 []) (packet 0 []).header)
          = some { s := { s with sent := [] }, r := { r with sent := [] }, r_done := true } ∧
        r.fwriter.content = ([1, 2, 3, 4] : List byte).take 3 ∧
        r.fwriter.content.length = 3 :=
  ⟨by decide, by decide, by decide,
    lossless_delivery 24 3 (fun n => { tv_sec := 0, tv_usec := n }) [1, 2, 3, 4] []
      sender_initial.msg_recv sender_initial.timeout (packet 0 []) (packet 0 []).header 3
      (by decide) (by decide) (by decide)⟩

/-- C19, as the claim states it, fails for a source of 3000 zero bytes and
a header of 24 bytes. On the replies 1, 2, 3, `transfer` sends the data
packets 0, 1 and 2, of 1448, 1448 and 104 bytes, then four end-of-file
packets: three data packets, not two; and `receive` on these datagrams sends
exactly the replies 1, 2, 3 and ends, so that the run is the one over the
lossless channel. -/
theorem scenario_three_packets_not_two :
    (transfer 24 clock_zero 3
        (sender_create (file_create three_thousand_bytes) 3000 [] sender_initial.msg_recv
          sender_initial.timeout)
        [some { next_seq_num := 1, timestamp := { tv_sec := 0, tv_usec := 0 }, window := 0 },
         some { next_seq_num := 2, timestamp := { tv_sec := 0, tv_usec := 0 }, window := 0 },
         some { next_seq_num := 3, timestamp := { tv_sec := 0, tv_usec := 0 },
                window := 0 }]).map
        (fun s => s.sent.map (fun p => (p.header.seq_num, p.data.length)))
        = some [(0, 1448), (1, 1448), (2, 104), (-5, 0), (-5, 0), (-5, 0), (-5, 0)] ∧
      (transfer 24 clock_zero 3
        (sender_create (file_create three_thousand_bytes) 3000 [] sender_initial.msg_recv
          sender_initial.timeout)
        [some { next_seq_num := 1, timestamp := { tv_sec := 0, tv_usec := 0 }, window := 0 },
         some { next_seq_num := 2, timestamp := { tv_sec := 0, tv_usec := 0 }, window := 0 },
         some { next_seq_num := 3, timestamp := { tv_sec := 0, tv_usec := 0 },
                window := 0 }]).map
        (fun s => ((receive 24 recvr_initial (s.sent.map some)).1.sent,
          (receive 24 recvr_initial (s.sent.map some)).2))
        = some (
          [{ next_seq_num := 1, timestamp := { tv_sec := 0, tv_usec := 0 }, window := 0 },
           { next_seq_num := 2, timestamp := { tv_sec := 0, tv_usec := 0 }, window := 0 },
           { next_seq_num := 3, timestamp := { tv_sec := 0, tv_usec := 0 }, window := 0 }],
          true) ∧
      (transfer 24 clock_zero 3
        (sender_create (file_create three_thousand_bytes) 3000 [] sender_initial.msg_recv
          sender_initial.timeout)
        [some { next_seq_num := 1, timestamp := { tv_sec := 0, tv_usec := 0 }, window := 0 },
         some { next_seq_num := 2, timestamp := { tv_sec := 0, tv_usec := 0 }, window := 0 },
         some { next_seq_num := 3, timestamp := { tv_sec := 0, tv_usec := 0 },
                window := 0 }]).map (fun s => data_packet_count s.sent) = some 3 ∧
      ¬ ((transfer 24 clock_zero 3
        (sender_create (file_create three_thousand_bytes) 3000 [] sender_initial.msg_recv
          sender_initial.timeout)
        [some { next_seq_num := 1, timestamp := { tv_sec := 0, tv_usec := 0 }, window := 0 },
         some { next_seq_num := 2, timestamp := { tv_sec := 0, tv_usec := 0 }, window := 0 },
         some { next_seq_num := 3, timestamp := { tv_sec := 0, tv_usec := 0 },
                window := 0 }]).map (fun s => data_packet_count s.sent) = some 2) := by
  refine ⟨by decide, by decide, by decide, by decide⟩

/-- C19, amended. Transferring 3000 bytes of a source of at least 3000
bytes over the lossless channel, for every header size up to 472 bytes (a
chunk of 1000 to 1472 bytes): `transfer` ends on the replies `acks`,
`receive` ends on the datagrams that the sender has sent and the replies it
has sent are `acks`; the sender has sent exactly three data packets, with
sequence numbers 0, 1, 2 and the three chunks of the source, followed by
four end-of-file packets, and the output file holds exactly the 3000
bytes. -/
theorem scenario_three_thousand (hdr : Nat) (clock : Nat → timeval) (content : List byte)
    (buf : List byte) (ack0 : recvr_packet_header) (tv0 : timeval) (rbuf : datagram)
    (h0 : sender_packet_header) (fuel : Nat)
    (hhdr : hdr ≤ 472) (hN : 3000 ≤ content.length) (hfuel : 3 ≤ fuel) :
    ∃ (acks : List recvr_packet_header) (s : sender) (r : recvr),
      transfer hdr clock fuel (sender_create (file_create content) 3000 buf ack0 tv0)
          (acks.map some) = some s ∧
      receive hdr (recvr_create rbuf h0) (s.sent.map some) = (r, true) ∧
      r.sent = acks ∧
      s.sent.map seq_and_data =
        [(0, chunk (max_file_chunk_size hdr) 3000 content 0),
         (1, chunk (max_file_chunk_size hdr) 3000 content 1),
         (2, chunk (max_file_chunk_size hdr) 3000 content 2),
         (EOF_SEQ_NUM, []), (EOF_SEQ_NUM, []), (EOF_SEQ_NUM, []), (EOF_SEQ_NUM, [])] ∧
      data_packet_count s.sent = 3 ∧
      acks.length = 3 ∧
      r.fwriter.content = content.take 3000 ∧
      r.fwriter.content.length = 3000 := by
  have hP1 : 1000 ≤ max_file_chunk_size hdr := by
    unfold max_file_chunk_size MAX_PACKET_SIZE; omega
  have hP2 : max_file_chunk_size hdr ≤ 1499 := by
    unfold max_file_chunk_size MAX_PACKET_SIZE; omega
  have hK := chunk_count_three_thousand (max_file_chunk_size hdr) hP1 hP2
  have hP : 0 < max_file_chunk_size hdr := by omega
  obtain ⟨acks, s, r, a1, a2, a3, a4, a5, -, a7, a8⟩ :=
    lossless_transfer_link hdr 3000 clock content buf ack0 tv0 rbuf h0 fuel hP hN (by omega)
  refine ⟨acks, s, r, a1, a2, a3, ?_, ?_, by omega, a7, a8⟩
  · rw [a5, lossless_transfer_sent_view hdr 3000 clock content buf ack0 tv0 rbuf h0 fuel hP hN
      (by omega), hK]
    rfl
  · rw [a5, lossless_data_packet_count hdr 3000 clock content buf ack0 tv0 rbuf h0 fuel hP hN
      (by omega), hK]

theorem scenario_three_thousand_witness :
    24 ≤ 472 ∧ 3000 ≤ three_thousand_bytes.length ∧ 3 ≤ 3 ∧
      ∃ (acks : List recvr_packet_header) (s : sender) (r : recvr),
        transfer 24 clock_zero 3
            (sender_create (file_create three_thousand_bytes) 3000 [] sender_initial.msg_recv
              sender_initial.timeout) (acks.map some) = some s ∧
        receive 24 (recvr_create (packet 0 []) (packet 0 []).header) (s.sent.map some)
          = (r, true) ∧
        r.sent = acks ∧
        s.sent.map seq_and_data =
          [(0, chunk (max_file_chunk_size 24) 3000 three_thousand_bytes 0),
           (1, chunk (max_file_chunk_size 24) 3000 three_thousand_bytes 1),
           (2, chunk (max_file_chunk_size 24) 3000 three_thousand_bytes 2),
           (EOF_SEQ_NUM, []), (EOF_SEQ_NUM, []), (EOF_SEQ_NUM, []), (EOF_SEQ_NUM, [])] ∧
        data_packet_count s.sent = 3 ∧
        acks.length = 3 ∧
        r.fwriter.content = three_thousand_bytes.take 3000 ∧
        r.fwriter.content.length = 3000 :=
  ⟨by decide, three_thousand_bytes_length, by decide,
    scenario_three_thousand 24 clock_zero three_thousand_bytes [] sender_initial.msg_recv
      sender_initial.timeout (packet 0 []) (packet 0 []).header 3 (by decide)
      three_thousand_bytes_length (by decide)⟩

/-! ## Sender: the estimate after a failed burst -/

/-- One turn of the loop of `sender_recv_acks` on a reply changes the
estimate and the deviation by `update_rtt` alone: a retransmission before
it only moves the clock on. -/
theorem sender_recv_ack_rtt (hdr : Nat) (clock : Nat → timeval) (s : sender)
    (l : recv_acks_locals) (g : recvr_packet_header) :
    ((sender_recv_ack hdr clock s l g).1.rtt_est, (sender_recv_ack hdr clock s l g).1.rtt_dev)
      = update_rtt_estimate s.rtt_est s.rtt_dev
          (timeval_subtract
            (clock (if s.last_ack = g.next_seq_num ∧ l.dup_count = 1 then s.ticks + 1
              else s.ticks)) g.timestamp).1.tv_usec := by
  have hr := send_chunk_rtt hdr clock
  have ht : ∀ (x : sender) (q : Int), (send_chunk hdr clock x q).1.ticks = x.ticks + 1 := by
    intro x q
    simp [send_chunk, sender_packet_header_load, gettimeofday, file_read]
  simp only [sender_recv_ack, sender_udp_recv, update_rtt, gettimeofday, update_last_ack,
    fast_retransmit]
  by_cases h1 : s.last_ack = g.next_seq_num
  · by_cases h2 : l.dup_count = 1
    · simp only [h1, h2, show (1 : Int) + 1 = 2 by decide, if_true, and_self, (hr _ _).1,
        (hr _ _).2, ht]
    · have h3 : ¬ (l.dup_count + 1 = 2) := by omega
      simp only [h1, h2, h3, if_true, if_false, and_false]
  · simp only [h1, if_false, false_and]

/-- The adapt phase of a burst one of whose receives times out is
`cc_slow_start` and nothing else. -/
theorem sender_recv_acks_failed (hdr : Nat) (clock : Nat → timeval) (s : sender)
    (evs : List (Option recvr_packet_header))
    (h : times_out s.packets_sent.toNat evs = true) :
    (sender_recv_acks hdr clock s evs).1 =
      { cc_slow_start
          (sender_recv_acks_loop hdr clock s.packets_sent.toNat s
            { packets_recv := 0, should_slow_start := 0, should_recover_fast := 0,
              dup_count := 0 } evs).1 with
        packets_recv :=
          (sender_recv_acks_loop hdr clock s.packets_sent.toNat s
            { packets_recv := 0, should_slow_start := 0, should_recover_fast := 0,
              dup_count := 0 } evs).2.1.packets_recv } := by
  have hf := sender_recv_acks_loop_flag hdr clock s.packets_sent.toNat s
    { packets_recv := 0, should_slow_start := 0, should_recover_fast := 0, dup_count := 0 } evs
  rw [if_pos h] at hf
  unfold sender_recv_acks
  simp only [hf, ne_eq, one_ne_zero, not_false_eq_true, if_true]

/-- C20, amended. The function `increase_rtt_timeout` doubles `rtt_est` and
ends the program if and only if the doubled value exceeds 10,000,000
microseconds, but the sender does not call it. For every burst of
`transfer` one of whose receives in the acknowledgement phase times out: the
adapt phase is `cc_slow_start` and nothing else, so `window_size` is 1 after
the burst; `rtt_est` and `rtt_dev` after the burst are those the loop over
the replies left, which every reply taken changes through the estimator of
`update_rtt` alone (a turn of the loop on a reply is `sender_recv_ack`) and
which are those from before the burst when the first receive timed out; and
the loop of `transfer` goes on with the sender the burst leaves. -/
theorem rtt_hard_cap (hdr : Nat) (clock : Nat → timeval) (s : sender)
    (evs : List (Option recvr_packet_header)) (fuel : Nat) (x : sender)
    (l : recv_acks_locals) (g : recvr_packet_header) (n : Nat)
    (evs2 : List (Option recvr_packet_header))
    (h : times_out (sender_send_data hdr clock s).packets_sent.toNat evs = true)
    (hc : sender_is_complete s = false) :
    (increase_rtt_timeout x = none ↔ x.rtt_est * 2 > 10000000) ∧
      (¬ x.rtt_est * 2 > 10000000 →
        increase_rtt_timeout x = some { x with rtt_est := x.rtt_est * 2 }) ∧
      (sender_recv_acks hdr clock (sender_send_data hdr clock s) evs).1 =
        { cc_slow_start
            (sender_recv_acks_loop hdr clock (sender_send_data hdr clock s).packets_sent.toNat
              (sender_send_data hdr clock s)
              { packets_recv := 0, should_slow_start := 0, should_recover_fast := 0,
                dup_count := 0 } evs).1 with
          packets_recv :=
            (sender_recv_acks_loop hdr clock (sender_send_data hdr clock s).packets_sent.toNat
              (sender_send_data hdr clock s)
              { packets_recv := 0, should_slow_start := 0, should_recover_fast := 0,
                dup_count := 0 } evs).2.1.packets_recv } ∧
      (transfer_body hdr clock (s, evs)).1.window_size = 1 ∧
      (transfer_body hdr clock (s, evs)).1.rtt_est =
        (sender_recv_acks_loop hdr clock (sender_send_data hdr clock s).packets_sent.toNat
          (sender_send_data hdr clock s)
          { packets_recv := 0, should_slow_start := 0, should_recover_fast := 0,
            dup_count := 0 } evs).1.rtt_est ∧
      (transfer_body hdr clock (s, evs)).1.rtt_dev =
        (sender_recv_acks_loop hdr clock (sender_send_data hdr clock s).packets_sent.toNat
          (sender_send_data hdr clock s)
          { packets_recv := 0, should_slow_start := 0, should_recover_fast := 0,
            dup_count := 0 } evs).1.rtt_dev ∧
      (evs2.head?.join = some g →
        sender_recv_acks_loop hdr clock (n + 1) x l evs2
          = sender_recv_acks_loop hdr clock n (sender_recv_ack hdr clock x l g).1
              (sender_recv_ack hdr clock x l g).2 evs2.tail) ∧
      ((sender_recv_ack hdr clock x l g).1.rtt_est, (sender_recv_ack hdr clock x l g).1.rtt_dev)
        = update_rtt_estimate x.rtt_est x.rtt_dev
            (timeval_subtract
              (clock (if x.last_ack = g.next_seq_num ∧ l.dup_count = 1 then x.ticks + 1
                else x.ticks)) g.timestamp).1.tv_usec ∧
      (evs.head?.join = none →
        (transfer_body hdr clock (s, evs)).1.rtt_est = s.rtt_est ∧
          (transfer_body hdr clock (s, evs)).1.rtt_dev = s.rtt_dev) ∧
      transfer_loop hdr clock (fuel + 1) (s, evs)
        = transfer_loop hdr clock fuel (transfer_body hdr clock (s, evs)) := by
  have hf := sender_recv_acks_failed hdr clock (sender_send_data hdr clock s) evs h
  have hb : (transfer_body hdr clock (s, evs)).1
      = sender_reset hdr (sender_set_timeout
          (sender_recv_acks hdr clock (sender_send_data hdr clock s) evs).1) := rfl
  refine ⟨?_, ?_, hf, ?_, ?_, ?_, sender_recv_acks_loop_some hdr clock n x l evs2 g,
    sender_recv_ack_rtt hdr clock x l g,
    fun he => transfer_body_rtt hdr clock (s, evs) he, ?_⟩
  · unfold increase_rtt_timeout MAX_TIMEOUT
    simp only [show (10 * 1000 * 1000 : Int) = 10000000 by norm_num]
    split_ifs with h1
    · exact ⟨fun _ => h1, fun _ => rfl⟩
    · exact ⟨fun h2 => absurd h2 (by simp), fun h2 => absurd h2 h1⟩
  · intro h1
    unfold increase_rtt_timeout MAX_TIMEOUT
    simp only [show (10 * 1000 * 1000 : Int) = 10000000 by norm_num]
    rw [if_neg h1]
  · rw [hb, hf]
    rfl
  · rw [hb, hf]
    rfl
  · rw [hb, hf]
    rfl
  · rw [transfer_loop, hc]
    rfl

theorem rtt_hard_cap_witness :
    times_out (sender_send_data 1470 (fun _ => { tv_sec := 5, tv_usec := 250 })
          sender_three_slots).packets_sent.toNat
        [some { next_seq_num := 1, timestamp := { tv_sec := 5, tv_usec := 0 }, window := 0 },
         none] = true ∧
      sender_is_complete sender_three_slots = false ∧
      (transfer_body 1470 (fun _ => { tv_sec := 5, tv_usec := 250 }) (sender_three_slots,
        [some { next_seq_num := 1, timestamp := { tv_sec := 5, tv_usec := 0 }, window := 0 },
         none])).1.window_size = 1 ∧
      (transfer_body 1470 (fun _ => { tv_sec := 5, tv_usec := 250 }) (sender_three_slots,
        [some { next_seq_num := 1, timestamp := { tv_sec := 5, tv_usec := 0 }, window := 0 },
         none])).1.rtt_est = 125218 ∧
      (transfer_body 1470 (fun _ => { tv_sec := 5, tv_usec := 250 }) (sender_three_slots,
        [some { next_seq_num := 1, timestamp := { tv_sec := 5, tv_usec := 0 }, window := 0 },
         none])).1.rtt_dev = 749862 ∧
      (transfer_body 1470 (fun _ => { tv_sec := 5, tv_usec := 250 }) (sender_three_slots,
        [none])).1.rtt_est = 1000000 :=
  ⟨by decide, by decide,
    (rtt_hard_cap 1470 (fun _ => { tv_sec := 5, tv_usec := 250 }) sender_three_slots
      [some { next_seq_num := 1, timestamp := { tv_sec := 5, tv_usec := 0 }, window := 0 },
       none] 0 sender_three_slots
      { packets_recv := 0, should_slow_start := 0, should_recover_fast := 0, dup_count := 0 }
      { next_seq_num := 1, timestamp := { tv_sec := 5, tv_usec := 0 }, window := 0 } 0 []
      (by decide) (by decide)).2.2.2.1,
    by decide, by decide, by decide⟩

end ReliableTransfer
